import Mathlib

/-!
# NeuralNet-C: forward pass, back-propagation, gradient descent and model saving

A shallow embedding of `helpers.c` and of the network engine in `main.c`.

* A `double` is an element of an ordered field `α` (the real numbers in the
  analytic theorems, the rationals when a definition is evaluated); `exp` is
  passed as a parameter.
* A `double *` buffer is a `List α`; every element read and write is
  bounds-checked and an access outside the buffer makes the whole call `none`.
* A `double **` table of per-layer views is a `List (List α)`: entry `i` is
  the buffer that `table[i]` points to.  The views are disjoint slices of one
  arena (`viewAt`), so a write through one view changes no other view.
* `size_t` is 64 bits wide; index arithmetic that stays inside a buffer does
  not wrap, the subtraction `layers_count - 1` does (`sizeSub`).
-/

namespace NeuralNet

/-! ## Memory and loops -/

/-- Bounds-checked read `buf[i]`. -/
def rd {β : Type} (buf : List β) (i : Nat) : Option β := buf[i]?

/-- Bounds-checked write `buf[i] = v`. -/
def wr {β : Type} (buf : List β) (i : Nat) (v : β) : Option (List β) :=
  if i < buf.length then some (buf.set i v) else none

/-- Read `table[i][j]` through the per-layer view table. -/
def rd2 {β : Type} (table : List (List β)) (i j : Nat) : Option β :=
  (rd table i).bind (fun buf => rd buf j)

/-- Write `table[i][j] = v` through the per-layer view table. -/
def wr2 {β : Type} (table : List (List β)) (i j : Nat) (v : β) : Option (List (List β)) :=
  (rd table i).bind (fun buf => (wr buf j v).bind (fun buf1 => wr table i buf1))

/-- Call a routine that mutates the buffer `table[i]` points to. -/
def onBuf {β : Type} (table : List (List β)) (i : Nat) (f : List β → Option (List β)) :
    Option (List (List β)) :=
  (rd table i).bind (fun buf => (f buf).bind (fun buf1 => wr table i buf1))

/-- The loop `for (size_t i = 0; i < n; i++) body`: the body runs at
`i = 0, 1, ..., n - 1` in this order, threading the state. -/
def forLoop {σ : Type} (body : Nat → σ → Option σ) : Nat → σ → Option σ
  | 0, s => some s
  | n + 1, s => (forLoop body n s).bind (body n)

/-- The loop `while (layer < bound) { body; layer++; }` entered with
`layer = start`: the body runs at `start, start + 1, ..., bound - 1`. -/
def whileLt {σ : Type} (body : Nat → σ → Option σ) (start bound : Nat) (s : σ) : Option σ :=
  forLoop (fun k st => body (start + k) st) (bound - start) s

/-- The loop `while (layer-- > 0) body` entered with `layer = n`: the body
runs at `n - 1, n - 2, ..., 0` in this order. -/
def downLoop {σ : Type} (body : Nat → σ → Option σ) : Nat → σ → Option σ
  | 0, s => some s
  | n + 1, s => (body n s).bind (downLoop body n)

/-- Number of values of a `size_t`. -/
def SIZE_MOD : Nat := 2 ^ 64

/-- Subtraction of two `size_t` values, wrapping below zero. -/
def sizeSub (a b : Nat) : Nat := (a + SIZE_MOD - b % SIZE_MOD) % SIZE_MOD

/-! ## helpers.c -/

section Helpers

variable {α : Type} [LinearOrderedField α]

/-- The function `Activation` (ReLU): `input >= 0.0 ? input : 0.0`. -/
def Activation (input : α) : α := if input ≥ 0 then input else 0

/-- The function `OutputActivation` (sigmoid): `1.0 / (1.0 + exp(-input))`. -/
def OutputActivation (exp : α → α) (input : α) : α := 1 / (1 + exp (-input))

/-- The function `ActivationPrime`: `output[i] = input[i] >= 0.0 ? 1.0 : 0.0` for `i < len`. -/
def ActivationPrime (len : Nat) (output input : List α) : Option (List α) :=
  forLoop (fun i out =>
    (rd input i).bind (fun x => wr out i (if x ≥ 0 then 1 else 0))) len output

/-- The function `Cost`: total squared error, accumulated from `0.0` in index order. -/
def Cost (len : Nat) (output intended : List α) : Option α :=
  forLoop (fun i totalError =>
    (rd output i).bind (fun o => (rd intended i).bind (fun t =>
      some (totalError + (o - t) * (o - t))))) len 0

/-- The function `CostPrimeWrtDeactivated`: `funcOutput[i] = 2.0 * (netoutput[i] - intended[i])`
followed by `funcOutput[i] *= netoutput[i] * (1.0 - netoutput[i])`. -/
def CostPrimeWrtDeactivated (len : Nat) (funcOutput netoutput intended : List α) :
    Option (List α) :=
  forLoop (fun i out =>
    (rd netoutput i).bind (fun o => (rd intended i).bind (fun t =>
      (wr out i (2 * (o - t))).bind (fun out1 =>
        (rd out1 i).bind (fun f => wr out1 i (f * (o * (1 - o)))))))) len funcOutput

/-- The function `ActivateVector`: `outVector[i] = Activation(inVector[i])`. -/
def ActivateVector (length : Nat) (inVector outVector : List α) : Option (List α) :=
  forLoop (fun i out => (rd inVector i).bind (fun x => wr out i (Activation x))) length outVector

/-- The function `ActivateOutputVector`: `outVector[i] = OutputActivation(inVector[i])`. -/
def ActivateOutputVector (exp : α → α) (length : Nat) (inVector outVector : List α) :
    Option (List α) :=
  forLoop (fun i out =>
    (rd inVector i).bind (fun x => wr out i (OutputActivation exp x))) length outVector

/-- The function `AddVector`: `vectorA[i] += vectorB[i]`. -/
def AddVector (length : Nat) (vectorA vectorB : List α) : Option (List α) :=
  forLoop (fun i a =>
    (rd a i).bind (fun x => (rd vectorB i).bind (fun y => wr a i (x + y)))) length vectorA

/-- The function `TransformVector`: `outvector = matrix * invector` for a row-major
`height x width` matrix; each row sum starts at `0.0` and adds
`matrix_row[j] * invector[j]` in column order. -/
def TransformVector (width height : Nat) (matrix invector outvector : List α) :
    Option (List α) :=
  forLoop (fun i out =>
    (forLoop (fun j sum =>
      (rd matrix (i * width + j)).bind (fun m => (rd invector j).bind (fun x =>
        some (sum + m * x)))) width 0).bind (fun sum => wr out i sum)) height outvector

/-- Loop state of `Descend`: the two loop-carried locals and the two tables it mutates. -/
structure DescendState (α : Type) where
  /-- Column count of the current layer's weight matrix. -/
  weightsWidth : Nat
  /-- Buffer `prevLayer` points to. -/
  prevLayer : List α
  /-- Per-layer weight matrices. -/
  weights : List (List α)
  /-- Per-layer bias vectors. -/
  biases : List (List α)

/-- The function `Descend`: one gradient-descent step over every weight and bias. -/
def Descend (layers_count : Nat) (layer_lengths : List Nat) (inputSize : Nat)
    (inputLayer : List α) (activated_neurons weights biases biasesJacobian : List (List α))
    (learningRate : α) : Option (List (List α) × List (List α)) :=
  (forLoop (fun layer (st : DescendState α) =>
    (rd layer_lengths layer).bind (fun len =>
      (forLoop (fun row (st : DescendState α) =>
        (forLoop (fun col (st : DescendState α) =>
          (rd2 st.weights layer (row * st.weightsWidth + col)).bind (fun w =>
            (rd st.prevLayer col).bind (fun p =>
              (rd2 biasesJacobian layer row).bind (fun j =>
                (wr2 st.weights layer (row * st.weightsWidth + col)
                  (w - learningRate * p * j)).bind (fun ws =>
                    some { st with weights := ws }))))) st.weightsWidth st).bind (fun st =>
          (rd2 st.biases layer row).bind (fun b =>
            (rd2 biasesJacobian layer row).bind (fun j =>
              (wr2 st.biases layer row (b - learningRate * j)).bind (fun bs =>
                some { st with biases := bs }))))) len st).bind (fun st =>
        (rd layer_lengths layer).bind (fun len1 =>
          (rd activated_neurons layer).bind (fun a =>
            some { st with weightsWidth := len1, prevLayer := a })))))
    layers_count
    { weightsWidth := inputSize, prevLayer := inputLayer, weights := weights, biases := biases }).bind
  (fun st => some (st.weights, st.biases))

end Helpers

/-! ## main.c: the two passes -/

section Passes

variable {α : Type} [LinearOrderedField α]

/-- One of the three blocks of `ForwardPass`: `TransformVector`, `AddVector` and
the activation routine `activate` (`ActivateVector` or `ActivateOutputVector`)
on layer `layer`, reading `source` (of `width` entries) through
`weights[layer]`.  The state is the pair of tables
`(deactivated_neurons, activated_neurons)`. -/
def layerBlock (activate : Nat → List α → List α → Option (List α)) (width : Nat)
    (source : List α) (layer : Nat) (layer_lengths : List Nat)
    (weights biases : List (List α)) (st : List (List α) × List (List α)) :
    Option (List (List α) × List (List α)) :=
  (rd layer_lengths layer).bind (fun len =>
  (rd weights layer).bind (fun w =>
  (onBuf st.1 layer (fun d => TransformVector width len w source d)).bind (fun deact1 =>
  (rd biases layer).bind (fun b =>
  (onBuf deact1 layer (fun d => AddVector len d b)).bind (fun deact2 =>
  (rd deact2 layer).bind (fun d =>
  (onBuf st.2 layer (fun a => activate len d a)).bind (fun act1 =>
  some (deact2, act1))))))))

/-- The function `ForwardPass`: layer 0 from `inputLayer`, the hidden layers
`1 .. layers_count - 2` in the `while` loop, and the block after the loop
(at the value `layer` has when the loop is left) with the output
activation.  The result is the pair of tables
`(deactivated_neurons, activated_neurons)`. -/
def ForwardPass (exp : α → α) (inputLayerSize : Nat) (inputLayer : List α) (layers_count : Nat)
    (layer_lengths : List Nat) (weights biases deactivated_neurons activated_neurons :
      List (List α)) : Option (List (List α) × List (List α)) :=
  (layerBlock ActivateVector inputLayerSize inputLayer 0 layer_lengths weights biases
    (deactivated_neurons, activated_neurons)).bind (fun st =>
  (whileLt (fun layer st =>
      (rd layer_lengths (layer - 1)).bind (fun width =>
      (rd st.2 (layer - 1)).bind (fun source =>
      layerBlock ActivateVector width source layer layer_lengths weights biases st)))
    1 (sizeSub layers_count 1) st).bind (fun st =>
  (rd layer_lengths (max 1 (sizeSub layers_count 1) - 1)).bind (fun width =>
  (rd st.2 (max 1 (sizeSub layers_count 1) - 1)).bind (fun source =>
  layerBlock (ActivateOutputVector exp) width source (max 1 (sizeSub layers_count 1))
    layer_lengths weights biases st))))

/-- The function `BackPropagate`: the output layer's jacobian from `CostPrimeWrtDeactivated`,
then every earlier layer from the last hidden one down to layer 0.  The
result is the table `biasJacobian`. -/
def BackPropagate (layers_count : Nat) (layer_lengths : List Nat)
    (weights deactivated_neurons activated_neurons : List (List α)) (intended : List α)
    (biasJacobian : List (List α)) : Option (List (List α)) :=
  (rd layer_lengths (sizeSub layers_count 1)).bind (fun lenOut =>
  (rd activated_neurons (sizeSub layers_count 1)).bind (fun netoutput =>
  (onBuf biasJacobian (sizeSub layers_count 1)
    (fun j => CostPrimeWrtDeactivated lenOut j netoutput intended)).bind (fun jac =>
  downLoop (fun layer jac =>
    (rd layer_lengths layer).bind (fun len =>
    (rd deactivated_neurons layer).bind (fun d =>
    (onBuf jac layer (fun j => ActivationPrime len j d)).bind (fun jac1 =>
    forLoop (fun row jac =>
      (rd layer_lengths (layer + 1)).bind (fun lenNext =>
      (forLoop (fun i sum =>
        (rd2 jac (layer + 1) i).bind (fun jn =>
        (rd layer_lengths layer).bind (fun len2 =>
        (rd2 weights (layer + 1) (i * len2 + row)).bind (fun w =>
        some (sum + jn * w))))) lenNext 0).bind (fun sum =>
      (rd2 jac layer row).bind (fun cur =>
      wr2 jac layer row (cur * sum))))) len jac1))))
    (sizeSub layers_count 1) jac)))

end Passes

/-! ## main.c: arena layout, evaluation arg-max, model saving -/

section Main

variable {α : Type}

/-- The product `row_count * col_count` of two `uint32_t` values, as `main`
computes the input width. -/
def inputWidth (row_count col_count : Nat) : Nat := (row_count * col_count) % 2 ^ 32

/-- The count `total_neuron_count`: the sum of the layer widths. -/
def total_neuron_count (layers_count : Nat) (layer_lengths : List Nat) : Option Nat :=
  forLoop (fun i total =>
    (rd layer_lengths i).bind (fun len => some ((total + len) % SIZE_MOD))) layers_count 0

/-- The count `total_weight_count`: `(row_count * col_count) * layer_lengths[0]` plus
`layer_lengths[i - 1] * layer_lengths[i]` for `i = 1 .. layers_count - 1`. -/
def total_weight_count (inputSize layers_count : Nat) (layer_lengths : List Nat) : Option Nat :=
  (rd layer_lengths 0).bind (fun len0 =>
  whileLt (fun i total =>
    (rd layer_lengths (i - 1)).bind (fun prev => (rd layer_lengths i).bind (fun len =>
      some ((total + prev * len) % SIZE_MOD)))) 1 layers_count ((inputSize * len0) % SIZE_MOD))

/-- The pointer table filled by `biases[i] = &all_biases[offset]; offset += layer_lengths[i]`
(the same loop sets up `activated_neurons`, `deactivated_neurons` and
`biasJacobians`); a pointer is its offset into the arena.  The state is
`(offset, table)`. -/
def neuronViews (layers_count : Nat) (layer_lengths : List Nat) : Option (List Nat) :=
  (forLoop (fun i (st : Nat × List Nat) =>
    (wr st.2 i st.1).bind (fun table => (rd layer_lengths i).bind (fun len =>
      some ((st.1 + len) % SIZE_MOD, table)))) layers_count
    (0, List.replicate layers_count 0)).bind (fun st => some st.2)

/-- The pointer table `weights`: `weights[0] = &all_weights[0]`, then
`weights[i] = &all_weights[offset]` with `offset` advanced by the size of
each matrix. -/
def weightViews (inputSize layers_count : Nat) (layer_lengths : List Nat) : Option (List Nat) :=
  (wr (List.replicate layers_count 0) 0 0).bind (fun table =>
  (rd layer_lengths 0).bind (fun len0 =>
  (whileLt (fun i (st : Nat × List Nat) =>
    (wr st.2 i st.1).bind (fun table => (rd layer_lengths (i - 1)).bind (fun prev =>
      (rd layer_lengths i).bind (fun len => some ((st.1 + prev * len) % SIZE_MOD, table)))))
    1 layers_count ((inputSize * len0) % SIZE_MOD, table)).bind (fun st => some st.2)))

/-- The `size` arena entries a view pointer at `offset` gives access to. -/
def viewAt (arena : List α) (offset size : Nat) : List α := (arena.drop offset).take size

/-- The value of `sizeof(double*)` (and of `sizeof(size_t)`, `sizeof(uint64_t)`)
where a `size_t` has 64 bits. -/
def sizeof_pointer : Nat := 8

/-- The number of cells of `size` bytes in the block `malloc(count * size)`
returns: the byte count `count * size` is computed in `size_t` and wraps, so
the block holds `count` cells only while `count * size` stays below `2^64`. -/
def mallocCells (count size : Nat) : Nat := (count * size % SIZE_MOD) / size

/-- The evaluation loop's arg-max: `largestindex = 0`, then for every `i` in
order `if (out[i] > out[largestindex]) largestindex = i`. -/
def largestindex [LinearOrder α] (len : Nat) (out : List α) : Option Nat :=
  forLoop (fun i largest =>
    (rd out i).bind (fun x => (rd out largest).bind (fun y =>
      some (if x > y then i else largest)))) len 0

/-- One item of the model file. -/
inductive Field (α : Type) where
  /-- A `uint16_t`. -/
  | u16 (v : Nat)
  /-- A `uint64_t`. -/
  | u64 (v : Nat)
  /-- A `double`. -/
  | f64 (v : α)
deriving DecidableEq

/-- Size in bytes of a file item. -/
def Field.byteSize : Field α → Nat
  | .u16 _ => 2
  | .u64 _ => 8
  | .f64 _ => 8

/-- Total size in bytes of a file. -/
def fileBytes (file : List (Field α)) : Nat := (file.map Field.byteSize).sum

/-- The value of `sizeof(double)`, which the float-width tag of the model file
records: 8 where a `double` is an IEEE-754 binary64. -/
def sizeof_double : Nat := 8

/-- The call `fwrite(buf, size, count, file)`: reads `count` items of `buf`, appends to
the stream as many of them as it accepts (`room`), and returns that number
together with the stream.  The list is what the stream has accepted: the
items sit in its buffer until they are written out, at the latest by
`fclose`, and reach the device only then. -/
def fwrite (buf : List (Field α)) (count room : Nat) (file : List (Field α)) :
    Option (Nat × List (Field α)) :=
  if count ≤ buf.length then some (min count room, file ++ buf.take (min count room)) else none

/-- How the save block of `main` ends, with what the stream has accepted. -/
inductive SaveResult (α : Type) where
  /-- The call to `fopen` returned `NULL`. -/
  | openError
  /-- The call to `malloc` returned `NULL`; the file was opened (and truncated). -/
  | allocError (file : List (Field α))
  /-- A `fwrite` was short (`fWriteError`); the stream holds what was accepted. -/
  | writeError (file : List (Field α))
  /-- All seven `fwrite` calls returned their full count. -/
  | saved (file : List (Field α))
deriving DecidableEq

/-- The statement `if (fwrite(buf, size, count, savefile) != count) goto fWriteError;`
followed by the rest `next` of the save block: a short write ends the block
at `fWriteError` with the file as written so far. -/
def fwriteOrFail (buf : List (Field α)) (count room : Nat) (file : List (Field α))
    (next : List (Field α) → Option (SaveResult α)) : Option (SaveResult α) :=
  (fwrite buf count room file).bind (fun r =>
    if r.1 ≠ count then some (.writeError r.2) else next r.2)

/-- The save block of `main` (after a non-empty filename was entered).
`fopenOk` and `mallocOk` say whether `fopen` and `malloc` succeed, `heap i`
is the indeterminate value the freshly allocated cell `layer_lengths_64[i]`
holds, and `room k` is the number of items the `k`-th `fwrite` can write.
A `uint64_t` has the range of a `size_t`.  The block never reads
`layer_lengths`. -/
def saveBlock (row_count col_count layers_count : Nat) (all_weights all_biases : List α)
    (total_weight_count total_neuron_count : Nat) (fopenOk mallocOk : Bool)
    (heap : Nat → Nat) (room : Nat → Nat) : Option (SaveResult α) :=
  if !fopenOk then some .openError else
  if !mallocOk then some (.allocError []) else
  fwriteOrFail [Field.u16 1] 1 (room 0) [] (fun file =>
  fwriteOrFail [Field.u64 (inputWidth row_count col_count)] 1 (room 1) file (fun file =>
  fwriteOrFail [Field.u64 (layers_count % SIZE_MOD)] 1 (room 2) file (fun file =>
  fwriteOrFail
    ((List.range (layers_count % SIZE_MOD)).map (fun i => Field.u64 (heap i % SIZE_MOD)))
    (layers_count % SIZE_MOD) (room 3) file (fun file =>
  fwriteOrFail [Field.u64 sizeof_double] 1 (room 4) file (fun file =>
  fwriteOrFail (all_weights.map Field.f64) total_weight_count (room 5) file (fun file =>
  fwriteOrFail (all_biases.map Field.f64) total_neuron_count (room 6) file (fun file =>
  some (.saved file))))))))

/-- The call `fclose(savefile)`: the stream writes out what it accepted and
the file is closed.  `flushed` is the number of items the device holds in the
end; the call succeeds when that is all of them and returns `EOF` otherwise.
The second component is the content of the file afterwards. -/
def fclose (file : List (Field α)) (flushed : Nat) : Bool × List (Field α) :=
  (decide (file.length ≤ flushed), file.take flushed)

/-- Whether the save block prints `Successfully written to the file`.  It does
so after seven complete `fwrite` calls, before `fclose` runs; `main` calls
`fclose` as a statement and never looks at its result.  The other three ends
print the messages of `fopen`, of `malloc` and of `fWriteError`. -/
def reportsSuccess : SaveResult α → Bool
  | .saved _ => true
  | _ => false

/-- What the chosen filename holds when the save block is left (`none`: what it
held before).  A failing `fopen` touches nothing; after a failing `malloc`
the file has been created or truncated by mode `wb` and the block returns to
the prompt without closing it; at `fWriteError` and after a complete save
`fclose` runs on what the stream accepted. -/
def savedFile (r : SaveResult α) (flushed : Nat) : Option (List (Field α)) :=
  match r with
  | .openError => none
  | .allocError file => some file
  | .writeError file => some (fclose file flushed).2
  | .saved file => some (fclose file flushed).2

/-- The squared-error cost of the output layer as a function of its deactivated
vector: `ActivateOutputVector` into the buffer `scratch`, then `Cost`. -/
def outputCost {α : Type} [LinearOrderedField α] (exp : α → α) (len : Nat)
    (deactivated scratch intended : List α) : Option α :=
  (ActivateOutputVector exp len deactivated scratch).bind (fun a => Cost len a intended)

/-- The cost of one sample as the evaluation loop of `main` computes it:
`ForwardPass`, then `Cost(layer_lengths[layers_count - 1],
activated_neurons[layers_count - 1], intendedOutput)`. -/
def sampleCost {α : Type} [LinearOrderedField α] (exp : α → α) (inputLayerSize : Nat)
    (inputLayer : List α) (layers_count : Nat) (layer_lengths : List Nat)
    (weights biases deactivated_neurons activated_neurons : List (List α))
    (intendedOutput : List α) : Option α :=
  (ForwardPass exp inputLayerSize inputLayer layers_count layer_lengths weights biases
    deactivated_neurons activated_neurons).bind (fun st =>
  (rd layer_lengths (sizeSub layers_count 1)).bind (fun len =>
  (rd st.2 (sizeSub layers_count 1)).bind (fun out => Cost len out intendedOutput)))

end Main

/-! ## Reading results -/

/-- Entry `k` of a buffer (`0` outside it). -/
def vget {α : Type} [Zero α] (buf : List α) (k : Nat) : α := buf.getD k 0

/-- Entry `k` of the buffer `table[i]` (`0` outside). -/
def at2 {α : Type} [Zero α] (table : List (List α)) (i k : Nat) : α := (table.getD i []).getD k 0

/-! ## Specification vocabulary -/

/-- The buffer `s` is `s0` with entries `0 .. n - 1` overwritten by `val`. -/
def Fills {β : Type} (n : Nat) (val : Nat → β) (s0 s : List β) : Prop :=
  s.length = s0.length ∧ (∀ k, k < n → s[k]? = some (val k)) ∧ (∀ k, n ≤ k → s[k]? = s0[k]?)

section Vocabulary

variable {α : Type} [LinearOrderedField α]

/-- Column count of layer `i`'s weight matrix: the input width for layer 0, the
previous layer's width otherwise. -/
def srcWidth (inputLayerSize : Nat) (layer_lengths : List Nat) (i : Nat) : Nat :=
  if i = 0 then inputLayerSize else layer_lengths.getD (i - 1) 0

/-- Entry `c` of the vector layer `i` reads: the input for layer 0, the previous
layer's activated vector otherwise. -/
def srcVal (inputLayer : List α) (activated : List (List α)) (i c : Nat) : α :=
  if i = 0 then vget inputLayer c else at2 activated (i - 1) c

/-- A per-layer table of vectors has `layers_count` views and view `i` has
`layer_lengths[i]` entries. -/
def TableShaped (layers_count : Nat) (layer_lengths : List Nat) (table : List (List α)) : Prop :=
  table.length = layers_count ∧
    ∀ i, i < layers_count → (table.getD i []).length = layer_lengths.getD i 0

/-- The weight table has `layers_count` views and view `i` holds a
`layer_lengths[i] x srcWidth i` matrix. -/
def WeightsShaped (inputLayerSize layers_count : Nat) (layer_lengths : List Nat)
    (weights : List (List α)) : Prop :=
  weights.length = layers_count ∧
    ∀ i, i < layers_count →
      (weights.getD i []).length = layer_lengths.getD i 0 * srcWidth inputLayerSize layer_lengths i

/-- What `ForwardPass` has established once the layers `0 .. k - 1` are
computed, `g i` being the activation of layer `i`. -/
def ForwardDone (g : Nat → α → α) (inputLayerSize : Nat) (inputLayer : List α)
    (layer_lengths : List Nat) (weights biases : List (List α)) (k : Nat)
    (st : List (List α) × List (List α)) : Prop :=
  ∀ i, i < k → ∀ r, r < layer_lengths.getD i 0 →
    at2 st.1 i r = (∑ c ∈ Finset.range (srcWidth inputLayerSize layer_lengths i),
        at2 weights i (r * srcWidth inputLayerSize layer_lengths i + c) *
          srcVal inputLayer st.2 i c) + at2 biases i r ∧
    at2 st.2 i r = g i (at2 st.1 i r)

/-- Activation applied by `ForwardPass` on layer `i` of a network with `layers_count` layers. -/
def layerActivation (exp : α → α) (layers_count i : Nat) : α → α :=
  if i + 1 = layers_count then OutputActivation exp else Activation

/-- Value `BackPropagate` leaves in `biasJacobian[i][r]` for a hidden layer `i`,
computed from the next layer's jacobian held in `jac`. -/
def hiddenJacobian (layer_lengths : List Nat) (weights deactivated_neurons jac : List (List α))
    (i r : Nat) : α :=
  (if at2 deactivated_neurons i r ≥ 0 then 1 else 0) *
    ∑ k ∈ Finset.range (layer_lengths.getD (i + 1) 0),
      at2 jac (i + 1) k * at2 weights (i + 1) (k * layer_lengths.getD i 0 + r)

/-- Value `BackPropagate` leaves in the output layer's `biasJacobian[r]`. -/
def outputJacobian (activated_neurons : List (List α)) (intended : List α)
    (layers_count r : Nat) : α :=
  2 * (at2 activated_neurons (layers_count - 1) r - vget intended r) *
    (at2 activated_neurons (layers_count - 1) r *
      (1 - at2 activated_neurons (layers_count - 1) r))

/-- What `BackPropagate` has established once the layers `n, n + 1, ...` are done. -/
def BackDone (layers_count : Nat) (layer_lengths : List Nat)
    (weights deactivated_neurons activated_neurons : List (List α)) (intended : List α)
    (n : Nat) (jac : List (List α)) : Prop :=
  (∀ r, r < layer_lengths.getD (layers_count - 1) 0 →
    at2 jac (layers_count - 1) r = outputJacobian activated_neurons intended layers_count r) ∧
  ∀ i, n ≤ i → i + 1 < layers_count → ∀ r, r < layer_lengths.getD i 0 →
    at2 jac i r = hiddenJacobian layer_lengths weights deactivated_neurons jac i r

/-- Buffer `prevLayer` points to while `Descend` works on layer `i`. -/
def srcBuf (inputLayer : List α) (activated : List (List α)) (i : Nat) : List α :=
  if i = 0 then inputLayer else activated.getD (i - 1) []

/-- Value `Descend` stores at linear index `idx` of a weight matrix with `w` columns. -/
def descWeight (learningRate : α) (w : Nat) (X0 p J : List α) (idx : Nat) : α :=
  vget X0 idx - learningRate * vget p (idx % w) * vget J (idx / w)

/-- Value `Descend` stores in entry `r` of a bias vector. -/
def descBias (learningRate : α) (Y0 J : List α) (r : Nat) : α :=
  vget Y0 r - learningRate * vget J r

/-- What `Descend` has established once the layers `0 .. k - 1` are updated. -/
def DescendDone (learningRate : α) (inputLayerSize : Nat) (inputLayer : List α)
    (layer_lengths : List Nat) (activated_neurons weights biases jac : List (List α))
    (k : Nat) (weights1 biases1 : List (List α)) : Prop :=
  ∀ l, l < k → ∀ row, row < layer_lengths.getD l 0 →
    (∀ col, col < srcWidth inputLayerSize layer_lengths l →
      at2 weights1 l (row * srcWidth inputLayerSize layer_lengths l + col) =
        at2 weights l (row * srcWidth inputLayerSize layer_lengths l + col) -
          learningRate * srcVal inputLayer activated_neurons l col * at2 jac l row) ∧
    at2 biases1 l row = at2 biases l row - learningRate * at2 jac l row

/-- Number of entries of layer `l`'s weight matrix. -/
def weightSize (inputSize : Nat) (layer_lengths : List Nat) (l : Nat) : Nat :=
  layer_lengths.getD l 0 * srcWidth inputSize layer_lengths l

/-- Number of weights of the network: `inputWidth * W0 + sum_{i=1..L-1} W(i-1) * W(i)`. -/
def weightCount (inputSize layers_count : Nat) (layer_lengths : List Nat) : Nat :=
  inputSize * layer_lengths.getD 0 0 +
    ∑ i ∈ Finset.range (layers_count - 1), layer_lengths.getD i 0 * layer_lengths.getD (i + 1) 0

/-- Number of neurons (and of biases) of the network: `sum_i W(i)`. -/
def neuronCount (layers_count : Nat) (layer_lengths : List Nat) : Nat :=
  ∑ i ∈ Finset.range layers_count, layer_lengths.getD i 0

/-- The model file as the specification lays it out for a network: the marker
1, the input width, the layer count, the layer widths in order, the
float-width tag 8, the weights of the arena, the biases of the arena. -/
def specModelFile (inputSize layers_count : Nat) (layer_lengths : List Nat)
    (all_weights all_biases : List α) : List (Field α) :=
  [Field.u16 1, Field.u64 inputSize, Field.u64 layers_count] ++
    layer_lengths.map Field.u64 ++ [Field.u64 8] ++ all_weights.map Field.f64 ++
    all_biases.map Field.f64

/-- The deactivated value of neuron `r` of layer `i`, as a function of the
weights `W i r c`, the biases `B i r` and the input `x c`; `g i` is the
activation of layer `i` and `width i` the number of values layer `i` reads. -/
def netZ (g : Nat → α → α) (width : Nat → Nat) (W : Nat → Nat → Nat → α) (B : Nat → Nat → α)
    (x : Nat → α) : Nat → Nat → α
  | 0, r => (∑ c ∈ Finset.range (width 0), W 0 r c * x c) + B 0 r
  | i + 1, r => (∑ c ∈ Finset.range (width (i + 1)),
      W (i + 1) r c * g i (netZ g width W B x i c)) + B (i + 1) r

/-- The value layer `i` reads in column `c`: the input, or the previous layer's
activated value. -/
def netSrc (g : Nat → α → α) (width : Nat → Nat) (W : Nat → Nat → Nat → α) (B : Nat → Nat → α)
    (x : Nat → α) (i c : Nat) : α :=
  match i with
  | 0 => x c
  | k + 1 => g k (netZ g width W B x k c)

/-- The weights after a descent step with rate `lr` along the jacobian `j`. -/
def stepW (W : Nat → Nat → Nat → α) (src : Nat → Nat → α) (j : Nat → Nat → α) (lr : α)
    (i r c : Nat) : α := W i r c - lr * src i c * j i r

/-- The biases after a descent step with rate `lr` along the jacobian `j`. -/
def stepB (B : Nat → Nat → α) (j : Nat → Nat → α) (lr : α) (i r : Nat) : α :=
  B i r - lr * j i r

/-- First-order change of the deactivated value of neuron `r` of layer `i`
under a descent step: the derivative at rate `0`. -/
def netDelta (width : Nat → Nat) (W : Nat → Nat → Nat → α) (src : Nat → Nat → α)
    (z : Nat → Nat → α) (j : Nat → Nat → α) : Nat → Nat → α
  | 0, r => (∑ c ∈ Finset.range (width 0), (-(src 0 c * j 0 r)) * src 0 c) + (-(j 0 r))
  | i + 1, r => (∑ c ∈ Finset.range (width (i + 1)),
      ((-(src (i + 1) c * j (i + 1) r)) * src (i + 1) c +
        W (i + 1) r c * ((if z i c ≥ 0 then 1 else 0) * netDelta width W src z j i c))) +
      (-(j (i + 1) r))

/-- Squared length of the gradient with respect to the parameters of layer `i`:
`sum_r j[i][r]^2 * (1 + sum_c src[i][c]^2)`. -/
def layerGradSq {α : Type} [LinearOrderedField α] (width len : Nat → Nat)
    (src j : Nat → Nat → α) (i : Nat) : α :=
  ∑ r ∈ Finset.range (len i), j i r ^ 2 * (1 + ∑ c ∈ Finset.range (width i), src i c ^ 2)

/-- The sample's cost as a function of the parameters: the squared error of the
output layer's activated values against the target `t`. -/
def netCost {α : Type} [LinearOrderedField α] (g : Nat → α → α) (width len : Nat → Nat)
    (L : Nat) (W : Nat → Nat → Nat → α) (B : Nat → Nat → α) (x t : Nat → α) : α :=
  ∑ k ∈ Finset.range (len (L - 1)),
    (g (L - 1) (netZ g width W B x (L - 1) k) - t k) *
      (g (L - 1) (netZ g width W B x (L - 1) k) - t k)

/-- Accessor `W i r c` of the weight tables: row `r`, column `c` of layer `i`. -/
def weightAt {α : Type} [LinearOrderedField α] (inputLayerSize : Nat) (layer_lengths : List Nat)
    (weights : List (List α)) (i r c : Nat) : α :=
  at2 weights i (r * srcWidth inputLayerSize layer_lengths i + c)

end Vocabulary

/-! ## fileHandling.c: the dataset readers -/

/-- The function `GetEndianness`: the first byte in memory of the `uint16_t`
value 1 is 1 on a little-endian host (`hostLittle`); the result is 1 then,
0 on a big-endian host. -/
def GetEndianness (hostLittle : Bool) : Nat :=
  if (if hostLittle then 1 % 256 else 1 / 256) = 1 then 1 else 0

/-- The function `CorrectEndiannessFromBig` on a `uint32_t`: unchanged on a
big-endian host, the four bytes reversed by masks and shifts otherwise. -/
def CorrectEndiannessFromBig (hostLittle : Bool) (bignum : Nat) : Nat :=
  if GetEndianness hostLittle = 0 then bignum
  else ((((bignum &&& 0x000000ff) <<< 24) % 2 ^ 32) ||| (((bignum &&& 0x0000ff00) <<< 8) % 2 ^ 32)
    ||| ((bignum &&& 0x00ff0000) >>> 8) ||| ((bignum &&& 0xff000000) >>> 24))

/-- The `uint32_t` a host reads from the four bytes at `offset` of a byte
sequence (what `fread` into a packed header field leaves there). -/
def hostWord (hostLittle : Bool) (bytes : List Nat) (offset : Nat) : Nat :=
  if hostLittle then
    bytes.getD offset 0 + bytes.getD (offset + 1) 0 * 2 ^ 8 + bytes.getD (offset + 2) 0 * 2 ^ 16
      + bytes.getD (offset + 3) 0 * 2 ^ 24
  else
    bytes.getD offset 0 * 2 ^ 24 + bytes.getD (offset + 1) 0 * 2 ^ 16
      + bytes.getD (offset + 2) 0 * 2 ^ 8 + bytes.getD (offset + 3) 0

/-- What `GetImages` hands back when it does not return `NULL`. -/
structure ImageSet where
  /-- The views `data[i]`: the bytes reachable through the pointer
  `rawdata + i * (row_count * col_count)`, up to the end of the block. -/
  data : List (List Nat)
  /-- Value stored to `*image_count`. -/
  image_count : Nat
  /-- Value stored to `*row_count`. -/
  row_count : Nat
  /-- Value stored to `*col_count`. -/
  col_count : Nat
deriving DecidableEq

/-- The function `GetImages`; `file` is `none` when `fopen` fails and the file's
bytes otherwise, `mallocData` and `mallocRaw` say whether the two `malloc`
calls succeed, and the result `none` is the `NULL` return.  The products of
the `uint32_t` header fields are taken in `uint32_t`. -/
def GetImages (hostLittle : Bool) (file : Option (List Nat)) (mallocData mallocRaw : Bool) :
    Option ImageSet :=
  match file with
  | none => none
  | some bytes =>
    if bytes.length < 16 then none
    else if hostWord hostLittle bytes 0 ≠ CorrectEndiannessFromBig hostLittle 0x00000803 then none
    else
      let image_count := CorrectEndiannessFromBig hostLittle (hostWord hostLittle bytes 4)
      let row_count := CorrectEndiannessFromBig hostLittle (hostWord hostLittle bytes 8)
      let col_count := CorrectEndiannessFromBig hostLittle (hostWord hostLittle bytes 12)
      if !mallocData then none
      else
        let readbytes := (image_count * row_count % 2 ^ 32) * col_count % 2 ^ 32
        if !mallocRaw then none
        else if (bytes.drop 16).length < readbytes then none
        else
          some { data := (List.range image_count).map (fun i =>
                   ((bytes.drop 16).take readbytes).drop
                     (i * (row_count * col_count % 2 ^ 32) % SIZE_MOD)),
                 image_count := image_count, row_count := row_count, col_count := col_count }

/-- The function `GetLabels`; `file` is `none` when `fopen` fails, `mallocOk`
says whether `malloc` succeeds, and the result `none` is the `NULL` return;
otherwise the labels and the value stored to `*label_count`. -/
def GetLabels (hostLittle : Bool) (file : Option (List Nat)) (mallocOk : Bool) :
    Option (List Nat × Nat) :=
  match file with
  | none => none
  | some bytes =>
    if bytes.length < 8 then none
    else if hostWord hostLittle bytes 0 ≠ CorrectEndiannessFromBig hostLittle 0x00000801 then none
    else
      let label_count := CorrectEndiannessFromBig hostLittle (hostWord hostLittle bytes 4)
      if !mallocOk then none
      else if (bytes.drop 8).length < label_count then none
      else some ((bytes.drop 8).take label_count, label_count)

/-! ## main.c: the training and evaluation loops -/

section Loops

variable {α : Type} [LinearOrderedField α]

/-- The buffers `main` allocates for the network, the input and the target. -/
structure Network (α : Type) where
  /-- The buffer `inputLayer`. -/
  inputLayer : List α
  /-- The table `activated_neurons`. -/
  activated_neurons : List (List α)
  /-- The table `deactivated_neurons`. -/
  deactivated_neurons : List (List α)
  /-- The table `weights`. -/
  weights : List (List α)
  /-- The table `biases`. -/
  biases : List (List α)
  /-- The buffer `intendedOutput`. -/
  intendedOutput : List α
  /-- The table `biasJacobians`. -/
  biasJacobians : List (List α)

/-- The loop `inputLayer[i] = (double)(unsigned char)images[image][i] / UCHAR_MAX`
over `i < row_count * col_count`; a pixel is stored as its byte value. -/
def setInputLayer (inputSize : Nat) (images : List (List Nat)) (image : Nat)
    (inputLayer : List α) : Option (List α) :=
  forLoop (fun i buf =>
    (rd2 images image i).bind (fun b => wr buf i (((b % 256 : Nat) : α) / 255)))
    inputSize inputLayer

/-- The call `memset(buf, 0, len * sizeof(double))`: the first `len` entries become `0.0`. -/
def memsetZero (len : Nat) (buf : List α) : Option (List α) :=
  forLoop (fun i b => wr b i 0) len buf

/-- The two statements that build the target:
`memset(intendedOutput, 0, len * sizeof(double))` and
`intendedOutput[(unsigned char)labels[image]] = 1.0`. -/
def setTarget (len : Nat) (labels : List Nat) (image : Nat) (intendedOutput : List α) :
    Option (List α) :=
  (memsetZero len intendedOutput).bind (fun t =>
  (rd labels image).bind (fun label => wr t (label % 256) 1))

/-- The body of the training loop for sample `image`: set the input,
`ForwardPass`, build the target, `BackPropagate`, `Descend`. -/
def trainSample (exp : α → α) (inputSize layers_count : Nat) (layer_lengths : List Nat)
    (images : List (List Nat)) (labels : List Nat) (image : Nat) (learningRate : α)
    (net : Network α) : Option (Network α) :=
  (setInputLayer inputSize images image net.inputLayer).bind (fun inp =>
  (ForwardPass exp inputSize inp layers_count layer_lengths net.weights net.biases
    net.deactivated_neurons net.activated_neurons).bind (fun st =>
  (rd layer_lengths (sizeSub layers_count 1)).bind (fun lenOut =>
  (setTarget lenOut labels image net.intendedOutput).bind (fun target =>
  (BackPropagate layers_count layer_lengths net.weights st.1 st.2 target
    net.biasJacobians).bind (fun jac =>
  (Descend layers_count layer_lengths inputSize inp st.2 net.weights net.biases jac
    learningRate).bind (fun wb =>
  some { inputLayer := inp, activated_neurons := st.2, deactivated_neurons := st.1,
         weights := wb.1, biases := wb.2, intendedOutput := target,
         biasJacobians := jac }))))))

/-- The count `trainingCount = image_count < label_count ? image_count : label_count`. -/
def trainingCount (image_count label_count : Nat) : Nat :=
  if image_count < label_count then image_count else label_count

/-- The training loop of one epoch, `for (image = 0; image < trainingCount; image++)`.
The second component of the state logs, newest first, the value of
`learningRate` at each sample the loop ran. -/
def trainingPass (exp : α → α) (inputSize layers_count : Nat) (layer_lengths : List Nat)
    (images : List (List Nat)) (labels : List Nat) (image_count label_count : Nat)
    (learningRate : α) (net : Network α) : Option (Network α × List α) :=
  forLoop (fun image (st : Network α × List α) =>
    (trainSample exp inputSize layers_count layer_lengths images labels image learningRate
      st.1).bind (fun net1 => some (net1, learningRate :: st.2)))
    (trainingCount image_count label_count) (net, [])

/-- The value `(size_t)test_labels[image]` of a label stored as the byte
`label`: the byte itself where `char` is unsigned, its sign extension to 64
bits where `char` is signed. -/
def labelAsSize (charSigned : Bool) (label : Nat) : Nat :=
  if charSigned && decide (128 ≤ label % 256) then SIZE_MOD - 256 + label % 256
  else label % 256

/-- The statement `if ((size_t)test_labels[image] == largestindex) numRight++`. -/
def countIfRight (charSigned : Bool) (label largest numRight : Nat) : Nat :=
  if labelAsSize charSigned label = largest then numRight + 1 else numRight

/-- Loop state of the evaluation pass. -/
structure EvalState (α : Type) where
  /-- The counter `numRight`. -/
  numRight : Nat
  /-- The accumulator `totalCost`. -/
  totalCost : α
  /-- The network buffers. -/
  net : Network α

/-- The body of the evaluation loop for sample `image`: set the input,
`ForwardPass`, arg-max, build the target, add `Cost`, count a right answer. -/
def evalSample (exp : α → α) (charSigned : Bool) (inputSize layers_count : Nat)
    (layer_lengths : List Nat) (test_images : List (List Nat)) (test_labels : List Nat)
    (image : Nat) (st : EvalState α) : Option (EvalState α) :=
  (setInputLayer inputSize test_images image st.net.inputLayer).bind (fun inp =>
  (ForwardPass exp inputSize inp layers_count layer_lengths st.net.weights st.net.biases
    st.net.deactivated_neurons st.net.activated_neurons).bind (fun fw =>
  (rd layer_lengths (sizeSub layers_count 1)).bind (fun lenOut =>
  (rd fw.2 (sizeSub layers_count 1)).bind (fun out =>
  (largestindex lenOut out).bind (fun largest =>
  (setTarget lenOut test_labels image st.net.intendedOutput).bind (fun target =>
  (Cost lenOut out target).bind (fun cost =>
  (rd test_labels image).bind (fun label =>
  some { numRight := countIfRight charSigned label largest st.numRight,
         totalCost := st.totalCost + cost,
         net := { st.net with inputLayer := inp, activated_neurons := fw.2,
                              deactivated_neurons := fw.1,
                              intendedOutput := target } }))))))))

/-- The evaluation loop of one epoch,
`for (image = 0; image < test_image_count; image++)`, from `numRight = 0` and
`totalCost = 0.0`. -/
def evaluationPass (exp : α → α) (charSigned : Bool) (inputSize layers_count : Nat)
    (layer_lengths : List Nat) (test_images : List (List Nat)) (test_labels : List Nat)
    (test_image_count : Nat) (net : Network α) : Option (EvalState α) :=
  forLoop (evalSample exp charSigned inputSize layers_count layer_lengths test_images
    test_labels) test_image_count { numRight := 0, totalCost := 0, net := net }

end Loops

/-! ## main.c: the epoch loop and the save prompt -/

section Epochs

variable {α : Type} [LinearOrderedField α]

/-- One line typed at the save prompt, and how the system answers the save
block that line starts. -/
structure SaveAttempt where
  /-- The characters read by `getchar` before the newline (or the end of input). -/
  filename : List Nat
  /-- Whether `fopen` succeeds. -/
  fopenOk : Bool
  /-- Whether `malloc` succeeds. -/
  mallocOk : Bool
  /-- The indeterminate contents of the block `malloc` returns. -/
  heap : Nat → Nat
  /-- The number of items the `k`-th `fwrite` can write. -/
  room : Nat → Nat

/-- The code from `CheckSaveLabel:` to the end of the epoch body.  An empty
line (or the end of input, when no line is left) skips the save; a failing
`fopen`, `malloc` or `fwrite` jumps back to `CheckSaveLabel` for the next
line; a complete save leaves the block.  The result lists how each save
block that ran ended. -/
def savePrompt (row_count col_count layers_count : Nat) (all_weights all_biases : List α)
    (total_weight_count total_neuron_count : Nat) :
    List SaveAttempt → Option (List (SaveResult α))
  | [] => some []
  | a :: rest =>
    if a.filename.getD 0 0 = 0 then some []
    else
      (saveBlock row_count col_count layers_count all_weights all_biases total_weight_count
        total_neuron_count a.fopenOk a.mallocOk a.heap a.room).bind (fun r =>
        match r with
        | .saved file => some [.saved file]
        | r =>
          (savePrompt row_count col_count layers_count all_weights all_biases
            total_weight_count total_neuron_count rest).bind (fun l => some (r :: l)))

/-- What the epoch loop of `main` works with and never changes. -/
structure Setup (α : Type) where
  /-- The function `exp` of the C library. -/
  exp : α → α
  /-- Whether plain `char` is a signed type on the platform. -/
  charSigned : Bool
  /-- The image height from the training file. -/
  row_count : Nat
  /-- The image width from the training file. -/
  col_count : Nat
  /-- The number of layers. -/
  layers_count : Nat
  /-- The layer widths. -/
  layer_lengths : List Nat
  /-- The training images. -/
  images : List (List Nat)
  /-- The training labels. -/
  labels : List Nat
  /-- The count from the training image file. -/
  image_count : Nat
  /-- The count from the training label file. -/
  label_count : Nat
  /-- The test images. -/
  test_images : List (List Nat)
  /-- The test labels. -/
  test_labels : List Nat
  /-- The count from the test image file. -/
  test_image_count : Nat
  /-- The number of entries of the weight arena. -/
  total_weight_count : Nat
  /-- The number of entries of the bias arena. -/
  total_neuron_count : Nat
  /-- The configured `learningRateMultiplier`. -/
  learningRateMultiplier : α

/-- Loop state of the epoch loop. -/
structure EpochState (α : Type) where
  /-- The variable `learningRate`. -/
  learningRate : α
  /-- The network buffers. -/
  net : Network α
  /-- A log, newest first, of the training samples run so far: the epoch of
  each and the value of `learningRate` at that time. -/
  descendRates : List (Nat × α)

/-- The body of the epoch loop for epoch number `epoch`, followed by the loop's
increment `learningRate *= learningRateMultiplier`: the training pass, the
evaluation pass, the save prompt (answered by the lines `attempts epoch`).
The arenas are the concatenations of the per-layer views. -/
def epochBody (s : Setup α) (attempts : Nat → List SaveAttempt) (epoch : Nat)
    (st : EpochState α) : Option (EpochState α) :=
  (trainingPass s.exp (inputWidth s.row_count s.col_count) s.layers_count s.layer_lengths
    s.images s.labels s.image_count s.label_count st.learningRate st.net).bind (fun tr =>
  (evaluationPass s.exp s.charSigned (inputWidth s.row_count s.col_count) s.layers_count
    s.layer_lengths s.test_images s.test_labels s.test_image_count tr.1).bind (fun ev =>
  (savePrompt s.row_count s.col_count s.layers_count ev.net.weights.flatten
    ev.net.biases.flatten s.total_weight_count s.total_neuron_count
    (attempts epoch)).bind (fun _ =>
  some { learningRate := st.learningRate * s.learningRateMultiplier, net := ev.net,
         descendRates := tr.2.map (fun r => (epoch, r)) ++ st.descendRates })))

/-- The state in which the loop
`for (epoch = 1; epoch < SIZE_MAX; epoch++, learningRate *= learningRateMultiplier)`
reaches its test with `epoch = n`: epochs `1 .. n - 1` have run. -/
def epochsBefore (s : Setup α) (attempts : Nat → List SaveAttempt) (n : Nat)
    (learningRate : α) (net : Network α) : Option (EpochState α) :=
  whileLt (epochBody s attempts) 1 (min n (SIZE_MOD - 1))
    { learningRate := learningRate, net := net, descendRates := [] }

end Epochs

/-! ## main.c: initialisation of weights and biases -/

section Init

variable {α : Type} [LinearOrderedField α]

/-- The expression
`sqrt(2.0 / fanIn) * ((double)rand() / (double)RAND_MAX - 0.5)` for the value
`r` that `rand()` returned. -/
def heWeight (sqrt : α → α) (RAND_MAX fanIn r : Nat) : α :=
  sqrt (2 / (fanIn : α)) * ((r : α) / (RAND_MAX : α) - 1 / 2)

/-- One of the inner loops `for (j = 0; j < count; j++) weights[i][j] = ...`.  The
state is the weight table and the number of calls of `rand` so far; the
`k`-th call returns `rand k`. -/
def initLayer (sqrt : α → α) (RAND_MAX : Nat) (rand : Nat → Nat) (fanIn i count : Nat)
    (st : List (List α) × Nat) : Option (List (List α) × Nat) :=
  forLoop (fun j (st : List (List α) × Nat) =>
    (wr2 st.1 i j (heWeight sqrt RAND_MAX fanIn (rand st.2))).bind (fun w =>
      some (w, st.2 + 1))) count st

/-- The weight initialisation of `main`: layer 0 with fan-in
`row_count * col_count`, then the layers `1 .. layers_count - 1` with fan-in
`layer_lengths[i - 1]`. -/
def initWeights (sqrt : α → α) (RAND_MAX : Nat) (rand : Nat → Nat)
    (row_count col_count layers_count : Nat) (layer_lengths : List Nat)
    (weights : List (List α)) : Option (List (List α) × Nat) :=
  (rd layer_lengths 0).bind (fun len0 =>
  (initLayer sqrt RAND_MAX rand (inputWidth row_count col_count) 0
    (inputWidth row_count col_count * len0 % SIZE_MOD) (weights, 0)).bind (fun st0 =>
  whileLt (fun i st =>
    (rd layer_lengths (i - 1)).bind (fun prev =>
    (rd layer_lengths i).bind (fun len =>
    initLayer sqrt RAND_MAX rand prev i (prev * len % SIZE_MOD) st)))
    1 layers_count st0))

/-- The bias initialisation of `main`:
`memset(biases[i], 0, layer_lengths[i] * sizeof(double))` for every layer. -/
def initBiases (layers_count : Nat) (layer_lengths : List Nat) (biases : List (List α)) :
    Option (List (List α)) :=
  forLoop (fun i b =>
    (rd layer_lengths i).bind (fun len => onBuf b i (memsetZero len))) layers_count biases

end Init

/-! ## Loading a model file -/

section Load

variable {α : Type} [LinearOrderedField α]

/-- Modelled from the spec: what `load(file)` reconstructs, a network given by
its input width, its layer widths and its two parameter arenas. -/
structure LoadedModel (α : Type) where
  /-- The input width. -/
  inputWidth : Nat
  /-- The layer widths. -/
  layer_lengths : List Nat
  /-- The weights, in arena order. -/
  all_weights : List α
  /-- The biases, in arena order. -/
  all_biases : List α

/-- Modelled from the spec: reading `count` consecutive 64-bit unsigned fields. -/
def readU64s : Nat → List (Field α) → Option (List Nat × List (Field α))
  | 0, file => some ([], file)
  | n + 1, .u64 v :: rest => (readU64s n rest).bind (fun r => some (v :: r.1, r.2))
  | _ + 1, _ => none

/-- Modelled from the spec: reading `count` consecutive floating-point fields. -/
def readF64s : Nat → List (Field α) → Option (List α × List (Field α))
  | 0, file => some ([], file)
  | n + 1, .f64 v :: rest => (readF64s n rest).bind (fun r => some (v :: r.1, r.2))
  | _ + 1, _ => none

/-- Modelled from the spec: the operation `load(file)`, the mirror of the save
block.  It reads the endianness marker, the input width, the layer count,
that many layer widths, the float-width tag (which must be the platform's
`sizeof(double)`), then as many weights and as many biases as the widths it
read call for; it fails when a field is missing. -/
def loadModel (file : List (Field α)) : Option (LoadedModel α) :=
  match file with
  | .u16 1 :: .u64 inputWidth :: .u64 layers_count :: rest =>
    (readU64s layers_count rest).bind (fun ws =>
      match ws.2 with
      | .u64 tag :: rest2 =>
        if tag ≠ sizeof_double then none
        else
          (readF64s (weightCount inputWidth layers_count ws.1) rest2).bind (fun w =>
          (readF64s (neuronCount layers_count ws.1) w.2).bind (fun b =>
          some { inputWidth := inputWidth, layer_lengths := ws.1, all_weights := w.1,
                 all_biases := b.1 }))
      | _ => none)
  | _ => none

end Load

/-! ## The two passes on addressed memory -/

section Addressed

variable {α : Type} [LinearOrderedField α]

/-- The assignment `*p = v` on a memory of `double`s addressed by cell number. -/
def store (m : Nat → α) (p : Nat) (v : α) : Nat → α := fun a => if a = p then v else m a

/-- The loop `for (i = 0; i < n; i++) body` on a state every step is defined on. -/
def iterUp {σ : Type} (body : Nat → σ → σ) : Nat → σ → σ
  | 0, s => s
  | n + 1, s => body n (iterUp body n s)

/-- The loop `while (layer-- > 0) body` entered with `layer = n`. -/
def iterDown {σ : Type} (body : Nat → σ → σ) : Nat → σ → σ
  | 0, s => s
  | n + 1, s => iterDown body n (body n s)

/-- The function `TransformVector` with its three pointers as addresses. -/
def TransformVectorMem (width height matrix invector outvector : Nat) (m : Nat → α) :
    Nat → α :=
  iterUp (fun i m => store m (outvector + i)
    (iterUp (fun j sum => sum + m (matrix + i * width + j) * m (invector + j)) width 0))
    height m

/-- The function `AddVector` with its pointers as addresses. -/
def AddVectorMem (length vectorA vectorB : Nat) (m : Nat → α) : Nat → α :=
  iterUp (fun i m => store m (vectorA + i) (m (vectorA + i) + m (vectorB + i))) length m

/-- The function `ActivateVector` with its pointers as addresses. -/
def ActivateVectorMem (length inVector outVector : Nat) (m : Nat → α) : Nat → α :=
  iterUp (fun i m => store m (outVector + i) (Activation (m (inVector + i)))) length m

/-- The function `ActivateOutputVector` with its pointers as addresses. -/
def ActivateOutputVectorMem (exp : α → α) (length inVector outVector : Nat) (m : Nat → α) :
    Nat → α :=
  iterUp (fun i m => store m (outVector + i) (OutputActivation exp (m (inVector + i))))
    length m

/-- The function `ActivationPrime` with its pointers as addresses. -/
def ActivationPrimeMem (len output input : Nat) (m : Nat → α) : Nat → α :=
  iterUp (fun i m => store m (output + i) (if m (input + i) ≥ 0 then 1 else 0)) len m

/-- The function `CostPrimeWrtDeactivated` with its pointers as addresses. -/
def CostPrimeWrtDeactivatedMem (len funcOutput netoutput intended : Nat) (m : Nat → α) :
    Nat → α :=
  iterUp (fun i m =>
    (fun m1 : Nat → α => store m1 (funcOutput + i)
      (m1 (funcOutput + i) * (m1 (netoutput + i) * (1 - m1 (netoutput + i)))))
    (store m (funcOutput + i) (2 * (m (netoutput + i) - m (intended + i))))) len m

/-- One of the three blocks of `ForwardPass` on addressed memory. -/
def layerBlockMem (activate : Nat → Nat → Nat → (Nat → α) → Nat → α) (width source layer : Nat)
    (layer_lengths weights biases deactivated_neurons activated_neurons : Nat → Nat)
    (m : Nat → α) : Nat → α :=
  activate (layer_lengths layer) (deactivated_neurons layer) (activated_neurons layer)
    (AddVectorMem (layer_lengths layer) (deactivated_neurons layer) (biases layer)
      (TransformVectorMem width (layer_lengths layer) (weights layer) source
        (deactivated_neurons layer) m))

/-- The function `ForwardPass` on addressed memory: every `double*` is the
address of a cell, the tables `layer_lengths`, `weights`, `biases`,
`deactivated_neurons` and `activated_neurons` are read-only maps from the
layer number, and the result is the memory after the call. -/
def ForwardPassMem (exp : α → α) (inputLayerSize inputLayer layers_count : Nat)
    (layer_lengths weights biases deactivated_neurons activated_neurons : Nat → Nat)
    (m : Nat → α) : Nat → α :=
  layerBlockMem (ActivateOutputVectorMem exp)
    (layer_lengths (max 1 (sizeSub layers_count 1) - 1))
    (activated_neurons (max 1 (sizeSub layers_count 1) - 1)) (max 1 (sizeSub layers_count 1))
    layer_lengths weights biases deactivated_neurons activated_neurons
    (iterUp (fun k m =>
        layerBlockMem ActivateVectorMem (layer_lengths (1 + k - 1))
          (activated_neurons (1 + k - 1)) (1 + k) layer_lengths weights biases
          deactivated_neurons activated_neurons m)
      (sizeSub layers_count 1 - 1)
      (layerBlockMem ActivateVectorMem inputLayerSize inputLayer 0 layer_lengths weights
        biases deactivated_neurons activated_neurons m))

/-- The function `BackPropagate` on addressed memory. -/
def BackPropagateMem (layers_count : Nat)
    (layer_lengths weights deactivated_neurons activated_neurons : Nat → Nat) (intended : Nat)
    (biasJacobian : Nat → Nat) (m : Nat → α) : Nat → α :=
  iterDown (fun layer m =>
    iterUp (fun row m =>
      store m (biasJacobian layer + row) (m (biasJacobian layer + row) *
        iterUp (fun i sum => sum + m (biasJacobian (layer + 1) + i) *
          m (weights (layer + 1) + (i * layer_lengths layer + row)))
          (layer_lengths (layer + 1)) 0))
      (layer_lengths layer)
      (ActivationPrimeMem (layer_lengths layer) (biasJacobian layer)
        (deactivated_neurons layer) m))
    (sizeSub layers_count 1)
    (CostPrimeWrtDeactivatedMem (layer_lengths (sizeSub layers_count 1))
      (biasJacobian (sizeSub layers_count 1)) (activated_neurons (sizeSub layers_count 1))
      intended m)

/-- The address `a` lies in the view of `len` cells that starts at `base`. -/
def inView (base len a : Nat) : Prop := base ≤ a ∧ a < base + len

/-- The memory `m1` holds the value of `m` at every address outside the set `S`. -/
def SameOutside (S : Nat → Prop) (m m1 : Nat → α) : Prop := ∀ a, ¬ S a → m1 a = m a

end Addressed

/-! ## helpers.c and fileHandling.c: reading the configuration -/

section Config

variable {α : Type} [LinearOrderedField α]

/-- The function `lpow`: `a` to the power `b`, by `|b|` multiplications and, for
a negative `b`, one division. -/
def lpow (a : α) (b : Int) : α :=
  let sign : Int := if b < 0 then -1 else 1
  let result : α := iterUp (fun _ result => result * a) (sign * b).toNat 1
  if sign < 0 then 1 / result else result

/-- The value `SIZE_MAX` of a 64-bit `size_t`. -/
def SIZE_MAX : Nat := SIZE_MOD - 1

/-- The size of a filename buffer, `MAX_PATH` of `config_context.h`. -/
def MAX_PATH : Nat := 260

/-- Whether the character `c` is one of `'0' .. '9'` (codes 48 to 57). -/
def isDigit (c : Nat) : Bool := decide (48 ≤ c) && decide (c ≤ 57)

/-- The body of the integer loops on the character `c` and the accumulated
`size_t` value `n`:
`if (c >= '0' && c <= '9') { if ((SIZE_MAX - (c - '0')) / 10 < n) continue; n *= 10; n += c - '0'; }`.
The result says whether the digit was taken, and gives the new value. -/
def accumulateSize (n c : Nat) : Bool × Nat :=
  if isDigit c then
    if (SIZE_MAX - (c - 48)) / 10 < n then (false, n)
    else (true, (n * 10 % SIZE_MOD + (c - 48)) % SIZE_MOD)
  else (false, n)

/-- State of a loop that reads a `double`: the flag `_set`, the value and the
counter `index` (a `long`, `0` before a `'.'` was seen, the number of the next
decimal place afterwards; it is at most one more than the number of
characters read). -/
structure DoubleState (α : Type) where
  /-- The flag `learningRate_set` or `learningRateMultiplier_set`. -/
  isSet : Bool
  /-- The value `learningRate` or `learningRateMultiplier`. -/
  value : α
  /-- The counter `index`. -/
  index : Nat

/-- The body of the loops that read `learningRate` and `learningRateMultiplier`
on the character `c`: a `'.'` (code 46) sets `index = 1`, a digit is added at
the decimal place `index` when `index` is not 0 and appended to the integer
part otherwise, and any other character is skipped. -/
def accumulateDouble (st : DoubleState α) (c : Nat) : DoubleState α :=
  if c = 46 then { st with index := 1 }
  else if isDigit c then
    if st.index ≠ 0 then
      { isSet := true,
        value := st.value + ((c - 48 : Nat) : α) * lpow 10 (-(st.index : Int)),
        index := st.index + 1 }
    else
      { isSet := true, value := st.value * 10 + ((c - 48 : Nat) : α), index := st.index }
  else st

/-- The loop `while ((c = fgetc(f)) != EOF && c != '\n') body` on the characters
left in the file: the state after the loop, the characters left after it,
and whether the loop ended with `c == EOF`. -/
def fgetcLine {σ : Type} (body : σ → Nat → σ) : List Nat → σ → σ × List Nat × Bool
  | [], s => (s, [], true)
  | c :: rest, s => if c = 10 then (s, rest, false) else fgetcLine body rest (body s c)

/-- What `GetConfig` reads and writes through the pointers of its context. -/
structure ConfigContext (α : Type) where
  /-- The flag `*learningRate_set`. -/
  learningRate_set : Bool
  /-- The value `*learningRate`. -/
  learningRate : α
  /-- The flag `*learningRateMultiplier_set`. -/
  learningRateMultiplier_set : Bool
  /-- The value `*learningRateMultiplier`. -/
  learningRateMultiplier : α
  /-- The flag `*layersCount_set`. -/
  layersCount_set : Bool
  /-- The value `*layersCount`. -/
  layersCount : Nat
  /-- The block `*layerLengths` (empty while the pointer is `NULL`). -/
  layerLengths : List Nat
  /-- The four filename buffers, in the order of the array `fields`. -/
  fields : List (List Nat)

/-- How the loop over the layer-length lines ends. -/
structure LayerLinesResult where
  /-- The value the function returns from inside the loop, if it does. -/
  returned : Option Nat
  /-- The block `*layerLengths`. -/
  layerLengths : List Nat
  /-- The characters left in the file. -/
  stream : List Nat
  /-- Whether the last `fgetc` gave `EOF`. -/
  eof : Bool

/-- The loop `for (i = 0; i < layersCount; i++)` of `GetConfig` from the value `i`
on, with `remaining = layersCount - i`: each round reads one line into
`layerLengths[i]` and returns 1 when the line ended with `EOF` and
`i < layersCount - 1`. -/
def layerLines (layersCount : Nat) : Nat → Nat → List Nat → List Nat → Bool → LayerLinesResult
  | 0, _, stream, block, eof =>
    { returned := none, layerLengths := block, stream := stream, eof := eof }
  | remaining + 1, i, stream, block, _ =>
    if (fgetcLine (fun (b : List Nat) c => b.set i (accumulateSize (b.getD i 0) c).2)
          stream block).2.2 && decide (i < sizeSub layersCount 1) then
      { returned := some 1,
        layerLengths := (fgetcLine (fun (b : List Nat) c =>
          b.set i (accumulateSize (b.getD i 0) c).2) stream block).1,
        stream := (fgetcLine (fun (b : List Nat) c =>
          b.set i (accumulateSize (b.getD i 0) c).2) stream block).2.1,
        eof := true }
    else
      layerLines layersCount remaining (i + 1)
        (fgetcLine (fun (b : List Nat) c => b.set i (accumulateSize (b.getD i 0) c).2)
          stream block).2.1
        (fgetcLine (fun (b : List Nat) c => b.set i (accumulateSize (b.getD i 0) c).2)
          stream block).1
        (fgetcLine (fun (b : List Nat) c => b.set i (accumulateSize (b.getD i 0) c).2)
          stream block).2.2

/-- State of the loop that reads the four file paths. -/
structure PathState where
  /-- The four filename buffers. -/
  fields : List (List Nat)
  /-- The variable `currField`. -/
  currField : Nat
  /-- The variable `index`. -/
  index : Nat

/-- The loop
`while ((c = fgetc(f)) != EOF && currField < sizeof(fields) / sizeof(fields[0]))`
of `GetConfig`: a newline ends the current field with a NUL and moves to the
next one, any other character is stored while `index < MAX_PATH - 1`.  The
result is `none` when a store is outside the array `fields` or outside a
filename buffer. -/
def pathScan : List Nat → PathState → Option PathState
  | [], st => some st
  | c :: rest, st =>
    if st.currField < 4 then
      if c = 10 then
        (wr2 st.fields st.currField st.index 0).bind (fun f =>
          pathScan rest { fields := f, currField := st.currField + 1, index := 0 })
      else if st.index < MAX_PATH - 1 then
        (wr2 st.fields st.currField st.index c).bind (fun f =>
          pathScan rest { fields := f, currField := st.currField, index := st.index + 1 })
      else pathScan rest st
    else some st

/-- The path loop of `GetConfig` followed by the statement
`fields[currField][index] = '\0'` after it; the result is the four buffers. -/
def readPaths (stream : List Nat) (fields : List (List Nat)) : Option (List (List Nat)) :=
  (pathScan stream { fields := fields, currField := 0, index := 0 }).bind (fun st =>
    wr2 st.fields st.currField st.index 0)

/-- The function `GetConfig`.  `file` is `none` when `fopen` fails and the
characters of the file otherwise, `callocOk` says whether `calloc` succeeds.
The result is the return value and the context as the function leaves it,
or `none` when a store goes out of bounds. -/
def GetConfig (file : Option (List Nat)) (callocOk : Bool) (ctx : ConfigContext α) :
    Option (Nat × ConfigContext α) :=
  match file with
  | none => some (0, ctx)
  | some stream =>
    match fgetcLine accumulateDouble stream
        { isSet := ctx.learningRate_set, value := ctx.learningRate, index := 0 } with
    | (rate, stream1, eof1) =>
      if eof1 then
        some (0, { ctx with learningRate_set := rate.isSet, learningRate := rate.value })
      else
        match fgetcLine accumulateDouble stream1
            { isSet := ctx.learningRateMultiplier_set, value := ctx.learningRateMultiplier,
              index := 0 } with
        | (mult, stream2, eof2) =>
          if eof2 then
            some (0, { ctx with learningRate_set := rate.isSet, learningRate := rate.value,
                                learningRateMultiplier_set := mult.isSet,
                                learningRateMultiplier := mult.value })
          else
            match fgetcLine (fun (s : Bool × Nat) c =>
                (s.1 || (accumulateSize s.2 c).1, (accumulateSize s.2 c).2)) stream2
                (ctx.layersCount_set, ctx.layersCount) with
            | (count, stream3, eof3) =>
              if eof3 && decide (count.2 ≤ 0) then
                some (0, { ctx with learningRate_set := rate.isSet, learningRate := rate.value,
                                    learningRateMultiplier_set := mult.isSet,
                                    learningRateMultiplier := mult.value,
                                    layersCount_set := count.1, layersCount := count.2 })
              else if count.2 ≠ 0 && !callocOk then
                some (1, { ctx with learningRate_set := rate.isSet, learningRate := rate.value,
                                    learningRateMultiplier_set := mult.isSet,
                                    learningRateMultiplier := mult.value,
                                    layersCount_set := count.1, layersCount := count.2,
                                    layerLengths := [] })
              else
                match (if count.2 ≠ 0 then
                    layerLines count.2 count.2 0 stream3 (List.replicate count.2 0) eof3
                  else { returned := none, layerLengths := ctx.layerLengths,
                         stream := stream3, eof := eof3 }) with
                | lines =>
                  match lines.returned with
                  | some r =>
                    some (r, { ctx with learningRate_set := rate.isSet,
                                        learningRate := rate.value,
                                        learningRateMultiplier_set := mult.isSet,
                                        learningRateMultiplier := mult.value,
                                        layersCount_set := count.1, layersCount := count.2,
                                        layerLengths := lines.layerLengths })
                  | none =>
                    if lines.eof then
                      some (0, { ctx with learningRate_set := rate.isSet,
                                          learningRate := rate.value,
                                          learningRateMultiplier_set := mult.isSet,
                                          learningRateMultiplier := mult.value,
                                          layersCount_set := count.1, layersCount := count.2,
                                          layerLengths := lines.layerLengths })
                    else
                      (readPaths lines.stream ctx.fields).bind (fun f =>
                        some (0, { learningRate_set := rate.isSet,
                                   learningRate := rate.value,
                                   learningRateMultiplier_set := mult.isSet,
                                   learningRateMultiplier := mult.value,
                                   layersCount_set := count.1, layersCount := count.2,
                                   layerLengths := lines.layerLengths, fields := f }))

/-- The value an integer loop leaves in a variable that held `n`, after the
characters of `line` (none of them a newline). -/
def parseSize (line : List Nat) (n : Nat) : Nat :=
  line.foldl (fun n c => (accumulateSize n c).2) n

/-- The value a loop that reads a `double` leaves in a variable that held `0.0`,
after the characters of `line` (none of them a newline). -/
def parseDouble (line : List Nat) : α :=
  (line.foldl accumulateDouble
    ({ isSet := false, value := 0, index := 0 } : DoubleState α)).value

/-- The number the decimal digits `d1 ... dm` (most significant first) denote:
`sum_i d_i * 10^(m-i)`. -/
def decimalValue (ds : List Nat) : Nat :=
  ∑ i ∈ Finset.range ds.length, ds.getD i 0 * 10 ^ (ds.length - 1 - i)

/-- The number the decimal places `f1 ... fn` after a decimal point denote:
`sum_j f_j * 10^(-j)`. -/
def fractionValue (fs : List Nat) : α :=
  ∑ j ∈ Finset.range fs.length, (fs.getD j 0 : α) / 10 ^ (j + 1)

/-- The array `fields` holds four filename buffers of `MAX_PATH` characters. -/
def FieldsShaped (fields : List (List Nat)) : Prop :=
  fields.length = 4 ∧ ∀ k, k < 4 → (fields.getD k []).length = MAX_PATH

end Config

/-! ## Loops and buffers -/

section Lemmas

variable {α : Type} [LinearOrderedField α]

set_option linter.unusedSectionVars false

theorem rd_of_lt {β : Type} (buf : List β) (i : Nat) (d : β) (h : i < buf.length) :
    rd buf i = some (buf.getD i d) := by
  simp [rd, List.getD, List.getElem?_eq_getElem h]

theorem wr_of_lt {β : Type} (buf : List β) (i : Nat) (v : β) (h : i < buf.length) :
    wr buf i v = some (buf.set i v) := by
  simp [wr, h]

theorem rd_vget {α : Type} [Zero α] (buf : List α) (i : Nat) (h : i < buf.length) :
    rd buf i = some (vget buf i) := rd_of_lt buf i 0 h

theorem rd_table {β : Type} (table : List (List β)) (i : Nat) (h : i < table.length) :
    rd table i = some (table.getD i []) := rd_of_lt table i [] h

theorem forLoop_inv {σ : Type} (body : Nat → σ → Option σ) (P : Nat → σ → Prop) (n : Nat) (s0 : σ)
    (h0 : P 0 s0)
    (hstep : ∀ i, i < n → ∀ s, P i s → ∃ s1, body i s = some s1 ∧ P (i + 1) s1) :
    ∃ s1, forLoop body n s0 = some s1 ∧ P n s1 := by
  induction n with
  | zero => exact ⟨s0, rfl, h0⟩
  | succ n ih =>
    obtain ⟨s, hs, hP⟩ := ih (fun i hi => hstep i (Nat.lt_succ_of_lt hi))
    obtain ⟨s1, hs1, hP1⟩ := hstep n (Nat.lt_succ_self n) s hP
    exact ⟨s1, by simp [forLoop, hs, hs1], hP1⟩

theorem Fills.step {β : Type} {n : Nat} {val : Nat → β} {s0 s : List β} (h : Fills n val s0 s)
    (hn : n < s0.length) : Fills (n + 1) val s0 (s.set n (val n)) := by
  obtain ⟨h1, h2, h3⟩ := h
  refine ⟨by simp [h1], ?_, ?_⟩
  · intro k hk
    by_cases hkn : k = n
    · subst hkn; simp [List.getElem?_set, h1, hn]
    · rw [List.getElem?_set_ne (by omega)]; exact h2 k (by omega)
  · intro k hk
    rw [List.getElem?_set_ne (by omega)]; exact h3 k (by omega)

theorem forLoop_fills {β : Type} (body : Nat → List β → Option (List β)) (val : Nat → β)
    (n : Nat) (s0 : List β) (hn : n ≤ s0.length)
    (hbody : ∀ i, i < n → ∀ s, Fills i val s0 s → body i s = some (s.set i (val i))) :
    ∃ s, forLoop body n s0 = some s ∧ Fills n val s0 s := by
  apply forLoop_inv body (fun i s => Fills i val s0 s) n s0
  · exact ⟨rfl, fun k hk => absurd hk (Nat.not_lt_zero k), fun k _ => rfl⟩
  · intro i hi s hs
    exact ⟨_, hbody i hi s hs, hs.step (by omega)⟩

theorem Fills.vget_lt {n : Nat} {val : Nat → α} {s0 s : List α} (h : Fills n val s0 s)
    {k : Nat} (hk : k < n) : vget s k = val k := by
  simp [vget, List.getD, h.2.1 k hk]

theorem Fills.vget_ge {n : Nat} {val : Nat → α} {s0 s : List α} (h : Fills n val s0 s)
    {k : Nat} (hk : n ≤ k) : vget s k = vget s0 k := by
  simp [vget, List.getD, h.2.2 k hk]

theorem forLoop_sum (body : Nat → α → Option α) (t : Nat → α) (n : Nat)
    (hbody : ∀ j, j < n → ∀ s, body j s = some (s + t j)) :
    forLoop body n 0 = some (∑ j ∈ Finset.range n, t j) := by
  obtain ⟨s, hs, hP⟩ := forLoop_inv body (fun i s => s = ∑ j ∈ Finset.range i, t j) n 0
    (by simp) (fun i hi s hs => ⟨_, hbody i hi s, by
      show s + t i = ∑ j ∈ Finset.range (i + 1), t j
      rw [Finset.sum_range_succ]; exact congrArg (· + t i) hs⟩)
  rw [hs, hP]

theorem index_lt_of_row_col {i j w h len : Nat} (hi : i < h) (hj : j < w) (hlen : h * w ≤ len) :
    i * w + j < len := by
  have : (i + 1) * w ≤ h * w := Nat.mul_le_mul_right w hi
  have : (i + 1) * w = i * w + w := by ring
  omega

theorem TransformVector_spec (width height : Nat) (matrix invector outvector : List α)
    (ho : height ≤ outvector.length) (hm : height * width ≤ matrix.length)
    (hx : width ≤ invector.length) :
    ∃ out, TransformVector width height matrix invector outvector = some out ∧
      Fills height (fun i => ∑ j ∈ Finset.range width,
        vget matrix (i * width + j) * vget invector j) outvector out := by
  apply forLoop_fills
  · exact ho
  · intro i hi s hs
    rw [forLoop_sum _ (fun j => vget matrix (i * width + j) * vget invector j)]
    · simp [wr_of_lt s i _ (by rw [hs.1]; omega)]
    · intro j hj s
      simp [rd_vget matrix _ (index_lt_of_row_col hi hj hm), rd_vget invector j (by omega)]

theorem AddVector_spec (length : Nat) (vectorA vectorB : List α)
    (ha : length ≤ vectorA.length) (hb : length ≤ vectorB.length) :
    ∃ out, AddVector length vectorA vectorB = some out ∧
      Fills length (fun i => vget vectorA i + vget vectorB i) vectorA out := by
  apply forLoop_fills
  · exact ha
  · intro i hi s hs
    have h1 : rd s i = some (vget vectorA i) := by
      have := rd_vget s i (by rw [hs.1]; omega)
      rw [this, hs.vget_ge (le_refl i)]
    simp [h1, rd_vget vectorB i (by omega), wr_of_lt s i _ (by rw [hs.1]; omega)]

theorem ActivateVector_spec (length : Nat) (inVector outVector : List α)
    (hi : length ≤ inVector.length) (ho : length ≤ outVector.length) :
    ∃ out, ActivateVector length inVector outVector = some out ∧
      Fills length (fun i => Activation (vget inVector i)) outVector out := by
  apply forLoop_fills
  · exact ho
  · intro i hlt s hs
    simp [rd_vget inVector i (by omega), wr_of_lt s i _ (by rw [hs.1]; omega)]

theorem ActivateOutputVector_spec (exp : α → α) (length : Nat) (inVector outVector : List α)
    (hi : length ≤ inVector.length) (ho : length ≤ outVector.length) :
    ∃ out, ActivateOutputVector exp length inVector outVector = some out ∧
      Fills length (fun i => OutputActivation exp (vget inVector i)) outVector out := by
  apply forLoop_fills
  · exact ho
  · intro i hlt s hs
    simp [rd_vget inVector i (by omega), wr_of_lt s i _ (by rw [hs.1]; omega)]

theorem ActivationPrime_spec (len : Nat) (output input : List α)
    (ho : len ≤ output.length) (hi : len ≤ input.length) :
    ∃ out, ActivationPrime len output input = some out ∧
      Fills len (fun i => if vget input i ≥ 0 then 1 else 0) output out := by
  apply forLoop_fills
  · exact ho
  · intro i hlt s hs
    simp [rd_vget input i (by omega), wr_of_lt s i _ (by rw [hs.1]; omega)]

theorem CostPrimeWrtDeactivated_spec (len : Nat) (funcOutput netoutput intended : List α)
    (hf : len ≤ funcOutput.length) (hn : len ≤ netoutput.length) (ht : len ≤ intended.length) :
    ∃ out, CostPrimeWrtDeactivated len funcOutput netoutput intended = some out ∧
      Fills len (fun i => 2 * (vget netoutput i - vget intended i) *
        (vget netoutput i * (1 - vget netoutput i))) funcOutput out := by
  apply forLoop_fills
  · exact hf
  · intro i hlt s hs
    have hsi : i < s.length := by rw [hs.1]; omega
    have h1 : rd (s.set i (2 * (vget netoutput i - vget intended i))) i =
        some (2 * (vget netoutput i - vget intended i)) := by
      simp [rd, hsi]
    simp [rd_vget netoutput i (by omega), rd_vget intended i (by omega), wr_of_lt s i _ hsi, h1,
      wr, hsi]

theorem Cost_spec (len : Nat) (output intended : List α)
    (ho : len ≤ output.length) (ht : len ≤ intended.length) :
    Cost len output intended = some (∑ i ∈ Finset.range len,
      (vget output i - vget intended i) * (vget output i - vget intended i)) := by
  apply forLoop_sum
  intro j hj s
  simp [rd_vget output j (by omega), rd_vget intended j (by omega)]

theorem getD_set_self {β : Type} (t : List β) (i : Nat) (b d : β) (h : i < t.length) :
    (t.set i b).getD i d = b := by
  simp [List.getD, List.getElem?_set, h]

theorem getD_set_other {β : Type} (t : List β) (i j : Nat) (b d : β) (h : i ≠ j) :
    (t.set i b).getD j d = t.getD j d := by
  simp [List.getD, List.getElem?_set_ne h]

theorem at2_set_self (t : List (List α)) (i k : Nat) (b : List α) (h : i < t.length) :
    at2 (t.set i b) i k = vget b k := by
  unfold at2 vget; rw [getD_set_self t i b [] h]

theorem at2_set_other (t : List (List α)) (i j k : Nat) (b : List α) (h : i ≠ j) :
    at2 (t.set i b) j k = at2 t j k := by
  unfold at2; rw [getD_set_other t i j b [] h]

theorem onBuf_spec {β : Type} (table : List (List β)) (i : Nat)
    (f : List β → Option (List β)) (b : List β) (h : i < table.length)
    (hf : f (table.getD i []) = some b) : onBuf table i f = some (table.set i b) := by
  simp only [onBuf, rd_table table i h, Option.some_bind, hf, wr_of_lt table i b h]

theorem TableShaped.set {layers_count : Nat} {layer_lengths : List Nat} {table : List (List α)}
    (h : TableShaped layers_count layer_lengths table) (k : Nat) (b : List α)
    (hb : b.length = layer_lengths.getD k 0) :
    TableShaped layers_count layer_lengths (table.set k b) := by
  refine ⟨by simp [h.1], fun i hi => ?_⟩
  by_cases hik : k = i
  · subst hik; rw [getD_set_self table k b [] (by rw [h.1]; exact hi)]; exact hb
  · rw [getD_set_other table k i b [] hik]; exact h.2 i hi

theorem layerBlock_spec (activate : Nat → List α → List α → Option (List α)) (f : α → α)
    (hact : ∀ len inV outV, len ≤ inV.length → len ≤ outV.length →
      ∃ out, activate len inV outV = some out ∧ Fills len (fun k => f (vget inV k)) outV out)
    (width : Nat) (source : List α) (layer : Nat) (layer_lengths : List Nat)
    (weights biases : List (List α)) (st : List (List α) × List (List α))
    (hl : layer < layer_lengths.length) (hw : layer < weights.length)
    (hb : layer < biases.length) (hd : layer < st.1.length) (ha : layer < st.2.length)
    (hwl : layer_lengths.getD layer 0 * width ≤ (weights.getD layer []).length)
    (hsl : width ≤ source.length)
    (hbl : layer_lengths.getD layer 0 ≤ (biases.getD layer []).length)
    (hdl : (st.1.getD layer []).length = layer_lengths.getD layer 0)
    (hal : (st.2.getD layer []).length = layer_lengths.getD layer 0) :
    ∃ D A, layerBlock activate width source layer layer_lengths weights biases st =
        some (st.1.set layer D, st.2.set layer A) ∧
      D.length = layer_lengths.getD layer 0 ∧ A.length = layer_lengths.getD layer 0 ∧
      ∀ r, r < layer_lengths.getD layer 0 →
        vget D r = (∑ c ∈ Finset.range width, at2 weights layer (r * width + c) * vget source c)
          + at2 biases layer r ∧
        vget A r = f (vget D r) := by
  obtain ⟨D1, hD1, hF1⟩ := TransformVector_spec width (layer_lengths.getD layer 0)
    (weights.getD layer []) source (st.1.getD layer []) (by rw [hdl]) hwl hsl
  obtain ⟨D2, hD2, hF2⟩ := AddVector_spec (layer_lengths.getD layer 0) D1
    (biases.getD layer []) (by rw [hF1.1, hdl]) hbl
  obtain ⟨A, hA, hFA⟩ := hact (layer_lengths.getD layer 0) D2 (st.2.getD layer [])
    (by rw [hF2.1, hF1.1, hdl]) (by rw [hal])
  refine ⟨D2, A, ?_, by rw [hF2.1, hF1.1, hdl], by rw [hFA.1, hal], ?_⟩
  · have e1 : onBuf st.1 layer (fun d => TransformVector width (layer_lengths.getD layer 0)
        (weights.getD layer []) source d) = some (st.1.set layer D1) :=
      onBuf_spec _ _ _ _ hd hD1
    have hd1 : layer < (st.1.set layer D1).length := by simpa using hd
    have e2 : onBuf (st.1.set layer D1) layer (fun d => AddVector (layer_lengths.getD layer 0) d
        (biases.getD layer [])) = some (st.1.set layer D2) := by
      rw [onBuf_spec _ _ _ D2 hd1 (by rw [getD_set_self _ _ _ _ hd]; exact hD2), List.set_set]
    have e3 : onBuf st.2 layer (fun a => activate (layer_lengths.getD layer 0) D2 a) =
        some (st.2.set layer A) := onBuf_spec _ _ _ _ ha hA
    have hd2 : layer < (st.1.set layer D2).length := by simpa using hd
    simp only [layerBlock, rd_of_lt layer_lengths layer 0 hl, rd_table weights layer hw,
      rd_table biases layer hb, Option.some_bind, e1, e2,
      rd_table _ layer hd2, getD_set_self _ _ _ _ hd, e3]
  · intro r hr
    refine ⟨?_, ?_⟩
    · rw [hF2.vget_lt hr, hF1.vget_lt hr]; rfl
    · rw [hFA.vget_lt hr]

theorem downLoop_inv {σ : Type} (body : Nat → σ → Option σ) (P : Nat → σ → Prop) (n : Nat)
    (s0 : σ) (h0 : P n s0)
    (hstep : ∀ i, i < n → ∀ s, P (i + 1) s → ∃ s1, body i s = some s1 ∧ P i s1) :
    ∃ s1, downLoop body n s0 = some s1 ∧ P 0 s1 := by
  induction n generalizing s0 with
  | zero => exact ⟨s0, rfl, h0⟩
  | succ n ih =>
    obtain ⟨s, hs, hP⟩ := hstep n (Nat.lt_succ_self n) s0 h0
    obtain ⟨s1, hs1, hP1⟩ := ih s hP (fun i hi => hstep i (Nat.lt_succ_of_lt hi))
    exact ⟨s1, by simp [downLoop, hs, hs1], hP1⟩

theorem whileLt_inv {σ : Type} (body : Nat → σ → Option σ) (P : Nat → σ → Prop)
    (start bound : Nat) (s0 : σ) (hsb : start ≤ bound) (h0 : P start s0)
    (hstep : ∀ i, start ≤ i → i < bound → ∀ s, P i s → ∃ s1, body i s = some s1 ∧ P (i + 1) s1) :
    ∃ s1, whileLt body start bound s0 = some s1 ∧ P bound s1 := by
  have h := forLoop_inv (fun k st => body (start + k) st) (fun k s => P (start + k) s)
    (bound - start) s0 (by simpa using h0)
    (fun i hi s hP => by
      obtain ⟨s1, h1, h2⟩ := hstep (start + i) (Nat.le_add_right _ _) (by omega) s hP
      exact ⟨s1, h1, by simpa [Nat.add_assoc] using h2⟩)
  obtain ⟨s1, h1, h2⟩ := h
  refine ⟨s1, h1, ?_⟩
  have : start + (bound - start) = bound := by omega
  simpa [this] using h2

theorem srcVal_set (inputLayer : List α) (act : List (List α)) (k i c : Nat) (A : List α)
    (hik : i ≤ k) : srcVal inputLayer (act.set k A) i c = srcVal inputLayer act i c := by
  unfold srcVal
  by_cases hi : i = 0
  · simp [hi]
  · simp only [hi, if_false]; rw [at2_set_other act k (i - 1) c A (by omega)]

theorem layerBlock_step (activate : Nat → List α → List α → Option (List α)) (f : α → α)
    (hact : ∀ len inV outV, len ≤ inV.length → len ≤ outV.length →
      ∃ out, activate len inV outV = some out ∧ Fills len (fun k => f (vget inV k)) outV out)
    (g : Nat → α → α) (inputLayerSize : Nat) (inputLayer : List α) (layers_count : Nat)
    (layer_lengths : List Nat) (weights biases : List (List α))
    (hll : layer_lengths.length = layers_count)
    (hW : WeightsShaped inputLayerSize layers_count layer_lengths weights)
    (hB : TableShaped layers_count layer_lengths biases)
    (k : Nat) (hk : k < layers_count) (hgk : g k = f)
    (width : Nat) (source : List α) (st : List (List α) × List (List α))
    (hwidth : width = srcWidth inputLayerSize layer_lengths k)
    (hsl : width ≤ source.length)
    (hsource : ∀ c, vget source c = srcVal inputLayer st.2 k c)
    (hD : TableShaped layers_count layer_lengths st.1)
    (hA : TableShaped layers_count layer_lengths st.2)
    (hdone : ForwardDone g inputLayerSize inputLayer layer_lengths weights biases k st) :
    ∃ st1, layerBlock activate width source k layer_lengths weights biases st = some st1 ∧
      TableShaped layers_count layer_lengths st1.1 ∧
      TableShaped layers_count layer_lengths st1.2 ∧
      ForwardDone g inputLayerSize inputLayer layer_lengths weights biases (k + 1) st1 := by
  obtain ⟨D, A, hrun, hDl, hAl, hval⟩ := layerBlock_spec activate f hact width source k
    layer_lengths weights biases st (by omega) (by rw [hW.1]; exact hk)
    (by rw [hB.1]; exact hk) (by rw [hD.1]; exact hk) (by rw [hA.1]; exact hk)
    (by rw [hW.2 k hk, hwidth]) hsl (by rw [hB.2 k hk]) (hD.2 k hk) (hA.2 k hk)
  refine ⟨_, hrun, hD.set k D hDl, hA.set k A hAl, ?_⟩
  intro i hi r hr
  by_cases hik : i = k
  · subst hik
    have hd : i < st.1.length := by rw [hD.1]; exact hk
    have ha : i < st.2.length := by rw [hA.1]; exact hk
    simp only []
    rw [at2_set_self _ _ _ _ hd, at2_set_self _ _ _ _ ha, hgk]
    refine ⟨?_, (hval r hr).2⟩
    rw [(hval r hr).1, ← hwidth]
    congr 1
    apply Finset.sum_congr rfl
    intro c _
    rw [hsource c, srcVal_set inputLayer st.2 i i c A (le_refl i)]
  · have hlt : i < k := by omega
    simp only []
    rw [at2_set_other _ _ _ _ _ (Ne.symm hik), at2_set_other _ _ _ _ _ (Ne.symm hik)]
    obtain ⟨h1, h2⟩ := hdone i hlt r hr
    refine ⟨?_, h2⟩
    rw [h1]
    congr 1
    apply Finset.sum_congr rfl
    intro c _
    rw [srcVal_set inputLayer st.2 k i c A (by omega)]

theorem sizeSub_one (n : Nat) (h1 : 1 ≤ n) (h2 : n < SIZE_MOD) : sizeSub n 1 = n - 1 := by
  unfold sizeSub SIZE_MOD at *
  omega

theorem ForwardPass_spec (exp : α → α) (inputLayerSize : Nat) (inputLayer : List α)
    (layers_count : Nat) (layer_lengths : List Nat)
    (weights biases deactivated_neurons activated_neurons : List (List α))
    (hL : 2 ≤ layers_count) (hsz : layers_count < SIZE_MOD)
    (hll : layer_lengths.length = layers_count)
    (hin : inputLayerSize ≤ inputLayer.length)
    (hW : WeightsShaped inputLayerSize layers_count layer_lengths weights)
    (hB : TableShaped layers_count layer_lengths biases)
    (hD : TableShaped layers_count layer_lengths deactivated_neurons)
    (hA : TableShaped layers_count layer_lengths activated_neurons) :
    ∃ st, ForwardPass exp inputLayerSize inputLayer layers_count layer_lengths weights biases
        deactivated_neurons activated_neurons = some st ∧
      TableShaped layers_count layer_lengths st.1 ∧
      TableShaped layers_count layer_lengths st.2 ∧
      ForwardDone (layerActivation exp layers_count) inputLayerSize inputLayer layer_lengths
        weights biases layers_count st := by
  have hsub : sizeSub layers_count 1 = layers_count - 1 := sizeSub_one _ (by omega) hsz
  have hmax : max 1 (layers_count - 1) = layers_count - 1 := max_eq_right (by omega)
  -- layer 0
  obtain ⟨s0, hs0, hD0, hA0, hdone0⟩ := layerBlock_step ActivateVector Activation
    ActivateVector_spec (layerActivation exp layers_count) inputLayerSize inputLayer
    layers_count layer_lengths weights biases hll hW hB 0 (by omega)
    (by unfold layerActivation; rw [if_neg (by omega)])
    inputLayerSize inputLayer (deactivated_neurons, activated_neurons)
    (by simp [srcWidth]) hin (fun c => by simp [srcVal]) hD hA
    (fun i hi => absurd hi (Nat.not_lt_zero i))
  -- hidden layers
  obtain ⟨s1, hs1, hD1, hA1, hdone1⟩ := whileLt_inv
    (fun layer st =>
      (rd layer_lengths (layer - 1)).bind (fun width =>
      (rd st.2 (layer - 1)).bind (fun source =>
      layerBlock ActivateVector width source layer layer_lengths weights biases st)))
    (fun k st => TableShaped layers_count layer_lengths st.1 ∧
      TableShaped layers_count layer_lengths st.2 ∧
      ForwardDone (layerActivation exp layers_count) inputLayerSize inputLayer layer_lengths
        weights biases k st)
    1 (layers_count - 1) s0 (by omega) ⟨hD0, hA0, hdone0⟩
    (fun k hk1 hk2 st hP => by
      obtain ⟨hDk, hAk, hdk⟩ := hP
      have hsrc : k - 1 < st.2.length := by rw [hAk.1]; omega
      simp only [rd_of_lt layer_lengths (k - 1) 0 (by omega), rd_table st.2 (k - 1) hsrc,
        Option.some_bind]
      exact layerBlock_step ActivateVector Activation ActivateVector_spec
        (layerActivation exp layers_count) inputLayerSize inputLayer layers_count layer_lengths
        weights biases hll hW hB k (by omega)
        (by unfold layerActivation; rw [if_neg (by omega)])
        _ _ st (by unfold srcWidth; rw [if_neg (by omega)])
        (by rw [hAk.2 (k - 1) (by omega)])
        (fun c => by unfold srcVal; rw [if_neg (by omega)]; rfl) hDk hAk hdk)
  -- output layer
  have hsrc : layers_count - 1 - 1 < s1.2.length := by rw [hA1.1]; omega
  obtain ⟨s2, hs2, hD2, hA2, hdone2⟩ := layerBlock_step (ActivateOutputVector exp)
    (OutputActivation exp) (ActivateOutputVector_spec exp) (layerActivation exp layers_count)
    inputLayerSize inputLayer layers_count layer_lengths weights biases hll hW hB
    (layers_count - 1) (by omega)
    (by unfold layerActivation; rw [if_pos (by omega)])
    (layer_lengths.getD (layers_count - 1 - 1) 0) (s1.2.getD (layers_count - 1 - 1) []) s1
    (by unfold srcWidth; rw [if_neg (by omega)])
    (by rw [hA1.2 (layers_count - 1 - 1) (by omega)])
    (fun c => by unfold srcVal; rw [if_neg (by omega)]; rfl) hD1 hA1 hdone1
  refine ⟨s2, ?_, hD2, hA2, ?_⟩
  · simp only [ForwardPass, hsub, hmax, hs0, Option.some_bind, hs1,
      rd_of_lt layer_lengths (layers_count - 1 - 1) 0 (by omega),
      rd_table s1.2 (layers_count - 1 - 1) hsrc, hs2]
  · have : layers_count - 1 + 1 = layers_count := by omega
    rw [this] at hdone2; exact hdone2

theorem rd2_spec (table : List (List α)) (i k : Nat) (hi : i < table.length)
    (hk : k < (table.getD i []).length) : rd2 table i k = some (at2 table i k) := by
  simp only [rd2, rd_table table i hi, Option.some_bind]
  exact rd_vget _ k hk

theorem wr2_spec (table : List (List α)) (i k : Nat) (v : α) (hi : i < table.length)
    (hk : k < (table.getD i []).length) :
    wr2 table i k v = some (table.set i ((table.getD i []).set k v)) := by
  simp only [wr2, rd_table table i hi, Option.some_bind, wr_of_lt _ k v hk,
    wr_of_lt table i _ hi]

theorem hiddenJacobian_congr (layer_lengths : List Nat)
    (weights deactivated_neurons jac jac1 : List (List α)) (i r : Nat)
    (h : ∀ k, at2 jac (i + 1) k = at2 jac1 (i + 1) k) :
    hiddenJacobian layer_lengths weights deactivated_neurons jac i r =
      hiddenJacobian layer_lengths weights deactivated_neurons jac1 i r := by
  unfold hiddenJacobian
  congr 1
  apply Finset.sum_congr rfl
  intro k _
  rw [h k]

theorem backLayer_spec (inputLayerSize layers_count : Nat) (layer_lengths : List Nat)
    (weights deactivated_neurons : List (List α))
    (hll : layer_lengths.length = layers_count)
    (hW : WeightsShaped inputLayerSize layers_count layer_lengths weights)
    (hD : TableShaped layers_count layer_lengths deactivated_neurons)
    (layer : Nat) (hlayer : layer + 1 < layers_count) (jac : List (List α))
    (hJ : TableShaped layers_count layer_lengths jac) :
    ∃ X, (rd layer_lengths layer).bind (fun len =>
      (rd deactivated_neurons layer).bind (fun d =>
      (onBuf jac layer (fun j => ActivationPrime len j d)).bind (fun jac1 =>
      forLoop (fun row jac =>
        (rd layer_lengths (layer + 1)).bind (fun lenNext =>
        (forLoop (fun i sum =>
          (rd2 jac (layer + 1) i).bind (fun jn =>
          (rd layer_lengths layer).bind (fun len2 =>
          (rd2 weights (layer + 1) (i * len2 + row)).bind (fun w =>
          some (sum + jn * w))))) lenNext 0).bind (fun sum =>
        (rd2 jac layer row).bind (fun cur =>
        wr2 jac layer row (cur * sum))))) len jac1))) = some (jac.set layer X) ∧
      X.length = layer_lengths.getD layer 0 ∧
      ∀ r, r < layer_lengths.getD layer 0 →
        vget X r = hiddenJacobian layer_lengths weights deactivated_neurons jac layer r := by
  have hl : layer < layers_count := by omega
  have hjl : layer < jac.length := by rw [hJ.1]; exact hl
  obtain ⟨J1, hJ1, hF1⟩ := ActivationPrime_spec (layer_lengths.getD layer 0)
    (jac.getD layer []) (deactivated_neurons.getD layer [])
    (by rw [hJ.2 layer hl]) (by rw [hD.2 layer hl])
  have e1 := onBuf_spec jac layer (fun j => ActivationPrime (layer_lengths.getD layer 0) j
    (deactivated_neurons.getD layer [])) J1 hjl hJ1
  have hJ1len : J1.length = layer_lengths.getD layer 0 := by rw [hF1.1, hJ.2 layer hl]
  simp only [rd_of_lt layer_lengths layer 0 (by omega),
    rd_table deactivated_neurons layer (by rw [hD.1]; exact hl), Option.some_bind, e1]
  obtain ⟨s, hs, X, hsX, hFX⟩ := forLoop_inv
    (fun row jac =>
        (rd layer_lengths (layer + 1)).bind (fun lenNext =>
        (forLoop (fun i sum =>
          (rd2 jac (layer + 1) i).bind (fun jn =>
          (rd2 weights (layer + 1) (i * layer_lengths.getD layer 0 + row)).bind (fun w =>
          some (sum + jn * w)))) lenNext 0).bind (fun sum =>
        (rd2 jac layer row).bind (fun cur =>
        wr2 jac layer row (cur * sum)))))
    (fun row s => ∃ X, s = jac.set layer X ∧
      Fills row (fun r => hiddenJacobian layer_lengths weights deactivated_neurons jac layer r)
        J1 X)
    (layer_lengths.getD layer 0) (jac.set layer J1)
    ⟨J1, rfl, rfl, fun k hk => absurd hk (Nat.not_lt_zero k), fun k _ => rfl⟩
    (fun row hrow s hP => by
      obtain ⟨X, rfl, hFX⟩ := hP
      have hXlen : X.length = layer_lengths.getD layer 0 := by rw [hFX.1, hJ1len]
      have hsl : layer < (jac.set layer X).length := by simpa using hjl
      have hsl1 : layer + 1 < (jac.set layer X).length := by simp [hJ.1]; omega
      have hnext : ((jac.set layer X).getD (layer + 1) []).length =
          layer_lengths.getD (layer + 1) 0 := by
        rw [getD_set_other jac layer (layer + 1) X [] (by omega)]; exact hJ.2 _ hlayer
      have hsum := forLoop_sum
        (fun i sum =>
          (rd2 (jac.set layer X) (layer + 1) i).bind (fun jn =>
          (rd2 weights (layer + 1) (i * layer_lengths.getD layer 0 + row)).bind (fun w =>
          some (sum + jn * w))))
        (fun k => at2 jac (layer + 1) k *
          at2 weights (layer + 1) (k * layer_lengths.getD layer 0 + row))
        (layer_lengths.getD (layer + 1) 0)
        (fun k hk sum => by
          have hw : k * layer_lengths.getD layer 0 + row <
              (weights.getD (layer + 1) []).length := by
            rw [hW.2 (layer + 1) hlayer]
            unfold srcWidth
            rw [if_neg (by omega)]
            exact index_lt_of_row_col hk hrow (by simp)
          simp only [rd2_spec (jac.set layer X) (layer + 1) k hsl1 (by rw [hnext]; exact hk),
            Option.some_bind,
            rd2_spec weights (layer + 1) _ (by rw [hW.1]; exact hlayer) hw]
          rw [at2_set_other jac layer (layer + 1) k X (by omega)])
      have hcur : row < ((jac.set layer X).getD layer []).length := by
        rw [getD_set_self jac layer X [] hjl, hXlen]; exact hrow
      have hval : at2 (jac.set layer X) layer row *
          ∑ k ∈ Finset.range (layer_lengths.getD (layer + 1) 0),
            at2 jac (layer + 1) k *
              at2 weights (layer + 1) (k * layer_lengths.getD layer 0 + row) =
          hiddenJacobian layer_lengths weights deactivated_neurons jac layer row := by
        rw [at2_set_self jac layer row X hjl, hFX.vget_ge (le_refl row), hF1.vget_lt hrow]
        rfl
      refine ⟨jac.set layer (X.set row
        (hiddenJacobian layer_lengths weights deactivated_neurons jac layer row)), ?_,
        X.set row (hiddenJacobian layer_lengths weights deactivated_neurons jac layer row),
        rfl, hFX.step (by rw [hJ1len]; exact hrow)⟩
      simp only [rd_of_lt layer_lengths (layer + 1) 0 (by omega), Option.some_bind, hsum,
        rd2_spec (jac.set layer X) layer row hsl hcur,
        wr2_spec (jac.set layer X) layer row _ hsl hcur, hval, List.set_set,
        getD_set_self jac layer X [] hjl])
  refine ⟨X, ?_, by rw [hFX.1, hJ1len], fun r hr => hFX.vget_lt hr⟩
  rw [← hsX, ← hs]

theorem BackPropagate_spec (inputLayerSize layers_count : Nat) (layer_lengths : List Nat)
    (weights deactivated_neurons activated_neurons : List (List α)) (intended : List α)
    (biasJacobian : List (List α))
    (hL : 1 ≤ layers_count) (hsz : layers_count < SIZE_MOD)
    (hll : layer_lengths.length = layers_count)
    (hW : WeightsShaped inputLayerSize layers_count layer_lengths weights)
    (hD : TableShaped layers_count layer_lengths deactivated_neurons)
    (hA : TableShaped layers_count layer_lengths activated_neurons)
    (hT : layer_lengths.getD (layers_count - 1) 0 ≤ intended.length)
    (hJ : TableShaped layers_count layer_lengths biasJacobian) :
    ∃ jac, BackPropagate layers_count layer_lengths weights deactivated_neurons
        activated_neurons intended biasJacobian = some jac ∧
      TableShaped layers_count layer_lengths jac ∧
      BackDone layers_count layer_lengths weights deactivated_neurons activated_neurons
        intended 0 jac := by
  have hsub : sizeSub layers_count 1 = layers_count - 1 := sizeSub_one _ hL hsz
  have hlast : layers_count - 1 < layers_count := by omega
  have hjl : layers_count - 1 < biasJacobian.length := by rw [hJ.1]; exact hlast
  obtain ⟨J, hJrun, hFJ⟩ := CostPrimeWrtDeactivated_spec
    (layer_lengths.getD (layers_count - 1) 0) (biasJacobian.getD (layers_count - 1) [])
    (activated_neurons.getD (layers_count - 1) []) intended
    (by rw [hJ.2 _ hlast]) (by rw [hA.2 _ hlast]) hT
  have e1 := onBuf_spec biasJacobian (layers_count - 1)
    (fun j => CostPrimeWrtDeactivated (layer_lengths.getD (layers_count - 1) 0) j
      (activated_neurons.getD (layers_count - 1) []) intended) J hjl hJrun
  have hJ0 : TableShaped layers_count layer_lengths (biasJacobian.set (layers_count - 1) J) :=
    hJ.set _ J (by rw [hFJ.1, hJ.2 _ hlast])
  obtain ⟨jac, hrun, hshape, hdone⟩ := downLoop_inv
    (fun layer jac =>
      (rd layer_lengths layer).bind (fun len =>
      (rd deactivated_neurons layer).bind (fun d =>
      (onBuf jac layer (fun j => ActivationPrime len j d)).bind (fun jac1 =>
      forLoop (fun row jac =>
        (rd layer_lengths (layer + 1)).bind (fun lenNext =>
        (forLoop (fun i sum =>
          (rd2 jac (layer + 1) i).bind (fun jn =>
          (rd layer_lengths layer).bind (fun len2 =>
          (rd2 weights (layer + 1) (i * len2 + row)).bind (fun w =>
          some (sum + jn * w))))) lenNext 0).bind (fun sum =>
        (rd2 jac layer row).bind (fun cur =>
        wr2 jac layer row (cur * sum))))) len jac1))))
    (fun n jac => TableShaped layers_count layer_lengths jac ∧
      BackDone layers_count layer_lengths weights deactivated_neurons activated_neurons
        intended n jac)
    (layers_count - 1) (biasJacobian.set (layers_count - 1) J)
    ⟨hJ0, fun r hr => by
        rw [at2_set_self _ _ _ _ hjl, hFJ.vget_lt hr]; rfl,
      fun i hi1 hi2 => by omega⟩
    (fun layer hlayer s hP => by
      obtain ⟨hS, hout, hhid⟩ := hP
      obtain ⟨X, hX, hXlen, hXval⟩ := backLayer_spec inputLayerSize layers_count layer_lengths
        weights deactivated_neurons hll hW hD layer (by omega) s hS
      have hsl : layer < s.length := by rw [hS.1]; omega
      refine ⟨s.set layer X, hX, hS.set layer X hXlen, ?_, ?_⟩
      · intro r hr
        rw [at2_set_other s layer (layers_count - 1) r X (by omega)]
        exact hout r hr
      · intro i hi1 hi2 r hr
        rw [hiddenJacobian_congr layer_lengths weights deactivated_neurons (s.set layer X) s i r
          (fun k => at2_set_other s layer (i + 1) k X (by omega))]
        by_cases hil : i = layer
        · subst hil
          rw [at2_set_self s i r X hsl]
          exact hXval r hr
        · rw [at2_set_other s layer i r X (by omega)]
          exact hhid i (by omega) hi2 r hr)
  refine ⟨jac, ?_, hshape, hdone⟩
  simp only [BackPropagate, hsub, rd_of_lt layer_lengths (layers_count - 1) 0 (by omega),
    rd_table activated_neurons (layers_count - 1) (by rw [hA.1]; exact hlast),
    Option.some_bind, e1]
  exact hrun

theorem vget_srcBuf (inputLayer : List α) (act : List (List α)) (i c : Nat) :
    vget (srcBuf inputLayer act i) c = srcVal inputLayer act i c := by
  unfold srcBuf srcVal
  by_cases h : i = 0
  · simp [h]
  · simp only [h, if_false]; rfl

theorem descend_cols (learningRate : α) (layer row w : Nat) (p : List α)
    (W Bs jac : List (List α)) (X : List α)
    (hlW : layer < W.length) (hlJ : layer < jac.length)
    (hrow : row < (jac.getD layer []).length)
    (hp : w ≤ p.length)
    (hX0 : (row + 1) * w ≤ (W.getD layer []).length)
    (hX : Fills (row * w) (descWeight learningRate w (W.getD layer []) p (jac.getD layer []))
      (W.getD layer []) X) :
    ∃ X1, forLoop (fun col (st : DescendState α) =>
          (rd2 st.weights layer (row * st.weightsWidth + col)).bind (fun wt =>
            (rd st.prevLayer col).bind (fun pv =>
              (rd2 jac layer row).bind (fun j =>
                (wr2 st.weights layer (row * st.weightsWidth + col)
                  (wt - learningRate * pv * j)).bind (fun ws =>
                    some { st with weights := ws }))))) w
        (⟨w, p, W.set layer X, Bs⟩ : DescendState α) =
        some (⟨w, p, W.set layer X1, Bs⟩ : DescendState α) ∧
      Fills ((row + 1) * w) (descWeight learningRate w (W.getD layer []) p (jac.getD layer []))
        (W.getD layer []) X1 := by
  obtain ⟨s, hs, X1, hsX, hF⟩ := forLoop_inv
    (fun col (st : DescendState α) =>
          (rd2 st.weights layer (row * st.weightsWidth + col)).bind (fun wt =>
            (rd st.prevLayer col).bind (fun pv =>
              (rd2 jac layer row).bind (fun j =>
                (wr2 st.weights layer (row * st.weightsWidth + col)
                  (wt - learningRate * pv * j)).bind (fun ws =>
                    some { st with weights := ws })))))
    (fun col st => ∃ X1, st = (⟨w, p, W.set layer X1, Bs⟩ : DescendState α) ∧
      Fills (row * w + col) (descWeight learningRate w (W.getD layer []) p (jac.getD layer []))
        (W.getD layer []) X1)
    w (⟨w, p, W.set layer X, Bs⟩ : DescendState α)
    ⟨X, rfl, hX⟩
    (fun col hcol st hP => by
      obtain ⟨X1, rfl, hF⟩ := hP
      have hidx : row * w + col < (W.getD layer []).length := by
        have : (row + 1) * w = row * w + w := by ring
        omega
      have hsl : layer < (W.set layer X1).length := by simpa using hlW
      have hcur : row * w + col < ((W.set layer X1).getD layer []).length := by
        rw [getD_set_self W layer X1 [] hlW, hF.1]; exact hidx
      have hwpos : 0 < w := by omega
      have hmod : (row * w + col) % w = col := by
        rw [Nat.add_comm, Nat.add_mul_mod_self_right, Nat.mod_eq_of_lt hcol]
      have hdiv : (row * w + col) / w = row := by
        rw [Nat.add_comm, Nat.add_mul_div_right _ _ hwpos, Nat.div_eq_of_lt hcol, Nat.zero_add]
      have hv : at2 (W.set layer X1) layer (row * w + col) -
          learningRate * vget p col * at2 jac layer row =
          descWeight learningRate w (W.getD layer []) p (jac.getD layer [])
            (row * w + col) := by
        rw [at2_set_self W layer _ X1 hlW, hF.vget_ge (le_refl _)]
        unfold descWeight
        rw [hmod, hdiv]; rfl
      refine ⟨(⟨w, p, W.set layer (X1.set (row * w + col)
        (descWeight learningRate w (W.getD layer []) p (jac.getD layer []) (row * w + col))),
        Bs⟩ : DescendState α), ?_, _, rfl, ?_⟩
      · simp only [rd2_spec (W.set layer X1) layer _ hsl hcur, Option.some_bind,
          rd_vget p col (by omega), rd2_spec jac layer row hlJ hrow,
          wr2_spec (W.set layer X1) layer _ _ hsl hcur, hv, List.set_set,
          getD_set_self W layer X1 [] hlW]
      · have := hF.step hidx
        rwa [Nat.add_assoc] at this)
  refine ⟨X1, ?_, ?_⟩
  · rw [hs, hsX]
  · have : (row + 1) * w = row * w + w := by ring
    rw [this]; exact hF

theorem descend_rows (learningRate : α) (layer len w : Nat) (p : List α)
    (W B jac : List (List α))
    (hlW : layer < W.length) (hlB : layer < B.length) (hlJ : layer < jac.length)
    (hJ : len ≤ (jac.getD layer []).length)
    (hp : w ≤ p.length)
    (hX0 : len * w ≤ (W.getD layer []).length)
    (hY0 : len ≤ (B.getD layer []).length) :
    ∃ X Y, forLoop (fun row (st : DescendState α) =>
        (forLoop (fun col (st : DescendState α) =>
          (rd2 st.weights layer (row * st.weightsWidth + col)).bind (fun wt =>
            (rd st.prevLayer col).bind (fun pv =>
              (rd2 jac layer row).bind (fun j =>
                (wr2 st.weights layer (row * st.weightsWidth + col)
                  (wt - learningRate * pv * j)).bind (fun ws =>
                    some { st with weights := ws }))))) st.weightsWidth st).bind (fun st =>
          (rd2 st.biases layer row).bind (fun b =>
            (rd2 jac layer row).bind (fun j =>
              (wr2 st.biases layer row (b - learningRate * j)).bind (fun bs =>
                some { st with biases := bs }))))) len
        (⟨w, p, W, B⟩ : DescendState α) =
        some (⟨w, p, W.set layer X, B.set layer Y⟩ : DescendState α) ∧
      Fills (len * w) (descWeight learningRate w (W.getD layer []) p (jac.getD layer []))
        (W.getD layer []) X ∧
      Fills len (descBias learningRate (B.getD layer []) (jac.getD layer []))
        (B.getD layer []) Y := by
  have hW0 : W = W.set layer (W.getD layer []) := by
    apply List.ext_getElem? ; intro k
    by_cases hk : layer = k
    · subst hk; simp [List.getElem?_set, hlW, List.getD, List.getElem?_eq_getElem hlW]
    · rw [List.getElem?_set_ne hk]
  have hB0 : B = B.set layer (B.getD layer []) := by
    apply List.ext_getElem? ; intro k
    by_cases hk : layer = k
    · subst hk; simp [List.getElem?_set, hlB, List.getD, List.getElem?_eq_getElem hlB]
    · rw [List.getElem?_set_ne hk]
  obtain ⟨s, hs, X, Y, hsXY, hFX, hFY⟩ := forLoop_inv
    (fun row (st : DescendState α) =>
        (forLoop (fun col (st : DescendState α) =>
          (rd2 st.weights layer (row * st.weightsWidth + col)).bind (fun wt =>
            (rd st.prevLayer col).bind (fun pv =>
              (rd2 jac layer row).bind (fun j =>
                (wr2 st.weights layer (row * st.weightsWidth + col)
                  (wt - learningRate * pv * j)).bind (fun ws =>
                    some { st with weights := ws }))))) st.weightsWidth st).bind (fun st =>
          (rd2 st.biases layer row).bind (fun b =>
            (rd2 jac layer row).bind (fun j =>
              (wr2 st.biases layer row (b - learningRate * j)).bind (fun bs =>
                some { st with biases := bs })))))
    (fun row st => ∃ X Y, st = (⟨w, p, W.set layer X, B.set layer Y⟩ : DescendState α) ∧
      Fills (row * w) (descWeight learningRate w (W.getD layer []) p (jac.getD layer []))
        (W.getD layer []) X ∧
      Fills row (descBias learningRate (B.getD layer []) (jac.getD layer []))
        (B.getD layer []) Y)
    len (⟨w, p, W, B⟩ : DescendState α)
    ⟨W.getD layer [], B.getD layer [], by rw [← hW0, ← hB0],
      ⟨rfl, fun k hk => by simp at hk, fun k _ => rfl⟩,
      ⟨rfl, fun k hk => by simp at hk, fun k _ => rfl⟩⟩
    (fun row hrow st hP => by
      obtain ⟨X, Y, rfl, hFX, hFY⟩ := hP
      have hrowJ : row < (jac.getD layer []).length := by omega
      obtain ⟨X1, hcols, hFX1⟩ := descend_cols learningRate layer row w p W (B.set layer Y) jac X
        hlW hlJ hrowJ hp
        (le_trans (Nat.mul_le_mul_right w hrow) hX0) hFX
      have hsl : layer < (B.set layer Y).length := by simpa using hlB
      have hcur : row < ((B.set layer Y).getD layer []).length := by
        rw [getD_set_self B layer Y [] hlB, hFY.1]; omega
      have hv : at2 (B.set layer Y) layer row - learningRate * at2 jac layer row =
          descBias learningRate (B.getD layer []) (jac.getD layer []) row := by
        rw [at2_set_self B layer _ Y hlB, hFY.vget_ge (le_refl _)]; rfl
      refine ⟨(⟨w, p, W.set layer X1, B.set layer (Y.set row
        (descBias learningRate (B.getD layer []) (jac.getD layer []) row))⟩ : DescendState α),
        ?_, X1, _, rfl, hFX1, hFY.step (by omega)⟩
      simp only []
      rw [hcols]
      simp only [Option.some_bind, rd2_spec (B.set layer Y) layer row hsl hcur,
        rd2_spec jac layer row hlJ hrowJ, wr2_spec (B.set layer Y) layer row _ hsl hcur, hv,
        List.set_set, getD_set_self B layer Y [] hlB])
  exact ⟨X, Y, by rw [hs, hsXY], hFX, hFY⟩

theorem srcBuf_length (inputLayerSize layers_count : Nat) (inputLayer : List α)
    (layer_lengths : List Nat) (act : List (List α))
    (hin : inputLayerSize ≤ inputLayer.length)
    (hA : TableShaped layers_count layer_lengths act) (i : Nat) (hi : i ≤ layers_count) :
    srcWidth inputLayerSize layer_lengths i ≤ (srcBuf inputLayer act i).length := by
  unfold srcWidth srcBuf
  by_cases h : i = 0
  · simp only [h, if_true]; exact hin
  · simp only [h, if_false]; rw [hA.2 (i - 1) (by omega)]

theorem Descend_spec (layers_count : Nat) (layer_lengths : List Nat) (inputSize : Nat)
    (inputLayer : List α) (activated_neurons weights biases biasesJacobian : List (List α))
    (learningRate : α)
    (hll : layer_lengths.length = layers_count)
    (hin : inputSize ≤ inputLayer.length)
    (hA : TableShaped layers_count layer_lengths activated_neurons)
    (hW : WeightsShaped inputSize layers_count layer_lengths weights)
    (hB : TableShaped layers_count layer_lengths biases)
    (hJ : TableShaped layers_count layer_lengths biasesJacobian) :
    ∃ weights1 biases1, Descend layers_count layer_lengths inputSize inputLayer
        activated_neurons weights biases biasesJacobian learningRate =
          some (weights1, biases1) ∧
      WeightsShaped inputSize layers_count layer_lengths weights1 ∧
      TableShaped layers_count layer_lengths biases1 ∧
      DescendDone learningRate inputSize inputLayer layer_lengths activated_neurons weights
        biases biasesJacobian layers_count weights1 biases1 := by
  obtain ⟨s, hs, hw, hp, hWs, hBs, hdone, -⟩ := forLoop_inv
    (fun layer (st : DescendState α) =>
    (rd layer_lengths layer).bind (fun len =>
      (forLoop (fun row (st : DescendState α) =>
        (forLoop (fun col (st : DescendState α) =>
          (rd2 st.weights layer (row * st.weightsWidth + col)).bind (fun w =>
            (rd st.prevLayer col).bind (fun p =>
              (rd2 biasesJacobian layer row).bind (fun j =>
                (wr2 st.weights layer (row * st.weightsWidth + col)
                  (w - learningRate * p * j)).bind (fun ws =>
                    some { st with weights := ws }))))) st.weightsWidth st).bind (fun st =>
          (rd2 st.biases layer row).bind (fun b =>
            (rd2 biasesJacobian layer row).bind (fun j =>
              (wr2 st.biases layer row (b - learningRate * j)).bind (fun bs =>
                some { st with biases := bs }))))) len st).bind (fun st =>
        (rd layer_lengths layer).bind (fun len1 =>
          (rd activated_neurons layer).bind (fun a =>
            some { st with weightsWidth := len1, prevLayer := a })))))
    (fun k st => st.weightsWidth = srcWidth inputSize layer_lengths k ∧
      st.prevLayer = srcBuf inputLayer activated_neurons k ∧
      WeightsShaped inputSize layers_count layer_lengths st.weights ∧
      TableShaped layers_count layer_lengths st.biases ∧
      DescendDone learningRate inputSize inputLayer layer_lengths activated_neurons weights
        biases biasesJacobian k st.weights st.biases ∧
      ∀ l, k ≤ l → st.weights.getD l [] = weights.getD l [] ∧
        st.biases.getD l [] = biases.getD l [])
    layers_count (⟨inputSize, inputLayer, weights, biases⟩ : DescendState α)
    ⟨by simp [srcWidth], by simp [srcBuf], hW, hB, fun l hl => absurd hl (Nat.not_lt_zero l),
      fun l _ => ⟨rfl, rfl⟩⟩
    (fun k hk st hP => by
      obtain ⟨w, p, W, B⟩ := st
      obtain ⟨hw, hp, hWs, hBs, hdone, hframe⟩ := hP
      simp only [] at hw hp hWs hBs hdone hframe
      subst hw hp
      have hlW : k < W.length := by rw [hWs.1]; exact hk
      have hlB : k < B.length := by rw [hBs.1]; exact hk
      have hlJ : k < biasesJacobian.length := by rw [hJ.1]; exact hk
      obtain ⟨X, Y, hrows, hFX, hFY⟩ := descend_rows learningRate k (layer_lengths.getD k 0)
        (srcWidth inputSize layer_lengths k) (srcBuf inputLayer activated_neurons k)
        W B biasesJacobian hlW hlB hlJ (by rw [hJ.2 k hk])
        (srcBuf_length inputSize layers_count inputLayer layer_lengths activated_neurons hin hA
          k (by omega))
        (by rw [hWs.2 k hk]) (by rw [hBs.2 k hk])
      refine ⟨(⟨layer_lengths.getD k 0, activated_neurons.getD k [], W.set k X, B.set k Y⟩ :
        DescendState α), ?_, by simp [srcWidth], by simp [srcBuf], ?_, ?_, ?_, ?_⟩
      · simp only [rd_of_lt layer_lengths k 0 (by omega), Option.some_bind]
        rw [hrows]
        simp only [Option.some_bind,
          rd_table activated_neurons k (by rw [hA.1]; exact hk)]
      · refine ⟨by simp [hWs.1], fun i hi => ?_⟩
        by_cases hik : k = i
        · subst hik
          rw [getD_set_self W k X [] hlW, hFX.1]; exact hWs.2 k hk
        · rw [getD_set_other W k i X [] hik]; exact hWs.2 i hi
      · exact hBs.set k Y (by rw [hFY.1]; exact hBs.2 k hk)
      · intro l hl row hrow
        by_cases hlk : l = k
        · subst hlk
          refine ⟨fun col hcol => ?_, ?_⟩
          · have hidx : row * srcWidth inputSize layer_lengths l + col <
                layer_lengths.getD l 0 * srcWidth inputSize layer_lengths l :=
              index_lt_of_row_col hrow hcol (le_refl _)
            have hwpos : 0 < srcWidth inputSize layer_lengths l := by omega
            show at2 (W.set l X) l _ = _
            rw [at2_set_self W l _ X hlW, hFX.vget_lt hidx]
            unfold descWeight
            rw [Nat.add_comm (row * _) col, Nat.add_mul_mod_self_right, Nat.mod_eq_of_lt hcol,
              Nat.add_mul_div_right _ _ hwpos, Nat.div_eq_of_lt hcol, Nat.zero_add,
              vget_srcBuf, (hframe l (le_refl l)).1]
            rfl
          · show at2 (B.set l Y) l _ = _
            rw [at2_set_self B l _ Y hlB, hFY.vget_lt hrow]
            unfold descBias
            rw [(hframe l (le_refl l)).2]
            rfl
        · have hlt : l < k := by omega
          obtain ⟨h1, h2⟩ := hdone l hlt row hrow
          refine ⟨fun col hcol => ?_, ?_⟩
          · show at2 (W.set k X) l _ = _
            rw [at2_set_other W k l _ X (by omega)]; exact h1 col hcol
          · show at2 (B.set k Y) l _ = _
            rw [at2_set_other B k l _ Y (by omega)]; exact h2
      · intro l hl
        show (W.set k X).getD l [] = _ ∧ (B.set k Y).getD l [] = _
        rw [getD_set_other W k l X [] (by omega), getD_set_other B k l Y [] (by omega)]
        exact hframe l (by omega))
  refine ⟨s.weights, s.biases, ?_, hWs, hBs, hdone⟩
  unfold Descend
  rw [hs]
  rfl

theorem Activation_eq_max (x : α) : Activation x = max 0 x := by
  unfold Activation
  by_cases h : x ≥ 0
  · rw [if_pos h, max_eq_right h]
  · rw [if_neg h, max_eq_left (le_of_lt (not_le.mp h))]

theorem largestindex_spec (out : List α) (hne : out ≠ []) :
    ∃ k, largestindex out.length out = some k ∧ k < out.length ∧
      (∀ j, j < out.length → vget out j ≤ vget out k) ∧
      (∀ j, j < k → vget out j < vget out k) := by
  have hpos : 0 < out.length := List.length_pos.mpr hne
  obtain ⟨k, hk, hlt, hmax, hfirst⟩ := forLoop_inv
    (fun i largest =>
      (rd out i).bind (fun x => (rd out largest).bind (fun y =>
        some (if x > y then i else largest))))
    (fun i k => k < out.length ∧ (∀ j, j < i → vget out j ≤ vget out k) ∧
      (∀ j, j < k → vget out j < vget out k))
    out.length 0
    ⟨hpos, fun j hj => absurd hj (Nat.not_lt_zero j), fun j hj => absurd hj (Nat.not_lt_zero j)⟩
    (fun i hi k hP => by
      obtain ⟨hk, hmax, hfirst⟩ := hP
      simp only [rd_vget out i hi, rd_vget out k hk, Option.some_bind]
      refine ⟨_, rfl, ?_⟩
      by_cases hgt : vget out i > vget out k
      · rw [if_pos hgt]
        refine ⟨hi, fun j hj => ?_, fun j hj => lt_of_le_of_lt (hmax j hj) hgt⟩
        by_cases hji : j = i
        · rw [hji]
        · exact le_of_lt (lt_of_le_of_lt (hmax j (by omega)) hgt)
      · rw [if_neg hgt]
        refine ⟨hk, fun j hj => ?_, hfirst⟩
        by_cases hji : j = i
        · rw [hji]; exact not_lt.mp hgt
        · exact hmax j (by omega))
  exact ⟨k, hk, hlt, hmax, hfirst⟩

theorem zero_network_output (exp : α → α) (hexp : exp 0 = 1) (inputLayerSize : Nat)
    (inputLayer : List α) (layers_count : Nat) (layer_lengths : List Nat)
    (weights biases deactivated_neurons activated_neurons : List (List α))
    (hL : 2 ≤ layers_count) (hsz : layers_count < SIZE_MOD)
    (hll : layer_lengths.length = layers_count)
    (hin : inputLayerSize ≤ inputLayer.length)
    (hW : WeightsShaped inputLayerSize layers_count layer_lengths weights)
    (hB : TableShaped layers_count layer_lengths biases)
    (hD : TableShaped layers_count layer_lengths deactivated_neurons)
    (hA : TableShaped layers_count layer_lengths activated_neurons)
    (hW0 : ∀ k, at2 weights (layers_count - 1) k = 0)
    (hB0 : ∀ k, at2 biases (layers_count - 1) k = 0) :
    ∃ st, ForwardPass exp inputLayerSize inputLayer layers_count layer_lengths weights
        biases deactivated_neurons activated_neurons = some st ∧
      ∀ r, r < layer_lengths.getD (layers_count - 1) 0 →
        at2 st.2 (layers_count - 1) r = 1 / 2 := by
  obtain ⟨st, hrun, -, -, hdone⟩ := ForwardPass_spec exp inputLayerSize inputLayer layers_count
    layer_lengths weights biases deactivated_neurons activated_neurons hL hsz hll hin hW hB hD hA
  refine ⟨st, hrun, fun r hr => ?_⟩
  obtain ⟨h1, h2⟩ := hdone (layers_count - 1) (by omega) r hr
  have hz : at2 st.1 (layers_count - 1) r = 0 := by
    rw [h1, hB0, add_zero]
    apply Finset.sum_eq_zero
    intro c _
    rw [hW0, zero_mul]
  have he : layers_count - 1 + 1 = layers_count := by omega
  rw [h2, hz, layerActivation, if_pos he, OutputActivation, neg_zero, hexp]
  norm_num

theorem fwriteOrFail_saved (buf : List (Field α)) (count room : Nat) (file : List (Field α))
    (next : List (Field α) → Option (SaveResult α)) (out : List (Field α))
    (h : fwriteOrFail buf count room file next = some (.saved out)) :
    count ≤ buf.length ∧ count ≤ room ∧ next (file ++ buf.take count) = some (.saved out) := by
  unfold fwriteOrFail fwrite at h
  by_cases hc : count ≤ buf.length
  · rw [if_pos hc] at h
    simp only [Option.some_bind] at h
    by_cases hr : min count room ≠ count
    · rw [if_pos hr] at h
      exact absurd h (by simp)
    · rw [if_neg hr] at h
      have hmin : min count room = count := not_not.mp hr
      rw [hmin] at h
      exact ⟨hc, by omega, h⟩
  · rw [if_neg hc] at h
    exact absurd h (by simp)

theorem saveBlock_saved (row_count col_count layers_count : Nat) (all_weights all_biases : List α)
    (twc tnc : Nat) (fopenOk mallocOk : Bool) (heap room : Nat → Nat) (file : List (Field α))
    (h : saveBlock row_count col_count layers_count all_weights all_biases twc tnc fopenOk
      mallocOk heap room = some (.saved file)) :
    file = [Field.u16 1, Field.u64 (inputWidth row_count col_count),
        Field.u64 (layers_count % SIZE_MOD)] ++
      (List.range (layers_count % SIZE_MOD)).map (fun i => Field.u64 (heap i % SIZE_MOD)) ++
      [Field.u64 sizeof_double] ++ (all_weights.map Field.f64).take twc ++
      (all_biases.map Field.f64).take tnc ∧
    twc ≤ all_weights.length ∧ tnc ≤ all_biases.length := by
  unfold saveBlock at h
  cases fopenOk
  · exact absurd h (by simp)
  cases mallocOk
  · exact absurd h (by simp)
  simp only [Bool.not_true, Bool.false_eq_true, if_false] at h
  obtain ⟨-, -, h⟩ := fwriteOrFail_saved _ _ _ _ _ _ h
  obtain ⟨-, -, h⟩ := fwriteOrFail_saved _ _ _ _ _ _ h
  obtain ⟨-, -, h⟩ := fwriteOrFail_saved _ _ _ _ _ _ h
  obtain ⟨-, -, h⟩ := fwriteOrFail_saved _ _ _ _ _ _ h
  obtain ⟨-, -, h⟩ := fwriteOrFail_saved _ _ _ _ _ _ h
  obtain ⟨hw, -, h⟩ := fwriteOrFail_saved _ _ _ _ _ _ h
  obtain ⟨hb, -, h⟩ := fwriteOrFail_saved _ _ _ _ _ _ h
  simp only [Option.some.injEq, SaveResult.saved.injEq] at h
  refine ⟨?_, by simpa using hw, by simpa using hb⟩
  rw [← h]
  simp

theorem take_sum_eq_flatten (l : List α) (size : Nat → Nat) (n : Nat) :
    l.take (∑ i ∈ Finset.range n, size i) =
      ((List.range n).map
        (fun i => viewAt l (∑ j ∈ Finset.range i, size j) (size i))).flatten := by
  induction n with
  | zero => simp
  | succ n ih =>
    rw [Finset.sum_range_succ, List.take_add, ih, List.range_succ, List.map_append,
      List.flatten_append]
    simp [viewAt]

theorem weightCount_eq_sum (inputSize layers_count : Nat) (layer_lengths : List Nat)
    (hL : 1 ≤ layers_count) :
    weightCount inputSize layers_count layer_lengths =
      ∑ l ∈ Finset.range layers_count, weightSize inputSize layer_lengths l := by
  obtain ⟨n, rfl⟩ : ∃ n, layers_count = n + 1 := ⟨layers_count - 1, by omega⟩
  rw [Finset.sum_range_succ', weightCount, Nat.add_sub_cancel, Nat.add_comm]
  congr 1
  · apply Finset.sum_congr rfl
    intro i _
    simp [weightSize, srcWidth, Nat.mul_comm]
  · simp [weightSize, srcWidth, Nat.mul_comm]

theorem sum_range_le_of_le (f : Nat → Nat) {m n : Nat} (h : m ≤ n) :
    ∑ i ∈ Finset.range m, f i ≤ ∑ i ∈ Finset.range n, f i :=
  Finset.sum_le_sum_of_subset (Finset.range_mono h)

theorem total_neuron_count_spec (layers_count : Nat) (layer_lengths : List Nat)
    (hll : layer_lengths.length = layers_count)
    (hnc : neuronCount layers_count layer_lengths < SIZE_MOD) :
    total_neuron_count layers_count layer_lengths =
      some (neuronCount layers_count layer_lengths) := by
  obtain ⟨t, ht, hP⟩ := forLoop_inv
    (fun i total =>
      (rd layer_lengths i).bind (fun len => some ((total + len) % SIZE_MOD)))
    (fun i total => total = ∑ l ∈ Finset.range i, layer_lengths.getD l 0)
    layers_count 0 (by simp)
    (fun i hi total hP => by
      refine ⟨(total + layer_lengths.getD i 0) % SIZE_MOD, by
        simp only [rd_of_lt layer_lengths i 0 (by omega), Option.some_bind], ?_⟩
      show (total + layer_lengths.getD i 0) % SIZE_MOD =
        ∑ l ∈ Finset.range (i + 1), layer_lengths.getD l 0
      have hP : total = ∑ l ∈ Finset.range i, layer_lengths.getD l 0 := hP
      have hle := sum_range_le_of_le (fun l => layer_lengths.getD l 0)
        (show i + 1 ≤ layers_count by omega)
      rw [Finset.sum_range_succ] at hle ⊢
      rw [hP]
      exact Nat.mod_eq_of_lt (lt_of_le_of_lt hle hnc))
  rw [total_neuron_count, ht, hP]; rfl

theorem total_weight_count_spec (inputSize layers_count : Nat) (layer_lengths : List Nat)
    (hL : 1 ≤ layers_count) (hll : layer_lengths.length = layers_count)
    (hwc : weightCount inputSize layers_count layer_lengths < SIZE_MOD) :
    total_weight_count inputSize layers_count layer_lengths =
      some (weightCount inputSize layers_count layer_lengths) := by
  have hsum := weightCount_eq_sum inputSize layers_count layer_lengths hL
  have hpart : ∀ i, i ≤ layers_count →
      ∑ l ∈ Finset.range i, weightSize inputSize layer_lengths l < SIZE_MOD := fun i hi =>
    lt_of_le_of_lt (sum_range_le_of_le _ hi) (hsum ▸ hwc)
  obtain ⟨t, ht, hP⟩ := whileLt_inv
    (fun i total =>
      (rd layer_lengths (i - 1)).bind (fun prev => (rd layer_lengths i).bind (fun len =>
        some ((total + prev * len) % SIZE_MOD))))
    (fun i total => total = ∑ l ∈ Finset.range i, weightSize inputSize layer_lengths l)
    1 layers_count ((inputSize * layer_lengths.getD 0 0) % SIZE_MOD) hL
    (by
      have h1 := hpart 1 hL
      simp only [Finset.sum_range_one] at h1 ⊢
      have e : weightSize inputSize layer_lengths 0 = inputSize * layer_lengths.getD 0 0 := by
        simp [weightSize, srcWidth, Nat.mul_comm]
      rw [e] at h1 ⊢
      exact Nat.mod_eq_of_lt h1)
    (fun i hi1 hi2 total hP => by
      refine ⟨(total + layer_lengths.getD (i - 1) 0 * layer_lengths.getD i 0) % SIZE_MOD, by
        simp only [rd_of_lt layer_lengths (i - 1) 0 (by omega),
          rd_of_lt layer_lengths i 0 (by omega), Option.some_bind], ?_⟩
      show (total + layer_lengths.getD (i - 1) 0 * layer_lengths.getD i 0) % SIZE_MOD =
        ∑ l ∈ Finset.range (i + 1), weightSize inputSize layer_lengths l
      have hP : total = ∑ l ∈ Finset.range i, weightSize inputSize layer_lengths l := hP
      have hlt := hpart (i + 1) (by omega)
      rw [Finset.sum_range_succ] at hlt ⊢
      have e : weightSize inputSize layer_lengths i =
          layer_lengths.getD (i - 1) 0 * layer_lengths.getD i 0 := by
        have hne : i ≠ 0 := by omega
        simp [weightSize, srcWidth, hne, Nat.mul_comm]
      rw [e] at hlt ⊢
      rw [hP]
      exact Nat.mod_eq_of_lt hlt)
  rw [total_weight_count, rd_of_lt layer_lengths 0 0 (by omega)]
  simp only [Option.some_bind]
  rw [ht, hP, hsum]

theorem neuronViews_spec (layers_count : Nat) (layer_lengths : List Nat)
    (hll : layer_lengths.length = layers_count)
    (hnc : neuronCount layers_count layer_lengths < SIZE_MOD) :
    ∃ offs, neuronViews layers_count layer_lengths = some offs ∧ offs.length = layers_count ∧
      ∀ j, j < layers_count →
        offs.getD j 0 = ∑ l ∈ Finset.range j, layer_lengths.getD l 0 := by
  obtain ⟨st, hst, h1, h2, h3⟩ := forLoop_inv
    (fun i (st : Nat × List Nat) =>
      (wr st.2 i st.1).bind (fun table => (rd layer_lengths i).bind (fun len =>
        some ((st.1 + len) % SIZE_MOD, table))))
    (fun i st => st.1 = ∑ l ∈ Finset.range i, layer_lengths.getD l 0 ∧
      st.2.length = layers_count ∧
      ∀ j, j < i → st.2.getD j 0 = ∑ l ∈ Finset.range j, layer_lengths.getD l 0)
    layers_count (0, List.replicate layers_count 0)
    ⟨by simp, by simp, fun j hj => absurd hj (Nat.not_lt_zero j)⟩
    (fun i hi st hP => by
      obtain ⟨off, table⟩ := st
      obtain ⟨h1, h2, h3⟩ := hP
      simp only [] at h1 h2 h3
      refine ⟨((off + layer_lengths.getD i 0) % SIZE_MOD, table.set i off), by
        simp only [wr_of_lt table i off (by omega), rd_of_lt layer_lengths i 0 (by omega),
          Option.some_bind], ?_, by simpa using h2, ?_⟩
      · show (off + layer_lengths.getD i 0) % SIZE_MOD = _
        have hle := sum_range_le_of_le (fun l => layer_lengths.getD l 0)
          (show i + 1 ≤ layers_count by omega)
        rw [Finset.sum_range_succ] at hle ⊢
        rw [h1]
        exact Nat.mod_eq_of_lt (lt_of_le_of_lt hle hnc)
      · intro j hj
        show (table.set i off).getD j 0 = _
        by_cases hji : i = j
        · subst hji; rw [getD_set_self table i off 0 (by omega)]; exact h1
        · rw [getD_set_other table i j off 0 hji]; exact h3 j (by omega))
  exact ⟨st.2, by rw [neuronViews, hst]; rfl, h2, h3⟩

theorem weightViews_spec (inputSize layers_count : Nat) (layer_lengths : List Nat)
    (hL : 1 ≤ layers_count) (hll : layer_lengths.length = layers_count)
    (hwc : weightCount inputSize layers_count layer_lengths < SIZE_MOD) :
    ∃ offs, weightViews inputSize layers_count layer_lengths = some offs ∧
      offs.length = layers_count ∧
      ∀ j, j < layers_count →
        offs.getD j 0 = ∑ l ∈ Finset.range j, weightSize inputSize layer_lengths l := by
  have hsum := weightCount_eq_sum inputSize layers_count layer_lengths hL
  have hpart : ∀ i, i ≤ layers_count →
      ∑ l ∈ Finset.range i, weightSize inputSize layer_lengths l < SIZE_MOD := fun i hi =>
    lt_of_le_of_lt (sum_range_le_of_le _ hi) (hsum ▸ hwc)
  have hrep : 0 < (List.replicate layers_count 0).length := by simpa using hL
  obtain ⟨st, hst, h1, h2, h3⟩ := whileLt_inv
    (fun i (st : Nat × List Nat) =>
      (wr st.2 i st.1).bind (fun table => (rd layer_lengths (i - 1)).bind (fun prev =>
        (rd layer_lengths i).bind (fun len => some ((st.1 + prev * len) % SIZE_MOD, table)))))
    (fun i st => st.1 = ∑ l ∈ Finset.range i, weightSize inputSize layer_lengths l ∧
      st.2.length = layers_count ∧
      ∀ j, j < i → st.2.getD j 0 = ∑ l ∈ Finset.range j, weightSize inputSize layer_lengths l)
    1 layers_count
    ((inputSize * layer_lengths.getD 0 0) % SIZE_MOD, (List.replicate layers_count 0).set 0 0)
    hL
    ⟨by
      have h1 := hpart 1 hL
      simp only [Finset.sum_range_one] at h1 ⊢
      have e : weightSize inputSize layer_lengths 0 = inputSize * layer_lengths.getD 0 0 := by
        simp [weightSize, srcWidth, Nat.mul_comm]
      rw [e] at h1 ⊢
      exact Nat.mod_eq_of_lt h1, by simp, fun j hj => by
      have hj0 : j = 0 := by omega
      subst hj0
      rw [getD_set_self _ 0 0 0 hrep]; simp⟩
    (fun i hi1 hi2 st hP => by
      obtain ⟨off, table⟩ := st
      obtain ⟨h1, h2, h3⟩ := hP
      simp only [] at h1 h2 h3
      refine ⟨((off + layer_lengths.getD (i - 1) 0 * layer_lengths.getD i 0) % SIZE_MOD,
        table.set i off), by
        simp only [wr_of_lt table i off (by omega), rd_of_lt layer_lengths i 0 (by omega),
          rd_of_lt layer_lengths (i - 1) 0 (by omega), Option.some_bind], ?_,
        by simpa using h2, ?_⟩
      · show (off + layer_lengths.getD (i - 1) 0 * layer_lengths.getD i 0) % SIZE_MOD = _
        have hlt := hpart (i + 1) (by omega)
        rw [Finset.sum_range_succ] at hlt ⊢
        have e : weightSize inputSize layer_lengths i =
            layer_lengths.getD (i - 1) 0 * layer_lengths.getD i 0 := by
          have hne : i ≠ 0 := by omega
          simp [weightSize, srcWidth, hne, Nat.mul_comm]
        rw [e] at hlt ⊢
        rw [h1]
        exact Nat.mod_eq_of_lt hlt
      · intro j hj
        show (table.set i off).getD j 0 = _
        by_cases hji : i = j
        · subst hji; rw [getD_set_self table i off 0 (by omega)]; exact h1
        · rw [getD_set_other table i j off 0 hji]; exact h3 j (by omega))
  refine ⟨st.2, ?_, h2, h3⟩
  rw [weightViews, wr_of_lt _ 0 0 hrep, rd_of_lt layer_lengths 0 0 (by omega)]
  simp only [Option.some_bind]
  rw [hst]; rfl

theorem arena_eq_views (arena : List α) (size : Nat → Nat) (n : Nat) (offs : List Nat)
    (hlen : arena.length = ∑ i ∈ Finset.range n, size i)
    (hoffs : ∀ j, j < n → offs.getD j 0 = ∑ l ∈ Finset.range j, size l) :
    arena = ((List.range n).map (fun i => viewAt arena (offs.getD i 0) (size i))).flatten := by
  have h := take_sum_eq_flatten arena size n
  rw [← hlen, List.take_length] at h
  rw [h]
  congr 1
  apply List.map_congr_left
  intro i hi
  rw [hoffs i (List.mem_range.mp hi), ← h]

theorem fileBytes_append (a b : List (Field α)) :
    fileBytes (a ++ b) = fileBytes a + fileBytes b := by
  simp [fileBytes]

theorem fileBytes_u64 (l : List Nat) : fileBytes (l.map (Field.u64 : Nat → Field α)) =
    8 * l.length := by
  induction l with
  | nil => rfl
  | cons x xs ih =>
    simp only [List.map_cons, List.length_cons]
    rw [show (Field.u64 x : Field α) :: xs.map Field.u64 = [Field.u64 x] ++ xs.map Field.u64
      from rfl, fileBytes_append, ih]
    simp [fileBytes, Field.byteSize]; ring

theorem fileBytes_f64 (l : List α) : fileBytes (l.map Field.f64) = 8 * l.length := by
  induction l with
  | nil => rfl
  | cons x xs ih =>
    simp only [List.map_cons, List.length_cons]
    rw [show Field.f64 x :: xs.map Field.f64 = [Field.f64 x] ++ xs.map Field.f64
      from rfl, fileBytes_append, ih]
    simp [fileBytes, Field.byteSize]; ring

theorem hasDerivAt_OutputActivation (x : ℝ) :
    HasDerivAt (OutputActivation Real.exp)
      (OutputActivation Real.exp x * (1 - OutputActivation Real.exp x)) x := by
  have hpos : (1 : ℝ) + Real.exp (-x) ≠ 0 := by positivity
  have h1 : HasDerivAt (fun y : ℝ => Real.exp (-y)) (Real.exp (-x) * -1) x :=
    (Real.hasDerivAt_exp (-x)).comp x (hasDerivAt_neg x)
  have h2 : HasDerivAt (fun y : ℝ => 1 + Real.exp (-y)) (Real.exp (-x) * -1) x :=
    h1.const_add 1
  have h3 := h2.inv hpos
  have e : OutputActivation Real.exp = fun y : ℝ => (1 + Real.exp (-y))⁻¹ := by
    funext y; simp [OutputActivation]
  rw [e]
  convert h3 using 1
  field_simp
  ring

theorem outputCost_spec (len : Nat) (deactivated scratch intended : List ℝ)
    (hd : len ≤ deactivated.length) (hs : len ≤ scratch.length) (ht : len ≤ intended.length) :
    outputCost Real.exp len deactivated scratch intended =
      some (∑ k ∈ Finset.range len,
        (OutputActivation Real.exp (vget deactivated k) - vget intended k) *
          (OutputActivation Real.exp (vget deactivated k) - vget intended k)) := by
  obtain ⟨a, ha, hF⟩ := ActivateOutputVector_spec Real.exp len deactivated scratch hd hs
  rw [outputCost, ha]
  simp only [Option.some_bind]
  rw [Cost_spec len a intended (by rw [hF.1]; exact hs) ht]
  congr 1
  apply Finset.sum_congr rfl
  intro k hk
  rw [hF.vget_lt (Finset.mem_range.mp hk)]

theorem vget_set_self (l : List ℝ) (i : Nat) (x : ℝ) (h : i < l.length) :
    vget (l.set i x) i = x := getD_set_self l i x 0 h

theorem vget_set_other (l : List ℝ) (i k : Nat) (x : ℝ) (h : i ≠ k) :
    vget (l.set i x) k = vget l k := getD_set_other l i k x 0 h

theorem hasDerivAt_outputCost_term (z t : List ℝ) (i k : Nat) (hi : i < z.length) :
    HasDerivAt (fun x => (OutputActivation Real.exp (vget (z.set i x) k) - vget t k) *
        (OutputActivation Real.exp (vget (z.set i x) k) - vget t k))
      (if k = i then 2 * (OutputActivation Real.exp (vget z i) - vget t i) *
        (OutputActivation Real.exp (vget z i) * (1 - OutputActivation Real.exp (vget z i)))
        else 0) (vget z i) := by
  by_cases hk : k = i
  · subst hk
    rw [if_pos rfl]
    have e : (fun x => (OutputActivation Real.exp (vget (z.set k x) k) - vget t k) *
        (OutputActivation Real.exp (vget (z.set k x) k) - vget t k)) =
        fun x => (OutputActivation Real.exp x - vget t k) *
          (OutputActivation Real.exp x - vget t k) := by
      funext x; rw [vget_set_self z k x hi]
    rw [e]
    have h1 := (hasDerivAt_OutputActivation (vget z k)).sub_const (vget t k)
    convert h1.mul h1 using 1
    ring
  · rw [if_neg hk]
    have e : (fun x => (OutputActivation Real.exp (vget (z.set i x) k) - vget t k) *
        (OutputActivation Real.exp (vget (z.set i x) k) - vget t k)) =
        fun _ => (OutputActivation Real.exp (vget z k) - vget t k) *
          (OutputActivation Real.exp (vget z k) - vget t k) := by
      funext x; rw [vget_set_other z i k x (Ne.symm hk)]
    rw [e]
    exact hasDerivAt_const _ _

theorem netZ_eq_src (g : Nat → ℝ → ℝ) (width : Nat → Nat) (W : Nat → Nat → Nat → ℝ)
    (B : Nat → Nat → ℝ) (x : Nat → ℝ) (i r : Nat) :
    netZ g width W B x i r =
      (∑ c ∈ Finset.range (width i), W i r c * netSrc g width W B x i c) + B i r := by
  cases i <;> rfl

theorem stepW_zero (W : Nat → Nat → Nat → ℝ) (src j : Nat → Nat → ℝ) :
    stepW W src j 0 = W := by
  funext i r c; simp [stepW]

theorem stepB_zero (B : Nat → Nat → ℝ) (j : Nat → Nat → ℝ) : stepB B j 0 = B := by
  funext i r; simp [stepB]

theorem hasDerivAt_Activation (y : ℝ) (hy : y ≠ 0) :
    HasDerivAt (Activation : ℝ → ℝ) (if y ≥ 0 then 1 else 0) y := by
  rcases lt_or_gt_of_ne hy with h | h
  · rw [if_neg (not_le.mpr h)]
    have hev : (fun _ : ℝ => (0 : ℝ)) =ᶠ[nhds y] Activation := by
      filter_upwards [Iio_mem_nhds h] with u hu
      simp only [Activation, if_neg (not_le.mpr (Set.mem_Iio.mp hu))]
    exact (hasDerivAt_const y (0 : ℝ)).congr_of_eventuallyEq hev.symm
  · rw [if_pos (le_of_lt h)]
    have hev : (fun u : ℝ => u) =ᶠ[nhds y] Activation := by
      filter_upwards [Ioi_mem_nhds h] with u hu
      simp only [Activation, if_pos (le_of_lt (Set.mem_Ioi.mp hu))]
    exact (hasDerivAt_id y).congr_of_eventuallyEq hev.symm

theorem hasDerivAt_stepW (W : Nat → Nat → Nat → ℝ) (src j : Nat → Nat → ℝ) (i r c : Nat) :
    HasDerivAt (fun lr => stepW W src j lr i r c) (-(src i c * j i r)) 0 := by
  have h := ((hasDerivAt_id (0 : ℝ)).mul_const (src i c * j i r)).const_sub (W i r c)
  simp only [id, one_mul] at h
  refine h.congr_of_eventuallyEq (Filter.Eventually.of_forall (fun lr => ?_))
  simp [stepW, mul_assoc]

theorem hasDerivAt_stepB (B j : Nat → Nat → ℝ) (i r : Nat) :
    HasDerivAt (fun lr => stepB B j lr i r) (-(j i r)) 0 := by
  have h := ((hasDerivAt_id (0 : ℝ)).mul_const (j i r)).const_sub (B i r)
  simp only [id, one_mul] at h
  refine h.congr_of_eventuallyEq (Filter.Eventually.of_forall (fun lr => ?_))
  simp [stepB]

/-- Differentiability of the deactivated values along a descent step, layer by
layer, when no hidden neuron sits at the kink of the ReLU. -/
theorem hasDerivAt_netZ (L : Nat) (g : Nat → ℝ → ℝ) (width len : Nat → Nat)
    (W : Nat → Nat → Nat → ℝ) (B : Nat → Nat → ℝ) (x : Nat → ℝ) (j : Nat → Nat → ℝ)
    (hg : ∀ i, i + 1 < L → g i = Activation)
    (hwidth : ∀ i, width (i + 1) = len i)
    (hkink : ∀ i, i + 1 < L → ∀ r, r < len i → netZ g width W B x i r ≠ 0)
    (i : Nat) (hi : i < L) (r : Nat) :
    HasDerivAt (fun lr => netZ g width (stepW W (netSrc g width W B x) j lr)
        (stepB B j lr) x i r)
      (netDelta width W (netSrc g width W B x) (netZ g width W B x) j i r) 0 := by
  induction i generalizing r with
  | zero =>
    simp only [netZ, netDelta]
    refine HasDerivAt.add (HasDerivAt.sum (fun c _ => ?_)) (hasDerivAt_stepB B j 0 r)
    exact (hasDerivAt_stepW W _ j 0 r c).mul_const (x c)
  | succ i ih =>
    simp only [netZ, netDelta]
    refine HasDerivAt.add (HasDerivAt.sum (fun c hc => ?_)) (hasDerivAt_stepB B j (i + 1) r)
    have hc1 : c < len i := by rw [← hwidth i]; exact Finset.mem_range.mp hc
    have hz := ih (by omega) c
    have hz0 : netZ g width (stepW W (netSrc g width W B x) j 0) (stepB B j 0) x i c =
        netZ g width W B x i c := by rw [stepW_zero, stepB_zero]
    have hrelu : HasDerivAt (g i) (if netZ g width W B x i c ≥ 0 then 1 else 0)
        (netZ g width (stepW W (netSrc g width W B x) j 0) (stepB B j 0) x i c) := by
      rw [hz0, hg i (by omega)]
      exact hasDerivAt_Activation _ (hkink i (by omega) c hc1)
    have hcomp := hrelu.comp (0 : ℝ) hz
    have hprod := (hasDerivAt_stepW W (netSrc g width W B x) j (i + 1) r c).mul hcomp
    simp only [Function.comp] at hprod
    convert hprod using 1
    rw [hz0]
    simp only [stepW, zero_mul, sub_zero, netSrc]

theorem sum_jacobian_mul_delta (L : Nat) (width len : Nat → Nat)
    (W : Nat → Nat → Nat → ℝ) (src z j : Nat → Nat → ℝ)
    (hwidth : ∀ i, width (i + 1) = len i)
    (hhid : ∀ i, i + 1 < L → ∀ r, r < len i →
      j i r = (if z i r ≥ 0 then 1 else 0) *
        ∑ k ∈ Finset.range (len (i + 1)), j (i + 1) k * W (i + 1) k r)
    (i : Nat) (hi : i < L) :
    ∑ r ∈ Finset.range (len i), j i r * netDelta width W src z j i r =
      -∑ l ∈ Finset.range (i + 1), layerGradSq width len src j l := by
  induction i with
  | zero =>
    simp only [zero_add, Finset.sum_range_one, layerGradSq, netDelta]
    rw [← Finset.sum_neg_distrib]
    apply Finset.sum_congr rfl
    intro r _
    have e : ∑ c ∈ Finset.range (width 0), (-(src 0 c * j 0 r)) * src 0 c =
        -(j 0 r * ∑ c ∈ Finset.range (width 0), src 0 c ^ 2) := by
      rw [Finset.mul_sum, ← Finset.sum_neg_distrib]
      exact Finset.sum_congr rfl (fun c _ => by ring)
    rw [e]; ring
  | succ i ih =>
    rw [Finset.sum_range_succ _ (i + 1), neg_add, ← ih (by omega)]
    simp only [netDelta]
    have hsplit : ∀ r, j (i + 1) r *
        ((∑ c ∈ Finset.range (width (i + 1)),
          ((-(src (i + 1) c * j (i + 1) r)) * src (i + 1) c +
            W (i + 1) r c * ((if z i c ≥ 0 then 1 else 0) * netDelta width W src z j i c))) +
          (-(j (i + 1) r))) =
        -(j (i + 1) r ^ 2 * (1 + ∑ c ∈ Finset.range (width (i + 1)), src (i + 1) c ^ 2)) +
        ∑ c ∈ Finset.range (len i), (j (i + 1) r * W (i + 1) r c) *
          ((if z i c ≥ 0 then 1 else 0) * netDelta width W src z j i c) := by
      intro r
      rw [Finset.sum_add_distrib, hwidth i]
      have e1 : ∑ c ∈ Finset.range (len i), (-(src (i + 1) c * j (i + 1) r)) * src (i + 1) c =
          -(j (i + 1) r * ∑ c ∈ Finset.range (len i), src (i + 1) c ^ 2) := by
        rw [Finset.mul_sum, ← Finset.sum_neg_distrib]
        exact Finset.sum_congr rfl (fun c _ => by ring)
      have e2 : ∑ c ∈ Finset.range (len i), (j (i + 1) r * W (i + 1) r c) *
          ((if z i c ≥ 0 then 1 else 0) * netDelta width W src z j i c) =
          j (i + 1) r * ∑ c ∈ Finset.range (len i), W (i + 1) r c *
            ((if z i c ≥ 0 then 1 else 0) * netDelta width W src z j i c) := by
        rw [Finset.mul_sum]
        exact Finset.sum_congr rfl (fun c _ => by ring)
      rw [e1, e2]; ring
    rw [Finset.sum_congr rfl (fun r _ => hsplit r), Finset.sum_add_distrib,
      Finset.sum_neg_distrib, layerGradSq, add_comm]
    congr 1
    rw [Finset.sum_comm]
    apply Finset.sum_congr rfl
    intro c hc
    rw [hhid i (by omega) c (Finset.mem_range.mp hc), Finset.mul_sum, Finset.sum_mul]
    exact Finset.sum_congr rfl (fun r _ => by ring)

theorem layerGradSq_nonneg (width len : Nat → Nat) (src j : Nat → Nat → ℝ) (i : Nat) :
    0 ≤ layerGradSq width len src j i := by
  unfold layerGradSq
  apply Finset.sum_nonneg
  intro r _
  have h : 0 ≤ ∑ c ∈ Finset.range (width i), src i c ^ 2 :=
    Finset.sum_nonneg (fun c _ => sq_nonneg _)
  positivity

theorem layerGradSq_pos (width len : Nat → Nat) (src j : Nat → Nat → ℝ) (i r : Nat)
    (hr : r < len i) (hj : j i r ≠ 0) : 0 < layerGradSq width len src j i := by
  unfold layerGradSq
  have h : 0 ≤ ∑ c ∈ Finset.range (width i), src i c ^ 2 :=
    Finset.sum_nonneg (fun c _ => sq_nonneg _)
  have hterm : 0 < j i r ^ 2 * (1 + ∑ c ∈ Finset.range (width i), src i c ^ 2) := by
    have : 0 < j i r ^ 2 := by positivity
    positivity
  refine lt_of_lt_of_le hterm ?_
  exact Finset.single_le_sum
    (f := fun r => j i r ^ 2 * (1 + ∑ c ∈ Finset.range (width i), src i c ^ 2))
    (fun r _ => by positivity) (Finset.mem_range.mpr hr)

theorem eventually_lt_of_hasDerivAt_neg (f : ℝ → ℝ) (D : ℝ) (hf : HasDerivAt f D 0)
    (hD : D < 0) : ∃ eps, 0 < eps ∧ ∀ lr, 0 < lr → lr < eps → f lr < f 0 := by
  have ht := hasDerivAt_iff_tendsto_slope.mp hf
  have hev : ∀ᶠ y in nhdsWithin (0 : ℝ) {0}ᶜ, slope f 0 y < 0 :=
    ht.eventually (gt_mem_nhds hD)
  rw [eventually_nhdsWithin_iff, Metric.eventually_nhds_iff] at hev
  obtain ⟨eps, heps, h⟩ := hev
  refine ⟨eps, heps, fun lr h0 h1 => ?_⟩
  have hs := h (show dist lr 0 < eps by
    rw [Real.dist_eq, sub_zero, abs_of_pos h0]; exact h1) (by
    simp only [Set.mem_compl_iff, Set.mem_singleton_iff]; exact ne_of_gt h0)
  rw [slope_def_field, sub_zero] at hs
  have := (div_neg_iff.mp hs)
  rcases this with ⟨-, h3⟩ | ⟨h2, -⟩
  · exact absurd h0 (not_lt.mpr (le_of_lt h3))
  · linarith

theorem hasDerivAt_netCost (L : Nat) (g : Nat → ℝ → ℝ) (width len : Nat → Nat)
    (W : Nat → Nat → Nat → ℝ) (B : Nat → Nat → ℝ) (x t : Nat → ℝ) (j : Nat → Nat → ℝ)
    (hL : 1 ≤ L)
    (hg : ∀ i, i + 1 < L → g i = Activation)
    (hgL : g (L - 1) = OutputActivation Real.exp)
    (hwidth : ∀ i, width (i + 1) = len i)
    (hkink : ∀ i, i + 1 < L → ∀ r, r < len i → netZ g width W B x i r ≠ 0)
    (hout : ∀ k, k < len (L - 1) → j (L - 1) k =
      2 * (g (L - 1) (netZ g width W B x (L - 1) k) - t k) *
        (g (L - 1) (netZ g width W B x (L - 1) k) *
          (1 - g (L - 1) (netZ g width W B x (L - 1) k)))) :
    HasDerivAt (fun lr => netCost g width len L (stepW W (netSrc g width W B x) j lr)
        (stepB B j lr) x t)
      (∑ k ∈ Finset.range (len (L - 1)), j (L - 1) k *
        netDelta width W (netSrc g width W B x) (netZ g width W B x) j (L - 1) k) 0 := by
  unfold netCost
  refine HasDerivAt.sum (fun k hk => ?_)
  have hz := hasDerivAt_netZ L g width len W B x j hg hwidth hkink (L - 1) (by omega) k
  have hz0 : netZ g width (stepW W (netSrc g width W B x) j 0) (stepB B j 0) x (L - 1) k =
      netZ g width W B x (L - 1) k := by rw [stepW_zero, stepB_zero]
  have hs : HasDerivAt (g (L - 1))
      (g (L - 1) (netZ g width W B x (L - 1) k) * (1 - g (L - 1) (netZ g width W B x (L - 1) k)))
      (netZ g width (stepW W (netSrc g width W B x) j 0) (stepB B j 0) x (L - 1) k) := by
    rw [hz0, hgL]
    exact hasDerivAt_OutputActivation _
  have hc := (hs.comp (0 : ℝ) hz).sub_const (t k)
  have hm := hc.mul hc
  simp only [Function.comp] at hm
  convert hm using 1
  rw [hz0, hout k (Finset.mem_range.mp hk)]
  ring

/-- Over the reals: when no hidden neuron sits at the kink of the ReLU and the
jacobian is not all zero, a descent step with a small enough positive rate
lowers the sample's cost. -/
theorem netCost_decreases (L : Nat) (g : Nat → ℝ → ℝ) (width len : Nat → Nat)
    (W : Nat → Nat → Nat → ℝ) (B : Nat → Nat → ℝ) (x t : Nat → ℝ) (j : Nat → Nat → ℝ)
    (hL : 1 ≤ L)
    (hg : ∀ i, i + 1 < L → g i = Activation)
    (hgL : g (L - 1) = OutputActivation Real.exp)
    (hwidth : ∀ i, width (i + 1) = len i)
    (hkink : ∀ i, i + 1 < L → ∀ r, r < len i → netZ g width W B x i r ≠ 0)
    (hout : ∀ k, k < len (L - 1) → j (L - 1) k =
      2 * (g (L - 1) (netZ g width W B x (L - 1) k) - t k) *
        (g (L - 1) (netZ g width W B x (L - 1) k) *
          (1 - g (L - 1) (netZ g width W B x (L - 1) k))))
    (hhid : ∀ i, i + 1 < L → ∀ r, r < len i →
      j i r = (if netZ g width W B x i r ≥ 0 then 1 else 0) *
        ∑ k ∈ Finset.range (len (i + 1)), j (i + 1) k * W (i + 1) k r)
    (hnz : ∃ i r, i < L ∧ r < len i ∧ j i r ≠ 0) :
    ∃ eps, 0 < eps ∧ ∀ lr, 0 < lr → lr < eps →
      netCost g width len L (stepW W (netSrc g width W B x) j lr) (stepB B j lr) x t <
        netCost g width len L W B x t := by
  have hd := hasDerivAt_netCost L g width len W B x t j hL hg hgL hwidth hkink hout
  rw [sum_jacobian_mul_delta L width len W (netSrc g width W B x) (netZ g width W B x) j
    hwidth hhid (L - 1) (by omega)] at hd
  have hpos : 0 < ∑ l ∈ Finset.range (L - 1 + 1),
      layerGradSq width len (netSrc g width W B x) j l := by
    obtain ⟨i, r, hi, hr, hj⟩ := hnz
    refine lt_of_lt_of_le (layerGradSq_pos width len (netSrc g width W B x) j i r hr hj) ?_
    exact Finset.single_le_sum
      (f := fun l => layerGradSq width len (netSrc g width W B x) j l)
      (fun l _ => layerGradSq_nonneg width len _ j l) (Finset.mem_range.mpr (by omega))
  obtain ⟨eps, heps, h⟩ := eventually_lt_of_hasDerivAt_neg _ _ hd (neg_lt_zero.mpr hpos)
  refine ⟨eps, heps, fun lr h0 h1 => ?_⟩
  have := h lr h0 h1
  simp only [] at this
  rwa [stepW_zero, stepB_zero] at this

theorem ForwardDone.netZ_eq (g : Nat → α → α) (inputLayerSize : Nat) (inputLayer : List α)
    (layer_lengths : List Nat) (weights biases : List (List α)) (k : Nat)
    (st : List (List α) × List (List α)) (Wf : Nat → Nat → Nat → α) (Bf : Nat → Nat → α)
    (hdone : ForwardDone g inputLayerSize inputLayer layer_lengths weights biases k st)
    (hWf : ∀ i, i < k → ∀ r, r < layer_lengths.getD i 0 →
      ∀ c, c < srcWidth inputLayerSize layer_lengths i →
        weightAt inputLayerSize layer_lengths weights i r c = Wf i r c)
    (hBf : ∀ i, i < k → ∀ r, r < layer_lengths.getD i 0 → at2 biases i r = Bf i r)
    (i : Nat) (hi : i < k) (r : Nat) (hr : r < layer_lengths.getD i 0) :
    at2 st.1 i r = netZ g (srcWidth inputLayerSize layer_lengths) Wf Bf (vget inputLayer) i r ∧
    at2 st.2 i r =
      g i (netZ g (srcWidth inputLayerSize layer_lengths) Wf Bf (vget inputLayer) i r) := by
  induction i generalizing r with
  | zero =>
    obtain ⟨h1, h2⟩ := hdone 0 hi r hr
    have e : at2 st.1 0 r =
        netZ g (srcWidth inputLayerSize layer_lengths) Wf Bf (vget inputLayer) 0 r := by
      rw [h1, netZ, hBf 0 hi r hr]
      congr 1
      apply Finset.sum_congr rfl
      intro c hc
      rw [← hWf 0 hi r hr c (Finset.mem_range.mp hc)]
      simp [weightAt, srcVal]
    exact ⟨e, by rw [h2, e]⟩
  | succ i ih =>
    obtain ⟨h1, h2⟩ := hdone (i + 1) hi r hr
    have e : at2 st.1 (i + 1) r =
        netZ g (srcWidth inputLayerSize layer_lengths) Wf Bf (vget inputLayer) (i + 1) r := by
      rw [h1, netZ, hBf (i + 1) hi r hr]
      congr 1
      apply Finset.sum_congr rfl
      intro c hc
      have hc1 : c < layer_lengths.getD i 0 := by
        have := Finset.mem_range.mp hc
        simpa [srcWidth] using this
      rw [← hWf (i + 1) hi r hr c (Finset.mem_range.mp hc), ← (ih (by omega) c hc1).2]
      simp [weightAt, srcVal]
    exact ⟨e, by rw [h2, e]⟩

theorem sampleCost_spec (exp : α → α) (inputLayerSize : Nat) (inputLayer : List α)
    (layers_count : Nat) (layer_lengths : List Nat)
    (weights biases deactivated_neurons activated_neurons : List (List α))
    (intendedOutput : List α) (Wf : Nat → Nat → Nat → α) (Bf : Nat → Nat → α)
    (hL : 2 ≤ layers_count) (hsz : layers_count < SIZE_MOD)
    (hll : layer_lengths.length = layers_count)
    (hin : inputLayerSize ≤ inputLayer.length)
    (hW : WeightsShaped inputLayerSize layers_count layer_lengths weights)
    (hB : TableShaped layers_count layer_lengths biases)
    (hD : TableShaped layers_count layer_lengths deactivated_neurons)
    (hA : TableShaped layers_count layer_lengths activated_neurons)
    (hT : layer_lengths.getD (layers_count - 1) 0 ≤ intendedOutput.length)
    (hWf : ∀ i, i < layers_count → ∀ r, r < layer_lengths.getD i 0 →
      ∀ c, c < srcWidth inputLayerSize layer_lengths i →
        weightAt inputLayerSize layer_lengths weights i r c = Wf i r c)
    (hBf : ∀ i, i < layers_count → ∀ r, r < layer_lengths.getD i 0 → at2 biases i r = Bf i r) :
    sampleCost exp inputLayerSize inputLayer layers_count layer_lengths weights biases
        deactivated_neurons activated_neurons intendedOutput =
      some (netCost (layerActivation exp layers_count) (srcWidth inputLayerSize layer_lengths)
        (fun i => layer_lengths.getD i 0) layers_count Wf Bf (vget inputLayer)
        (vget intendedOutput)) := by
  obtain ⟨st, hrun, -, hA1, hdone⟩ := ForwardPass_spec exp inputLayerSize inputLayer
    layers_count layer_lengths weights biases deactivated_neurons activated_neurons hL hsz hll
    hin hW hB hD hA
  have hlast : layers_count - 1 < layers_count := by omega
  rw [sampleCost, hrun, sizeSub_one _ (by omega) hsz]
  simp only [Option.some_bind, rd_of_lt layer_lengths (layers_count - 1) 0 (by omega),
    rd_table st.2 (layers_count - 1) (by rw [hA1.1]; exact hlast)]
  rw [Cost_spec _ _ _ (by rw [hA1.2 _ hlast]) hT, netCost]
  congr 1
  apply Finset.sum_congr rfl
  intro k hk
  have h := (ForwardDone.netZ_eq _ inputLayerSize inputLayer layer_lengths weights biases
    layers_count st Wf Bf hdone hWf hBf (layers_count - 1) hlast k (Finset.mem_range.mp hk)).2
  have e : vget (st.2.getD (layers_count - 1) []) k = at2 st.2 (layers_count - 1) k := rfl
  rw [e, h]

theorem layerActivation_hidden (exp : α → α) (L i : Nat) (h : i + 1 < L) :
    layerActivation exp L i = Activation := by
  unfold layerActivation; rw [if_neg (by omega)]

theorem layerActivation_output (exp : α → α) (L : Nat) (h : 1 ≤ L) :
    layerActivation exp L (L - 1) = OutputActivation exp := by
  unfold layerActivation; rw [if_pos (by omega)]

/-- One training step in terms of the functional model: after `ForwardPass`
and `BackPropagate`, the jacobian table satisfies the two back-propagation
equations, and for every rate `Descend` returns tables whose cost is the
model's cost at the stepped parameters. -/
theorem training_step_model (exp : α → α) (inputLayerSize : Nat) (inputLayer : List α)
    (layers_count : Nat) (layer_lengths : List Nat)
    (weights biases deactivated_neurons activated_neurons biasJacobian : List (List α))
    (intended : List α) (deact act jac : List (List α))
    (hL : 2 ≤ layers_count) (hsz : layers_count < SIZE_MOD)
    (hll : layer_lengths.length = layers_count)
    (hin : inputLayerSize ≤ inputLayer.length)
    (hW : WeightsShaped inputLayerSize layers_count layer_lengths weights)
    (hB : TableShaped layers_count layer_lengths biases)
    (hD : TableShaped layers_count layer_lengths deactivated_neurons)
    (hA : TableShaped layers_count layer_lengths activated_neurons)
    (hJ : TableShaped layers_count layer_lengths biasJacobian)
    (hT : layer_lengths.getD (layers_count - 1) 0 ≤ intended.length)
    (hfwd : ForwardPass exp inputLayerSize inputLayer layers_count layer_lengths weights biases
      deactivated_neurons activated_neurons = some (deact, act))
    (hback : BackPropagate layers_count layer_lengths weights deact act intended biasJacobian =
      some jac) :
    (∀ i, i < layers_count → ∀ r, r < layer_lengths.getD i 0 →
      at2 deact i r = netZ (layerActivation exp layers_count)
        (srcWidth inputLayerSize layer_lengths)
        (weightAt inputLayerSize layer_lengths weights) (at2 biases) (vget inputLayer) i r) ∧
    (∀ k, k < layer_lengths.getD (layers_count - 1) 0 → at2 jac (layers_count - 1) k =
      2 * (layerActivation exp layers_count (layers_count - 1)
          (netZ (layerActivation exp layers_count) (srcWidth inputLayerSize layer_lengths)
            (weightAt inputLayerSize layer_lengths weights) (at2 biases) (vget inputLayer)
            (layers_count - 1) k) - vget intended k) *
        (layerActivation exp layers_count (layers_count - 1)
          (netZ (layerActivation exp layers_count) (srcWidth inputLayerSize layer_lengths)
            (weightAt inputLayerSize layer_lengths weights) (at2 biases) (vget inputLayer)
            (layers_count - 1) k) *
          (1 - layerActivation exp layers_count (layers_count - 1)
            (netZ (layerActivation exp layers_count) (srcWidth inputLayerSize layer_lengths)
              (weightAt inputLayerSize layer_lengths weights) (at2 biases) (vget inputLayer)
              (layers_count - 1) k)))) ∧
    (∀ i, i + 1 < layers_count → ∀ r, r < layer_lengths.getD i 0 →
      at2 jac i r = (if netZ (layerActivation exp layers_count)
          (srcWidth inputLayerSize layer_lengths)
          (weightAt inputLayerSize layer_lengths weights) (at2 biases) (vget inputLayer) i r ≥ 0
          then 1 else 0) *
        ∑ k ∈ Finset.range (layer_lengths.getD (i + 1) 0),
          at2 jac (i + 1) k * weightAt inputLayerSize layer_lengths weights (i + 1) k r) ∧
    sampleCost exp inputLayerSize inputLayer layers_count layer_lengths weights biases
        deact act intended =
      some (netCost (layerActivation exp layers_count) (srcWidth inputLayerSize layer_lengths)
        (fun i => layer_lengths.getD i 0) layers_count
        (weightAt inputLayerSize layer_lengths weights) (at2 biases) (vget inputLayer)
        (vget intended)) ∧
    ∀ lr : α, ∃ w1 b1, Descend layers_count layer_lengths inputLayerSize inputLayer act weights
        biases jac lr = some (w1, b1) ∧
      sampleCost exp inputLayerSize inputLayer layers_count layer_lengths w1 b1 deact act
          intended =
        some (netCost (layerActivation exp layers_count) (srcWidth inputLayerSize layer_lengths)
          (fun i => layer_lengths.getD i 0) layers_count
          (stepW (weightAt inputLayerSize layer_lengths weights)
            (netSrc (layerActivation exp layers_count) (srcWidth inputLayerSize layer_lengths)
              (weightAt inputLayerSize layer_lengths weights) (at2 biases) (vget inputLayer))
            (at2 jac) lr)
          (stepB (at2 biases) (at2 jac) lr) (vget inputLayer) (vget intended)) := by
  obtain ⟨st, hrun, hD1, hA1, hdone⟩ := ForwardPass_spec exp inputLayerSize inputLayer
    layers_count layer_lengths weights biases deactivated_neurons activated_neurons hL hsz hll
    hin hW hB hD hA
  rw [hfwd] at hrun
  simp only [Option.some.injEq] at hrun
  subst hrun
  simp only [] at hD1 hA1
  obtain ⟨jac1, hjrun, hJ1, hout, hhid⟩ := BackPropagate_spec inputLayerSize layers_count
    layer_lengths weights deact act intended biasJacobian (by omega) hsz hll hW hD1 hA1 hT hJ
  rw [hback] at hjrun
  simp only [Option.some.injEq] at hjrun
  subst hjrun
  have hz := ForwardDone.netZ_eq (layerActivation exp layers_count) inputLayerSize inputLayer
    layer_lengths weights biases layers_count (deact, act)
    (weightAt inputLayerSize layer_lengths weights) (at2 biases) hdone
    (fun _ _ _ _ _ _ => rfl) (fun _ _ _ _ => rfl)
  refine ⟨fun i hi r hr => (hz i hi r hr).1, ?_, ?_, ?_, ?_⟩
  · intro k hk
    rw [hout k hk, outputJacobian, (hz (layers_count - 1) (by omega) k hk).2]
  · intro i hi r hr
    rw [hhid i (Nat.zero_le i) hi r hr, hiddenJacobian, (hz i (by omega) r hr).1]
    rfl
  · exact sampleCost_spec exp inputLayerSize inputLayer layers_count layer_lengths weights
      biases deact act intended _ _ hL hsz hll hin hW hB hD1 hA1 hT
      (fun _ _ _ _ _ _ => rfl) (fun _ _ _ _ => rfl)
  · intro lr
    obtain ⟨w1, b1, hdrun, hW1, hB1, hdd⟩ := Descend_spec layers_count layer_lengths
      inputLayerSize inputLayer act weights biases jac lr hll hin hA1 hW hB hJ1
    refine ⟨w1, b1, hdrun, ?_⟩
    apply sampleCost_spec exp inputLayerSize inputLayer layers_count layer_lengths w1 b1 deact
      act intended _ _ hL hsz hll hin hW1 hB1 hD1 hA1 hT
    · intro i hi r hr c hc
      have hsrc : srcVal inputLayer act i c =
          netSrc (layerActivation exp layers_count) (srcWidth inputLayerSize layer_lengths)
            (weightAt inputLayerSize layer_lengths weights) (at2 biases) (vget inputLayer)
            i c := by
        cases i with
        | zero => simp [srcVal, netSrc]
        | succ m =>
          have hc1 : c < layer_lengths.getD m 0 := by simpa [srcWidth] using hc
          have hm : m < layers_count := by omega
          have e := (hz m hm c hc1).2
          simp only [srcVal, netSrc, Nat.succ_ne_zero, if_false, Nat.add_sub_cancel]
          exact e
      rw [weightAt, (hdd i hi r hr).1 c hc, stepW, weightAt, hsrc]
    · intro i hi r hr
      rw [(hdd i hi r hr).2, stepB]

theorem sigmoid_zero : OutputActivation Real.exp 0 = 1 / 2 := by
  simp [OutputActivation]; norm_num

theorem Activation_of_nonneg {α : Type} [LinearOrderedField α] (x : α) (h : 0 ≤ x) :
    Activation x = x := by
  unfold Activation; rw [if_pos h]

theorem Activation_of_neg {α : Type} [LinearOrderedField α] (x : α) (h : x < 0) :
    Activation x = 0 := by
  unfold Activation; rw [if_neg (not_le.mpr h)]

theorem sigmoid_gt_half (z : ℝ) (hz : 0 < z) : 1 / 2 < OutputActivation Real.exp z := by
  unfold OutputActivation
  have h1 : Real.exp (-z) < 1 := by
    rw [Real.exp_lt_one_iff]; linarith
  have h2 : 0 < Real.exp (-z) := Real.exp_pos _
  rw [div_lt_div_iff₀ (by norm_num) (by linarith)]
  linarith

/-- The deactivated output of a network with layer widths `[1, 2, 1]` on a
one-entry input, written out. -/
theorem netZ_one_two_one (g : Nat → ℝ → ℝ) (n : Nat → Nat) (W : Nat → Nat → Nat → ℝ)
    (B : Nat → Nat → ℝ) (x : Nat → ℝ) (hn0 : n 0 = 1) (hn1 : n 1 = 1) (hn2 : n 2 = 2)
    (hg0 : g 0 = Activation) (hg1 : g 1 = Activation) :
    netZ g n W B x 2 0 =
      W 2 0 0 * Activation (W 1 0 0 * Activation (W 0 0 0 * x 0 + B 0 0) + B 1 0) +
      W 2 0 1 * Activation (W 1 1 0 * Activation (W 0 0 0 * x 0 + B 0 0) + B 1 1) + B 2 0 := by
  simp [netZ, hn0, hn1, hn2, hg0, hg1, Finset.sum_range_succ]

theorem kink_example_cost_increases (lr : ℝ) (h0 : 0 < lr) (h1 : lr ≤ 1 / 4) :
    netCost (layerActivation Real.exp 3) (srcWidth 1 [1, 2, 1]) (fun i => [1, 2, 1].getD i 0) 3
        (weightAt 1 [1, 2, 1] [[1], [3, 1], [4, -4]]) (at2 [[0], [-3, 0], [4]]) (vget [1])
        (vget [0]) <
      netCost (layerActivation Real.exp 3) (srcWidth 1 [1, 2, 1]) (fun i => [1, 2, 1].getD i 0) 3
        (stepW (weightAt 1 [1, 2, 1] [[1], [3, 1], [4, -4]])
          (netSrc (layerActivation Real.exp 3) (srcWidth 1 [1, 2, 1])
            (weightAt 1 [1, 2, 1] [[1], [3, 1], [4, -4]]) (at2 [[0], [-3, 0], [4]]) (vget [1]))
          (at2 [[2], [1, -1], [1 / 4]]) lr)
        (stepB (at2 [[0], [-3, 0], [4]]) (at2 [[2], [1, -1], [1 / 4]]) lr) (vget [1])
        (vget [0]) := by
  have hg0 : layerActivation Real.exp 3 0 = Activation :=
    layerActivation_hidden Real.exp 3 0 (by decide)
  have hg1 : layerActivation Real.exp 3 1 = Activation :=
    layerActivation_hidden Real.exp 3 1 (by decide)
  have hg2 : layerActivation Real.exp 3 2 = OutputActivation Real.exp :=
    layerActivation_output Real.exp 3 (by decide)
  have hA1 : Activation (1 : ℝ) = 1 := Activation_of_nonneg 1 (by norm_num)
  have hA0 : Activation (0 : ℝ) = 0 := Activation_of_nonneg 0 (le_refl 0)
  -- the network before the step
  have hz0 : netZ (layerActivation Real.exp 3) (srcWidth 1 [1, 2, 1])
      (weightAt 1 [1, 2, 1] [[1], [3, 1], [4, -4]]) (at2 [[0], [-3, 0], [4]]) (vget [1]) 0 0 =
      1 := by
    simp [netZ, srcWidth, weightAt, at2, vget]
  have hz10 : netZ (layerActivation Real.exp 3) (srcWidth 1 [1, 2, 1])
      (weightAt 1 [1, 2, 1] [[1], [3, 1], [4, -4]]) (at2 [[0], [-3, 0], [4]]) (vget [1]) 1 0 =
      0 := by
    simp [netZ, srcWidth, weightAt, at2, vget, hg0, hA1]
  have hz11 : netZ (layerActivation Real.exp 3) (srcWidth 1 [1, 2, 1])
      (weightAt 1 [1, 2, 1] [[1], [3, 1], [4, -4]]) (at2 [[0], [-3, 0], [4]]) (vget [1]) 1 1 =
      1 := by
    simp [netZ, srcWidth, weightAt, at2, vget, hg0, hA1]
  have hz2 : netZ (layerActivation Real.exp 3) (srcWidth 1 [1, 2, 1])
      (weightAt 1 [1, 2, 1] [[1], [3, 1], [4, -4]]) (at2 [[0], [-3, 0], [4]]) (vget [1]) 2 0 =
      0 := by
    rw [netZ_one_two_one _ _ _ _ _ rfl rfl rfl hg0 hg1]
    simp [weightAt, srcWidth, at2, vget, hA1, hA0]
  -- the network after the step
  have hZ2 : netZ (layerActivation Real.exp 3) (srcWidth 1 [1, 2, 1])
      (stepW (weightAt 1 [1, 2, 1] [[1], [3, 1], [4, -4]])
        (netSrc (layerActivation Real.exp 3) (srcWidth 1 [1, 2, 1])
          (weightAt 1 [1, 2, 1] [[1], [3, 1], [4, -4]]) (at2 [[0], [-3, 0], [4]]) (vget [1]))
        (at2 [[2], [1, -1], [1 / 4]]) lr)
      (stepB (at2 [[0], [-3, 0], [4]]) (at2 [[2], [1, -1], [1 / 4]]) lr) (vget [1]) 2 0 =
      15 / 2 * lr + 33 / 2 * lr ^ 2 + lr ^ 3 := by
    rw [netZ_one_two_one _ _ _ _ _ rfl rfl rfl hg0 hg1]
    simp only [stepW, stepB, netSrc, hz0, hz10, hz11, hg0, hg1, hA1, hA0]
    have e0 : weightAt 1 [1, 2, 1] [[1], [3, 1], [4, -4]] 0 0 0 = (1 : ℝ) := rfl
    have e10 : weightAt 1 [1, 2, 1] [[1], [3, 1], [4, -4]] 1 0 0 = (3 : ℝ) := rfl
    have e11 : weightAt 1 [1, 2, 1] [[1], [3, 1], [4, -4]] 1 1 0 = (1 : ℝ) := rfl
    have e20 : weightAt 1 [1, 2, 1] [[1], [3, 1], [4, -4]] 2 0 0 = (4 : ℝ) := rfl
    have e21 : weightAt 1 [1, 2, 1] [[1], [3, 1], [4, -4]] 2 0 1 = (-4 : ℝ) := rfl
    have b0 : at2 [[0], [-3, 0], [4]] 0 0 = (0 : ℝ) := rfl
    have b10 : at2 [[0], [-3, 0], [4]] 1 0 = (-3 : ℝ) := rfl
    have b11 : at2 [[0], [-3, 0], [4]] 1 1 = (0 : ℝ) := rfl
    have b2 : at2 [[0], [-3, 0], [4]] 2 0 = (4 : ℝ) := rfl
    have j0 : at2 [[2], [1, -1], [1 / 4]] 0 0 = (2 : ℝ) := rfl
    have j10 : at2 [[2], [1, -1], [1 / 4]] 1 0 = (1 : ℝ) := rfl
    have j11 : at2 [[2], [1, -1], [1 / 4]] 1 1 = (-1 : ℝ) := rfl
    have j2 : at2 [[2], [1, -1], [1 / 4]] 2 0 = (1 / 4 : ℝ) := rfl
    have x0 : vget [1] 0 = (1 : ℝ) := rfl
    rw [e0, e10, e11, e20, e21, b0, b10, b11, b2, j0, j10, j11, j2, x0]
    have hZ0 : Activation ((1 - lr * 1 * 2) * 1 + (0 - lr * 2)) = 1 - 4 * lr := by
      rw [Activation_of_nonneg _ (by linarith)]; ring
    rw [hZ0]
    have hZ10 : Activation ((3 - lr * 1 * 1) * (1 - 4 * lr) + (-3 - lr * 1)) = 0 := by
      apply Activation_of_neg
      nlinarith
    have hZ11 : Activation ((1 - lr * 1 * -1) * (1 - 4 * lr) + (0 - lr * -1)) =
        1 - 2 * lr - 4 * lr ^ 2 := by
      rw [Activation_of_nonneg _ (by nlinarith)]; ring
    rw [hZ10, hZ11]
    ring
  have hpos : 0 < 15 / 2 * lr + 33 / 2 * lr ^ 2 + lr ^ 3 := by positivity
  have hs := sigmoid_gt_half _ hpos
  have ht : vget [0] 0 = (0 : ℝ) := rfl
  simp only [netCost, Nat.add_one_sub_one, List.getD_cons_succ, List.getD_cons_zero,
    Finset.sum_range_one, hg2, hz2, hZ2, sigmoid_zero, ht, sub_zero]
  nlinarith

theorem kink_example_forward :
    ForwardPass Real.exp 1 [1] 3 [1, 2, 1] [[1], [3, 1], [4, -4]] [[0], [-3, 0], [4]]
      [[0], [0, 0], [0]] [[0], [0, 0], [0]] =
      some ([[1], [0, 1], [0]], [[1], [0, 1], [1 / 2]]) := by
  have hb0 : layerBlock ActivateVector 1 [(1 : ℝ)] 0 [1, 2, 1] [[1], [3, 1], [4, -4]]
      [[0], [-3, 0], [4]] ([[0], [0, 0], [0]], [[0], [0, 0], [0]]) =
      some ([[1], [0, 0], [0]], [[1], [0, 0], [0]]) := by
    simp [layerBlock, onBuf, rd, wr, TransformVector, AddVector, ActivateVector, Activation,
      forLoop]
  have hb1 : layerBlock ActivateVector 1 [(1 : ℝ)] 1 [1, 2, 1] [[1], [3, 1], [4, -4]]
      [[0], [-3, 0], [4]] ([[1], [0, 0], [0]], [[1], [0, 0], [0]]) =
      some ([[1], [0, 1], [0]], [[1], [0, 1], [0]]) := by
    simp [layerBlock, onBuf, rd, wr, TransformVector, AddVector, ActivateVector, Activation,
      forLoop]
  have hb2 : layerBlock (ActivateOutputVector Real.exp) 2 [(0 : ℝ), 1] 2 [1, 2, 1]
      [[1], [3, 1], [4, -4]] [[0], [-3, 0], [4]] ([[1], [0, 1], [0]], [[1], [0, 1], [0]]) =
      some ([[1], [0, 1], [0]], [[1], [0, 1], [1 / 2]]) := by
    simp [layerBlock, onBuf, rd, wr, TransformVector, AddVector, ActivateOutputVector,
      forLoop, sigmoid_zero]
  have hs : sizeSub 3 1 = 2 := by decide
  simp only [ForwardPass, hs, hb0, Option.some_bind, whileLt, forLoop, rd]
  simp [hb1, hb2]

theorem kink_example_backward :
    BackPropagate 3 [1, 2, 1] [[1], [3, 1], [4, -4]] [[1], [0, 1], [0]]
      [[1], [0, 1], [1 / 2]] [0] [[0], [0, 0], [0]] =
      some [[2], [1, -1], [(1 / 4 : ℝ)]] := by
  simp [BackPropagate, onBuf, rd, wr, rd2, wr2, CostPrimeWrtDeactivated, ActivationPrime,
    forLoop, downLoop, sizeSub, SIZE_MOD]
  norm_num

/-! ### The dataset readers -/

theorem CorrectEndiannessFromBig_label_magic (hostLittle : Bool) :
    CorrectEndiannessFromBig hostLittle 0x00000801 = hostWord hostLittle [0, 0, 8, 1] 0 := by
  cases hostLittle <;> decide

theorem CorrectEndiannessFromBig_image_magic (hostLittle : Bool) :
    CorrectEndiannessFromBig hostLittle 0x00000803 = hostWord hostLittle [0, 0, 8, 3] 0 := by
  cases hostLittle <;> decide

theorem hostWord_injective (hostLittle : Bool) (a0 a1 a2 a3 b0 b1 b2 b3 : Nat)
    (ha0 : a0 < 256) (ha1 : a1 < 256) (ha2 : a2 < 256) (ha3 : a3 < 256)
    (hb0 : b0 < 256) (hb1 : b1 < 256) (hb2 : b2 < 256) (hb3 : b3 < 256)
    (h : hostWord hostLittle [a0, a1, a2, a3] 0 = hostWord hostLittle [b0, b1, b2, b3] 0) :
    a0 = b0 ∧ a1 = b1 ∧ a2 = b2 ∧ a3 = b3 := by
  cases hostLittle <;> simp [hostWord] at h <;> omega

theorem exists_four_bytes (bytes : List Nat) (h : 4 ≤ bytes.length) :
    ∃ a b c d rest, bytes = a :: b :: c :: d :: rest := by
  rcases bytes with _ | ⟨a, _ | ⟨b, _ | ⟨c, _ | ⟨d, rest⟩⟩⟩⟩
  · simp at h
  · simp at h
  · simp at h
  · simp at h
  · exact ⟨a, b, c, d, rest, rfl⟩

theorem magic_eq_imp_take (hostLittle : Bool) (bytes : List Nat) (m0 m1 m2 m3 : Nat)
    (hbytes : ∀ b ∈ bytes, b < 256) (hlen : 4 ≤ bytes.length)
    (hm0 : m0 < 256) (hm1 : m1 < 256) (hm2 : m2 < 256) (hm3 : m3 < 256)
    (h : hostWord hostLittle bytes 0 = hostWord hostLittle [m0, m1, m2, m3] 0) :
    bytes.take 4 = [m0, m1, m2, m3] := by
  obtain ⟨a, b, c, d, rest, rfl⟩ := exists_four_bytes bytes hlen
  have h1 : hostWord hostLittle [a, b, c, d] 0 = hostWord hostLittle [m0, m1, m2, m3] 0 := by
    rw [← h]; simp [hostWord]
  obtain ⟨e0, e1, e2, e3⟩ := hostWord_injective hostLittle a b c d m0 m1 m2 m3
    (hbytes a (by simp)) (hbytes b (by simp)) (hbytes c (by simp)) (hbytes d (by simp))
    hm0 hm1 hm2 hm3 h1
  simp [e0, e1, e2, e3]

theorem GetLabels_rejects (hostLittle : Bool) (bytes : List Nat) (mallocOk : Bool)
    (hbytes : ∀ b ∈ bytes, b < 256) (hmagic : bytes.take 4 ≠ [0, 0, 8, 1]) :
    GetLabels hostLittle (some bytes) mallocOk = none := by
  unfold GetLabels
  simp only []
  by_cases hlen : bytes.length < 8
  · rw [if_pos hlen]
  · rw [if_neg hlen]
    have hne : hostWord hostLittle bytes 0 ≠ CorrectEndiannessFromBig hostLittle 0x00000801 := by
      intro h
      rw [CorrectEndiannessFromBig_label_magic] at h
      exact hmagic (magic_eq_imp_take hostLittle bytes 0 0 8 1 hbytes (by omega)
        (by decide) (by decide) (by decide) (by decide) h)
    rw [if_pos hne]

theorem GetImages_rejects (hostLittle : Bool) (bytes : List Nat) (mallocData mallocRaw : Bool)
    (hbytes : ∀ b ∈ bytes, b < 256) (hmagic : bytes.take 4 ≠ [0, 0, 8, 3]) :
    GetImages hostLittle (some bytes) mallocData mallocRaw = none := by
  unfold GetImages
  simp only []
  by_cases hlen : bytes.length < 16
  · rw [if_pos hlen]
  · rw [if_neg hlen]
    have hne : hostWord hostLittle bytes 0 ≠ CorrectEndiannessFromBig hostLittle 0x00000803 := by
      intro h
      rw [CorrectEndiannessFromBig_image_magic] at h
      exact hmagic (magic_eq_imp_take hostLittle bytes 0 0 8 3 hbytes (by omega)
        (by decide) (by decide) (by decide) (by decide) h)
    rw [if_pos hne]

/-! ### The training and evaluation loops -/

theorem forLoop_none_of_step_none {σ : Type} (body : Nat → σ → Option σ) (n k : Nat) (s : σ)
    (hk : k < n) (h : ∀ s, body k s = none) : forLoop body n s = none := by
  induction n with
  | zero => omega
  | succ n ih =>
    show (forLoop body n s).bind (body n) = none
    by_cases hkn : k = n
    · subst hkn
      cases forLoop body k s with
      | none => rfl
      | some s1 => exact h s1
    · rw [ih (by omega)]; rfl

theorem memsetZero_spec (len : Nat) (buf : List α) (h : len ≤ buf.length) :
    ∃ t, memsetZero len buf = some t ∧ Fills len (fun _ => (0 : α)) buf t := by
  apply forLoop_fills
  · exact h
  · intro i hlt s hs
    exact wr_of_lt s i _ (by rw [hs.1]; omega)

theorem setTarget_none (len : Nat) (labels : List Nat) (image : Nat) (buf : List α)
    (h : labels.length ≤ image) : setTarget len labels image buf = none := by
  unfold setTarget
  have hrd : rd labels image = none := by
    unfold rd; exact List.getElem?_eq_none h
  cases memsetZero len buf with
  | none => rfl
  | some t => simp [hrd]

theorem setTarget_spec (len : Nat) (labels : List Nat) (image : Nat) (buf : List α)
    (hbuf : buf.length = len) (himage : image < labels.length)
    (hlabel : labels.getD image 0 % 256 < len) :
    ∃ t, setTarget len labels image buf = some t ∧ t.length = len ∧
      ∀ k, k < len → vget t k = if k = labels.getD image 0 % 256 then 1 else 0 := by
  obtain ⟨t0, h0, hfill⟩ := memsetZero_spec len buf (le_of_eq hbuf.symm)
  have hlen0 : t0.length = len := by rw [hfill.1, hbuf]
  refine ⟨t0.set (labels.getD image 0 % 256) 1, ?_, by simp [hlen0], ?_⟩
  · unfold setTarget
    rw [h0]
    simp only [Option.some_bind, rd_of_lt labels image 0 himage]
    exact wr_of_lt t0 _ _ (by rw [hlen0]; exact hlabel)
  · intro k hk
    by_cases hkl : k = labels.getD image 0 % 256
    · rw [if_pos hkl, hkl]
      exact getD_set_self t0 _ 1 0 (by rw [hlen0]; exact hlabel)
    · rw [if_neg hkl]
      unfold vget
      rw [getD_set_other t0 _ k 1 0 (fun h => hkl h.symm)]
      exact hfill.vget_lt hk

theorem evalSample_none (exp : α → α) (charSigned : Bool) (inputSize layers_count : Nat)
    (layer_lengths : List Nat) (test_images : List (List Nat)) (test_labels : List Nat)
    (image : Nat) (st : EvalState α) (h : test_labels.length ≤ image) :
    evalSample exp charSigned inputSize layers_count layer_lengths test_images test_labels
      image st = none := by
  unfold evalSample
  simp [setTarget_none _ test_labels image _ h]

theorem labelAsSize_signed_high (label : Nat) (h1 : 128 ≤ label) (h2 : label < 256) :
    labelAsSize true label = SIZE_MOD - 256 + label := by
  unfold labelAsSize
  have e : label % 256 = label := Nat.mod_eq_of_lt h2
  rw [e]
  simp [h1]

/-! ### Offsets of the views -/

theorem weightSize_zero (inputSize : Nat) (layer_lengths : List Nat) :
    weightSize inputSize layer_lengths 0 = layer_lengths.getD 0 0 * inputSize := by
  simp [weightSize, srcWidth]

theorem weightSize_succ (inputSize : Nat) (layer_lengths : List Nat) (i : Nat) (hi : 1 ≤ i) :
    weightSize inputSize layer_lengths i =
      layer_lengths.getD i 0 * layer_lengths.getD (i - 1) 0 := by
  unfold weightSize srcWidth
  rw [if_neg (by omega)]

theorem sum_weightSize_eq (inputSize : Nat) (layer_lengths : List Nat) (i : Nat) (hi : 1 ≤ i) :
    ∑ l ∈ Finset.range i, weightSize inputSize layer_lengths l =
      inputSize * layer_lengths.getD 0 0 +
        ∑ k ∈ Finset.Ico 1 i, layer_lengths.getD (k - 1) 0 * layer_lengths.getD k 0 := by
  rw [Finset.range_eq_Ico, Finset.sum_eq_sum_Ico_succ_bot (by omega), weightSize_zero,
    Nat.mul_comm]
  congr 1
  apply Finset.sum_congr rfl
  intro k hk
  rw [weightSize_succ inputSize layer_lengths k (Finset.mem_Ico.mp hk).1, Nat.mul_comm]

theorem viewAt_length (arena : List α) (offset size : Nat) (h : offset + size ≤ arena.length) :
    (viewAt arena offset size).length = size := by
  unfold viewAt
  rw [List.length_take, List.length_drop]
  omega

/-! ### What the passes leave alone -/

theorem SameOutside.refl (S : Nat → Prop) (m : Nat → α) : SameOutside S m m :=
  fun _ _ => rfl

theorem SameOutside.trans {S : Nat → Prop} {m m1 m2 : Nat → α} (h1 : SameOutside S m m1)
    (h2 : SameOutside S m1 m2) : SameOutside S m m2 :=
  fun a ha => (h2 a ha).trans (h1 a ha)

theorem SameOutside.mono {S T : Nat → Prop} {m m1 : Nat → α} (h : SameOutside S m m1)
    (hST : ∀ a, S a → T a) : SameOutside T m m1 :=
  fun a ha => h a (fun hs => ha (hST a hs))

theorem store_sameOutside (S : Nat → Prop) (m : Nat → α) (p : Nat) (v : α) (hp : S p) :
    SameOutside S m (store m p v) := by
  intro a ha
  unfold store
  rw [if_neg]
  rintro rfl
  exact ha hp

theorem iterUp_sameOutside (S : Nat → Prop) (body : Nat → (Nat → α) → Nat → α) (n : Nat)
    (m : Nat → α) (h : ∀ i, i < n → ∀ m1, SameOutside S m1 (body i m1)) :
    SameOutside S m (iterUp body n m) := by
  induction n with
  | zero => exact SameOutside.refl S m
  | succ n ih =>
    exact (ih (fun i hi => h i (Nat.lt_succ_of_lt hi))).trans (h n (Nat.lt_succ_self n) _)

theorem iterDown_sameOutside (S : Nat → Prop) (body : Nat → (Nat → α) → Nat → α) (n : Nat)
    (m : Nat → α) (h : ∀ i, i < n → ∀ m1, SameOutside S m1 (body i m1)) :
    SameOutside S m (iterDown body n m) := by
  induction n generalizing m with
  | zero => exact SameOutside.refl S m
  | succ n ih =>
    exact (h n (Nat.lt_succ_self n) m).trans (ih _ (fun i hi => h i (Nat.lt_succ_of_lt hi)))

theorem inView_add (base len i : Nat) (h : i < len) : inView base len (base + i) :=
  ⟨Nat.le_add_right _ _, Nat.add_lt_add_left h _⟩

theorem TransformVectorMem_frame (width height matrix invector outvector : Nat)
    (m : Nat → α) :
    SameOutside (inView outvector height) m
      (TransformVectorMem width height matrix invector outvector m) :=
  iterUp_sameOutside _ _ _ _ (fun i hi m1 =>
    store_sameOutside _ m1 _ _ (inView_add outvector height i hi))

theorem AddVectorMem_frame (length vectorA vectorB : Nat) (m : Nat → α) :
    SameOutside (inView vectorA length) m (AddVectorMem length vectorA vectorB m) :=
  iterUp_sameOutside _ _ _ _ (fun i hi m1 =>
    store_sameOutside _ m1 _ _ (inView_add vectorA length i hi))

theorem ActivateVectorMem_frame (length inVector outVector : Nat) (m : Nat → α) :
    SameOutside (inView outVector length) m (ActivateVectorMem length inVector outVector m) :=
  iterUp_sameOutside _ _ _ _ (fun i hi m1 =>
    store_sameOutside _ m1 _ _ (inView_add outVector length i hi))

theorem ActivateOutputVectorMem_frame (exp : α → α) (length inVector outVector : Nat)
    (m : Nat → α) :
    SameOutside (inView outVector length) m
      (ActivateOutputVectorMem exp length inVector outVector m) :=
  iterUp_sameOutside _ _ _ _ (fun i hi m1 =>
    store_sameOutside _ m1 _ _ (inView_add outVector length i hi))

theorem ActivationPrimeMem_frame (len output input : Nat) (m : Nat → α) :
    SameOutside (inView output len) m (ActivationPrimeMem len output input m) :=
  iterUp_sameOutside _ _ _ _ (fun i hi m1 =>
    store_sameOutside _ m1 _ _ (inView_add output len i hi))

theorem CostPrimeWrtDeactivatedMem_frame (len funcOutput netoutput intended : Nat)
    (m : Nat → α) :
    SameOutside (inView funcOutput len) m
      (CostPrimeWrtDeactivatedMem len funcOutput netoutput intended m) :=
  iterUp_sameOutside _ _ _ _ (fun i hi m1 =>
    (store_sameOutside _ m1 _ _ (inView_add funcOutput len i hi)).trans
      (store_sameOutside _ _ _ _ (inView_add funcOutput len i hi)))

theorem layerBlockMem_frame (activate : Nat → Nat → Nat → (Nat → α) → Nat → α)
    (hact : ∀ len inV outV m, SameOutside (inView outV len) m (activate len inV outV m))
    (width source layer layers_count : Nat)
    (layer_lengths weights biases deactivated_neurons activated_neurons : Nat → Nat)
    (m : Nat → α) (hlayer : layer < layers_count) :
    SameOutside (fun a => ∃ i, i < layers_count ∧
        (inView (deactivated_neurons i) (layer_lengths i) a ∨
          inView (activated_neurons i) (layer_lengths i) a)) m
      (layerBlockMem activate width source layer layer_lengths weights biases
        deactivated_neurons activated_neurons m) := by
  unfold layerBlockMem
  exact (((TransformVectorMem_frame width (layer_lengths layer) (weights layer) source
      (deactivated_neurons layer) m).mono (fun a ha => ⟨layer, hlayer, Or.inl ha⟩)).trans
    ((AddVectorMem_frame (layer_lengths layer) (deactivated_neurons layer) (biases layer)
      _).mono (fun a ha => ⟨layer, hlayer, Or.inl ha⟩))).trans
    ((hact (layer_lengths layer) (deactivated_neurons layer) (activated_neurons layer)
      _).mono (fun a ha => ⟨layer, hlayer, Or.inr ha⟩))

theorem ForwardPassMem_frame (exp : α → α) (inputLayerSize inputLayer layers_count : Nat)
    (layer_lengths weights biases deactivated_neurons activated_neurons : Nat → Nat)
    (m : Nat → α) (hL : 2 ≤ layers_count) (hsz : layers_count < SIZE_MOD) :
    SameOutside (fun a => ∃ i, i < layers_count ∧
        (inView (deactivated_neurons i) (layer_lengths i) a ∨
          inView (activated_neurons i) (layer_lengths i) a)) m
      (ForwardPassMem exp inputLayerSize inputLayer layers_count layer_lengths weights biases
        deactivated_neurons activated_neurons m) := by
  unfold ForwardPassMem
  rw [sizeSub_one layers_count (by omega) hsz]
  intro a ha
  rw [layerBlockMem_frame (ActivateOutputVectorMem exp) (ActivateOutputVectorMem_frame exp)
    _ _ (max 1 (layers_count - 1)) layers_count layer_lengths weights biases
    deactivated_neurons activated_neurons _ (max_lt (by omega) (by omega)) a ha]
  rw [iterUp_sameOutside _ _ (layers_count - 1 - 1) _ (fun k hk m1 =>
    layerBlockMem_frame ActivateVectorMem ActivateVectorMem_frame _ _ (1 + k) layers_count
      layer_lengths weights biases deactivated_neurons activated_neurons m1 (by omega)) a ha]
  exact layerBlockMem_frame ActivateVectorMem ActivateVectorMem_frame inputLayerSize
    inputLayer 0 layers_count layer_lengths weights biases deactivated_neurons
    activated_neurons m (by omega) a ha

theorem BackPropagateMem_frame (layers_count : Nat)
    (layer_lengths weights deactivated_neurons activated_neurons : Nat → Nat) (intended : Nat)
    (biasJacobian : Nat → Nat) (m : Nat → α) (hL : 1 ≤ layers_count)
    (hsz : layers_count < SIZE_MOD) :
    SameOutside (fun a => ∃ i, i < layers_count ∧
        inView (biasJacobian i) (layer_lengths i) a) m
      (BackPropagateMem layers_count layer_lengths weights deactivated_neurons
        activated_neurons intended biasJacobian m) := by
  unfold BackPropagateMem
  rw [sizeSub_one layers_count hL hsz]
  intro a ha
  rw [iterDown_sameOutside _ _ (layers_count - 1) _ (fun layer hlayer m1 =>
    ((ActivationPrimeMem_frame (layer_lengths layer) (biasJacobian layer)
        (deactivated_neurons layer) m1).mono
      (fun a ha => ⟨layer, by omega, ha⟩)).trans
    (iterUp_sameOutside (fun a => ∃ i, i < layers_count ∧
        inView (biasJacobian i) (layer_lengths i) a) _ (layer_lengths layer) _
      (fun row hrow m2 => store_sameOutside _ m2 _ _
        ⟨layer, by omega,
          inView_add (biasJacobian layer) (layer_lengths layer) row hrow⟩))) a ha]
  exact CostPrimeWrtDeactivatedMem_frame _ _ _ _ m a
    (fun h => ha ⟨layers_count - 1, by omega, h⟩)

/-! ### The epoch loop -/

theorem forLoop_preserves {σ : Type} (body : Nat → σ → Option σ) (P : Nat → σ → Prop)
    (n : Nat) (s0 s : σ) (h0 : P 0 s0)
    (hstep : ∀ i, i < n → ∀ s1 s2, P i s1 → body i s1 = some s2 → P (i + 1) s2)
    (h : forLoop body n s0 = some s) : P n s := by
  induction n generalizing s with
  | zero =>
    have e : s0 = s := by simpa [forLoop] using h
    rw [← e]; exact h0
  | succ n ih =>
    have h1 : (forLoop body n s0).bind (body n) = some s := h
    obtain ⟨s1, hs1, hs2⟩ := Option.bind_eq_some.mp h1
    exact hstep n (Nat.lt_succ_self n) s1 s
      (ih s1 (fun i hi => hstep i (Nat.lt_succ_of_lt hi)) hs1) hs2

theorem trainingPass_rates (exp : α → α) (inputSize layers_count : Nat)
    (layer_lengths : List Nat) (images : List (List Nat)) (labels : List Nat)
    (image_count label_count : Nat) (learningRate : α) (net : Network α)
    (tr : Network α × List α)
    (h : trainingPass exp inputSize layers_count layer_lengths images labels image_count
      label_count learningRate net = some tr) :
    tr.2.length = trainingCount image_count label_count ∧ ∀ x ∈ tr.2, x = learningRate := by
  unfold trainingPass at h
  refine forLoop_preserves _
    (fun i (st : Network α × List α) => st.2.length = i ∧ ∀ x ∈ st.2, x = learningRate)
    _ (net, []) tr ⟨rfl, fun x hx => by simp at hx⟩ ?_ h
  intro i _ s1 s2 hP hbody
  obtain ⟨net1, -, hs2⟩ := Option.bind_eq_some.mp hbody
  have e : s2 = (net1, learningRate :: s1.2) := by simpa using hs2.symm
  rw [e]
  refine ⟨by simp [hP.1], fun x hx => ?_⟩
  rcases List.mem_cons.mp hx with hx | hx
  · exact hx
  · exact hP.2 x hx

theorem epochBody_spec (s : Setup α) (attempts : Nat → List SaveAttempt) (epoch : Nat)
    (st st1 : EpochState α) (h : epochBody s attempts epoch st = some st1) :
    st1.learningRate = st.learningRate * s.learningRateMultiplier ∧
    ∀ p ∈ st1.descendRates, p ∈ st.descendRates ∨ (p.1 = epoch ∧ p.2 = st.learningRate) := by
  unfold epochBody at h
  obtain ⟨tr, htr, h⟩ := Option.bind_eq_some.mp h
  obtain ⟨ev, -, h⟩ := Option.bind_eq_some.mp h
  obtain ⟨sv, -, h⟩ := Option.bind_eq_some.mp h
  have e := (Option.some.inj h).symm
  subst e
  refine ⟨rfl, fun p hp => ?_⟩
  rcases List.mem_append.mp hp with hp | hp
  · obtain ⟨x, hx, rfl⟩ := List.mem_map.mp hp
    exact Or.inr ⟨rfl, (trainingPass_rates _ _ _ _ _ _ _ _ _ _ tr htr).2 x hx⟩
  · exact Or.inl hp

theorem epochsBefore_spec (s : Setup α) (attempts : Nat → List SaveAttempt) (n : Nat)
    (r : α) (net : Network α) (st : EpochState α) (hn : 1 ≤ n) (hmax : n < SIZE_MOD)
    (h : epochsBefore s attempts n r net = some st) :
    st.learningRate = r * s.learningRateMultiplier ^ (n - 1) ∧
    ∀ p ∈ st.descendRates,
      1 ≤ p.1 ∧ p.1 < n ∧ p.2 = r * s.learningRateMultiplier ^ (p.1 - 1) := by
  unfold epochsBefore whileLt at h
  have hmin : min n (SIZE_MOD - 1) = n := min_eq_left (by omega)
  rw [hmin] at h
  have hP := forLoop_preserves (fun k st => epochBody s attempts (1 + k) st)
    (fun k (st : EpochState α) => st.learningRate = r * s.learningRateMultiplier ^ k ∧
      ∀ p ∈ st.descendRates,
        1 ≤ p.1 ∧ p.1 < 1 + k ∧ p.2 = r * s.learningRateMultiplier ^ (p.1 - 1))
    (n - 1) _ st ⟨by simp, fun p hp => by simp at hp⟩
    (by
      intro k _ s1 s2 hP hbody
      obtain ⟨hr, hd⟩ := epochBody_spec s attempts (1 + k) s1 s2 hbody
      refine ⟨by rw [hr, hP.1, pow_succ, mul_assoc], fun p hp => ?_⟩
      rcases hd p hp with hp | ⟨hp1, hp2⟩
      · obtain ⟨a, b, c⟩ := hP.2 p hp
        exact ⟨a, by omega, c⟩
      · refine ⟨by omega, by omega, ?_⟩
        rw [hp2, hP.1, hp1]
        congr 2
        omega) h
  refine ⟨hP.1, fun p hp => ?_⟩
  obtain ⟨a, b, c⟩ := hP.2 p hp
  exact ⟨a, by omega, c⟩

/-! ### Initialisation -/

theorem initLayer_spec (sqrt : α → α) (RAND_MAX : Nat) (rand : Nat → Nat)
    (fanIn i count k : Nat) (W : List (List α)) (hi : i < W.length)
    (hcount : count ≤ (W.getD i []).length) :
    ∃ W1, initLayer sqrt RAND_MAX rand fanIn i count (W, k) = some (W1, k + count) ∧
      W1.length = W.length ∧
      (∀ l, (W1.getD l []).length = (W.getD l []).length) ∧
      (∀ j, j < count → at2 W1 i j = heWeight sqrt RAND_MAX fanIn (rand (k + j))) ∧
      (∀ l, l ≠ i → ∀ j, at2 W1 l j = at2 W l j) := by
  obtain ⟨st, hst, hk, hlen, hlens, hnew, hold⟩ := forLoop_inv
    (fun j (st : List (List α) × Nat) =>
      (wr2 st.1 i j (heWeight sqrt RAND_MAX fanIn (rand st.2))).bind (fun w =>
        some (w, st.2 + 1)))
    (fun c (st : List (List α) × Nat) => st.2 = k + c ∧ st.1.length = W.length ∧
      (∀ l, (st.1.getD l []).length = (W.getD l []).length) ∧
      (∀ j, j < c → at2 st.1 i j = heWeight sqrt RAND_MAX fanIn (rand (k + j))) ∧
      (∀ l, l ≠ i → ∀ j, at2 st.1 l j = at2 W l j))
    count (W, k)
    ⟨rfl, rfl, fun _ => rfl, fun j hj => absurd hj (Nat.not_lt_zero j), fun _ _ _ => rfl⟩
    (by
      rintro c hc ⟨T, q⟩ ⟨hq, hlen, hlens, hnew, hold⟩
      simp only at hq hlen hlens hnew hold
      have hiT : i < T.length := by rw [hlen]; exact hi
      have hcT : c < (T.getD i []).length := by rw [hlens i]; omega
      refine ⟨(T.set i ((T.getD i []).set c (heWeight sqrt RAND_MAX fanIn (rand q))), q + 1),
        ?_, ?_, ?_, ?_, ?_, ?_⟩
      · simp only [wr2_spec T i c _ hiT hcT, Option.some_bind]
      · show q + 1 = k + (c + 1)
        omega
      · show (T.set i _).length = W.length
        rw [List.length_set]; exact hlen
      · intro l
        show ((T.set i _).getD l []).length = (W.getD l []).length
        by_cases hl : i = l
        · subst hl
          rw [getD_set_self T i _ [] hiT, List.length_set]; exact hlens i
        · rw [getD_set_other T i l _ [] hl]; exact hlens l
      · intro j hj
        show at2 (T.set i _) i j = _
        rw [at2_set_self T i j _ hiT]
        unfold vget
        by_cases hjc : j = c
        · subst hjc
          rw [getD_set_self _ j _ 0 hcT, hq]
        · rw [getD_set_other _ c j _ 0 (fun h => hjc h.symm)]
          exact hnew j (by omega)
      · intro l hl j
        show at2 (T.set i _) l j = _
        rw [at2_set_other T i l j _ (fun h => hl h.symm)]
        exact hold l hl j)
  refine ⟨st.1, ?_, hlen, hlens, hnew, hold⟩
  unfold initLayer
  rw [hst, ← hk]

theorem initWeights_spec (sqrt : α → α) (RAND_MAX : Nat) (rand : Nat → Nat)
    (row_count col_count layers_count : Nat) (layer_lengths : List Nat)
    (weights : List (List α)) (hL : 1 ≤ layers_count)
    (hll : layer_lengths.length = layers_count)
    (hW : WeightsShaped (inputWidth row_count col_count) layers_count layer_lengths weights)
    (hsz : ∀ i, i < layers_count →
      weightSize (inputWidth row_count col_count) layer_lengths i < SIZE_MOD) :
    ∃ W1 k, initWeights sqrt RAND_MAX rand row_count col_count layers_count layer_lengths
        weights = some (W1, k) ∧
      WeightsShaped (inputWidth row_count col_count) layers_count layer_lengths W1 ∧
      ∀ i, i < layers_count →
        ∀ j, j < weightSize (inputWidth row_count col_count) layer_lengths i →
          ∃ c, at2 W1 i j = heWeight sqrt RAND_MAX
            (srcWidth (inputWidth row_count col_count) layer_lengths i) (rand c) := by
  have hcount0 : inputWidth row_count col_count * layer_lengths.getD 0 0 % SIZE_MOD =
      weightSize (inputWidth row_count col_count) layer_lengths 0 := by
    have h := hsz 0 (by omega)
    rw [weightSize_zero] at h ⊢
    rw [Nat.mul_comm, Nat.mod_eq_of_lt h]
  obtain ⟨W0, hW0, hlen0, hlens0, hnew0, -⟩ := initLayer_spec sqrt RAND_MAX rand
    (inputWidth row_count col_count) 0
    (weightSize (inputWidth row_count col_count) layer_lengths 0) 0 weights
    (by rw [hW.1]; omega) (by rw [hW.2 0 (by omega)]; exact le_refl _)
  obtain ⟨st, hst, hlen, hlens, hdone⟩ := whileLt_inv
    (fun i (st : List (List α) × Nat) =>
      (rd layer_lengths (i - 1)).bind (fun prev =>
      (rd layer_lengths i).bind (fun len =>
      initLayer sqrt RAND_MAX rand prev i (prev * len % SIZE_MOD) st)))
    (fun i (st : List (List α) × Nat) => st.1.length = layers_count ∧
      (∀ l, (st.1.getD l []).length = (weights.getD l []).length) ∧
      ∀ l, l < i → ∀ j, j < weightSize (inputWidth row_count col_count) layer_lengths l →
        ∃ c, at2 st.1 l j = heWeight sqrt RAND_MAX
          (srcWidth (inputWidth row_count col_count) layer_lengths l) (rand c))
    1 layers_count (W0, 0 + weightSize (inputWidth row_count col_count) layer_lengths 0) hL
    ⟨by rw [hlen0, hW.1], hlens0, fun l hl j hj => by
      have e : l = 0 := by omega
      subst e
      exact ⟨0 + j, by rw [hnew0 j hj]; simp [srcWidth]⟩⟩
    (by
      rintro i hi1 hi ⟨T, q⟩ ⟨hlen, hlens, hdone⟩
      simp only at hlen hlens hdone
      have hcount : layer_lengths.getD (i - 1) 0 * layer_lengths.getD i 0 % SIZE_MOD =
          weightSize (inputWidth row_count col_count) layer_lengths i := by
        have h := hsz i hi
        rw [weightSize_succ _ _ i hi1] at h ⊢
        rw [Nat.mul_comm, Nat.mod_eq_of_lt h]
      obtain ⟨T1, hT1, hlen1, hlens1, hnew1, hold1⟩ := initLayer_spec sqrt RAND_MAX rand
        (layer_lengths.getD (i - 1) 0) i
        (weightSize (inputWidth row_count col_count) layer_lengths i) q T
        (by rw [hlen]; exact hi) (by rw [hlens i, hW.2 i hi]; exact le_refl _)
      refine ⟨(T1, q + weightSize (inputWidth row_count col_count) layer_lengths i), ?_,
        by rw [hlen1]; exact hlen, fun l => by rw [hlens1 l]; exact hlens l, ?_⟩
      · simp only [rd_of_lt layer_lengths (i - 1) 0 (by omega), rd_of_lt layer_lengths i 0
          (by omega), Option.some_bind, hcount]
        exact hT1
      · intro l hl j hj
        by_cases hli : l = i
        · subst hli
          refine ⟨q + j, ?_⟩
          show at2 T1 l j = _
          rw [hnew1 j hj]
          unfold srcWidth
          rw [if_neg (by omega)]
        · obtain ⟨c, hc⟩ := hdone l (by omega) j hj
          refine ⟨c, ?_⟩
          show at2 T1 l j = _
          rw [hold1 l hli j]; exact hc)
  refine ⟨st.1, st.2, ?_, ⟨hlen, fun i hi => by rw [hlens i]; exact hW.2 i hi⟩, hdone⟩
  unfold initWeights
  simp only [rd_of_lt layer_lengths 0 0 (by omega), Option.some_bind, hcount0, hW0]
  exact hst

theorem initBiases_spec (layers_count : Nat) (layer_lengths : List Nat)
    (biases : List (List α)) (hll : layer_lengths.length = layers_count)
    (hB : TableShaped layers_count layer_lengths biases) :
    ∃ B1, initBiases layers_count layer_lengths biases = some B1 ∧
      TableShaped layers_count layer_lengths B1 ∧
      ∀ i, i < layers_count → ∀ r, r < layer_lengths.getD i 0 → at2 B1 i r = 0 := by
  apply forLoop_inv _
    (fun i (b : List (List α)) => TableShaped layers_count layer_lengths b ∧
      ∀ l, l < i → ∀ r, r < layer_lengths.getD l 0 → at2 b l r = 0)
    layers_count biases ⟨hB, fun l hl => absurd hl (Nat.not_lt_zero l)⟩
  intro i hi b ⟨hb, hzero⟩
  obtain ⟨t, ht, hfill⟩ := memsetZero_spec (layer_lengths.getD i 0) (b.getD i [])
    (le_of_eq (hb.2 i hi).symm)
  have hib : i < b.length := by rw [hb.1]; exact hi
  refine ⟨b.set i t, ?_, hb.set i t (by rw [hfill.1]; exact hb.2 i hi), ?_⟩
  · simp only [rd_of_lt layer_lengths i 0 (by omega), Option.some_bind]
    exact onBuf_spec b i _ t hib ht
  · intro l hl r hr
    by_cases hli : l = i
    · subst hli
      rw [at2_set_self b l r t hib]
      exact hfill.vget_lt hr
    · rw [at2_set_other b i l r t (fun h => hli h.symm)]
      exact hzero l (by omega) r hr

theorem heWeight_bounds (sqrt : α → α) (hsqrt : ∀ x, 0 ≤ sqrt x) (RAND_MAX fanIn r : Nat)
    (hpos : 0 < RAND_MAX) (hr : r ≤ RAND_MAX) :
    -(1 / 2) * sqrt (2 / (fanIn : α)) ≤ heWeight sqrt RAND_MAX fanIn r ∧
      heWeight sqrt RAND_MAX fanIn r ≤ 1 / 2 * sqrt (2 / (fanIn : α)) := by
  have hR : (0 : α) < (RAND_MAX : α) := by exact_mod_cast hpos
  have h0 : (0 : α) ≤ (r : α) / (RAND_MAX : α) := div_nonneg (Nat.cast_nonneg r) hR.le
  have h1 : (r : α) / (RAND_MAX : α) ≤ 1 := by
    rw [div_le_one hR]; exact_mod_cast hr
  have hs := hsqrt (2 / (fanIn : α))
  unfold heWeight
  constructor
  · nlinarith
  · nlinarith

/-! ### A short write -/

theorem isDigit_iff (c : Nat) : isDigit c = true ↔ 48 ≤ c ∧ c ≤ 57 := by
  simp [isDigit]

theorem isDigit_add (d : Nat) (h : d < 10) : isDigit (d + 48) = true := by
  rw [isDigit_iff]; omega

theorem accumulateSize_spec (n c : Nat) (hn : n ≤ SIZE_MAX) :
    accumulateSize n c =
      if isDigit c = true ∧ 10 * n + (c - 48) ≤ SIZE_MAX then (true, 10 * n + (c - 48))
      else (false, n) := by
  unfold accumulateSize
  by_cases hd : isDigit c = true
  · rw [if_pos hd]
    have h := (isDigit_iff c).mp hd
    unfold SIZE_MAX SIZE_MOD at *
    by_cases hfit : 10 * n + (c - 48) ≤ 2 ^ 64 - 1
    · rw [if_neg (by omega), if_pos ⟨hd, hfit⟩]
      congr 1
      omega
    · rw [if_pos (by omega), if_neg (fun h => hfit h.2)]
  · rw [if_neg hd, if_neg (fun h => hd h.1)]

theorem accumulateSize_le (n c : Nat) (hn : n ≤ SIZE_MAX) : (accumulateSize n c).2 ≤ SIZE_MAX := by
  rw [accumulateSize_spec n c hn]
  split
  · rename_i h; exact h.2
  · exact hn

theorem parseSize_le (line : List Nat) (n : Nat) (hn : n ≤ SIZE_MAX) :
    parseSize line n ≤ SIZE_MAX := by
  induction line generalizing n with
  | nil => exact hn
  | cons c rest ih => exact ih _ (accumulateSize_le n c hn)

theorem parseSize_filter (line : List Nat) (n : Nat) (hn : n ≤ SIZE_MAX) :
    parseSize line n = parseSize (line.filter isDigit) n := by
  induction line generalizing n with
  | nil => rfl
  | cons c rest ih =>
    by_cases hd : isDigit c = true
    · rw [List.filter_cons_of_pos hd]
      exact ih _ (accumulateSize_le n c hn)
    · rw [List.filter_cons_of_neg hd]
      have e : (accumulateSize n c).2 = n := by
        rw [accumulateSize_spec n c hn, if_neg (fun h => hd h.1)]
      show parseSize rest (accumulateSize n c).2 = _
      rw [e]
      exact ih n hn

theorem decimalValue_cons (d : Nat) (ds : List Nat) :
    decimalValue (d :: ds) = d * 10 ^ ds.length + decimalValue ds := by
  unfold decimalValue
  rw [List.length_cons, Finset.sum_range_succ', Nat.add_comm]
  congr 1
  apply Finset.sum_congr rfl
  intro k hk
  have hk1 := Finset.mem_range.mp hk
  have e : ds.length + 1 - 1 - (k + 1) = ds.length - 1 - k := by omega
  rw [e]
  rfl

theorem parseSize_digits_from (ds : List Nat) (n : Nat) (hds : ∀ d ∈ ds, d < 10)
    (hfit : n * 10 ^ ds.length + decimalValue ds ≤ SIZE_MAX) :
    parseSize (ds.map (· + 48)) n = n * 10 ^ ds.length + decimalValue ds := by
  induction ds generalizing n with
  | nil => simp [parseSize, decimalValue]
  | cons d rest ih =>
    have hd : d < 10 := hds d (List.mem_cons_self d rest)
    rw [decimalValue_cons, List.length_cons, pow_succ] at hfit ⊢
    have hpos : 1 ≤ 10 ^ rest.length := Nat.one_le_pow _ _ (by decide)
    have hstep : 10 * n + d ≤ (10 * n + d) * 10 ^ rest.length :=
      Nat.le_mul_of_pos_right _ hpos
    have hexp : (10 * n + d) * 10 ^ rest.length =
        n * (10 ^ rest.length * 10) + d * 10 ^ rest.length := by ring
    have hn : n ≤ SIZE_MAX := by omega
    have hacc : (accumulateSize n (d + 48)).2 = 10 * n + d := by
      rw [accumulateSize_spec n (d + 48) hn, if_pos ⟨isDigit_add d hd, by
        rw [Nat.add_sub_cancel]; omega⟩, Nat.add_sub_cancel]
    show parseSize (rest.map (· + 48)) (accumulateSize n (d + 48)).2 = _
    rw [hacc, ih (10 * n + d) (fun x hx => hds x (List.mem_cons_of_mem d hx)) (by omega)]
    omega

/-! ### Reading lines -/

theorem fgetcLine_newline {σ : Type} (body : σ → Nat → σ) (line rest : List Nat) (s : σ)
    (h : 10 ∉ line) :
    fgetcLine body (line ++ 10 :: rest) s = (line.foldl body s, rest, false) := by
  induction line generalizing s with
  | nil => simp [fgetcLine]
  | cons c l ih =>
    have hc : c ≠ 10 := fun e => h (by simp [e])
    have hl : 10 ∉ l := fun e => h (List.mem_cons_of_mem c e)
    simp only [List.cons_append, fgetcLine, if_neg hc, List.foldl_cons]
    exact ih _ hl

theorem fgetcLine_eof {σ : Type} (body : σ → Nat → σ) (line : List Nat) (s : σ)
    (h : 10 ∉ line) : fgetcLine body line s = (line.foldl body s, [], true) := by
  induction line generalizing s with
  | nil => simp [fgetcLine]
  | cons c l ih =>
    have hc : c ≠ 10 := fun e => h (by simp [e])
    have hl : 10 ∉ l := fun e => h (List.mem_cons_of_mem c e)
    simp only [fgetcLine, if_neg hc, List.foldl_cons]
    exact ih _ hl

theorem foldl_count_snd (line : List Nat) (s : Bool × Nat) :
    (line.foldl (fun (s : Bool × Nat) c =>
      (s.1 || (accumulateSize s.2 c).1, (accumulateSize s.2 c).2)) s).2 =
      parseSize line s.2 := by
  induction line generalizing s with
  | nil => rfl
  | cons c l ih => exact ih _

theorem foldl_block_getD (line : List Nat) (i : Nat) (block : List Nat) (hi : i < block.length) :
    (line.foldl (fun (b : List Nat) c => b.set i (accumulateSize (b.getD i 0) c).2)
      block).getD i 0 = parseSize line (block.getD i 0) := by
  induction line generalizing block with
  | nil => rfl
  | cons c l ih =>
    simp only [List.foldl_cons]
    rw [ih _ (by rw [List.length_set]; exact hi), getD_set_self block i _ 0 hi]
    rfl

/-! ### Reading decimal fractions -/

theorem iterUp_mul (a : α) (n : Nat) : iterUp (fun _ result => result * a) n (1 : α) = a ^ n := by
  induction n with
  | zero => simp [iterUp]
  | succ n ih => simp only [iterUp, ih, pow_succ]

theorem lpow_neg (a : α) (k : Nat) (hk : k ≠ 0) : lpow a (-(k : Int)) = 1 / a ^ k := by
  have hneg : (-(k : Int)) < 0 := by omega
  simp only [lpow, if_pos hneg]
  have e : ((-1 : Int) * -(k : Int)).toNat = k := by simp
  rw [if_pos (by decide), e, iterUp_mul]

theorem accumulateDouble_digit_int (st : DoubleState α) (d : Nat) (hd : d < 10)
    (h0 : st.index = 0) :
    (accumulateDouble st (d + 48)).value = st.value * 10 + (d : α) ∧
      (accumulateDouble st (d + 48)).index = 0 := by
  unfold accumulateDouble
  rw [if_neg (by omega), if_pos (isDigit_add d hd), if_neg (by simp [h0])]
  simp [h0]

theorem accumulateDouble_digit_frac (st : DoubleState α) (d : Nat) (hd : d < 10)
    (hk : st.index ≠ 0) :
    (accumulateDouble st (d + 48)).value = st.value + (d : α) / 10 ^ st.index ∧
      (accumulateDouble st (d + 48)).index = st.index + 1 := by
  unfold accumulateDouble
  rw [if_neg (by omega), if_pos (isDigit_add d hd), if_pos hk]
  simp only [Nat.add_sub_cancel, lpow_neg (10 : α) st.index hk]
  exact ⟨by rw [mul_one_div], trivial⟩

theorem accumulateDouble_dot (st : DoubleState α) :
    (accumulateDouble st 46).value = st.value ∧ (accumulateDouble st 46).index = 1 := by
  simp [accumulateDouble]

theorem accumulateDouble_other (st : DoubleState α) (c : Nat) (h1 : c ≠ 46)
    (h2 : isDigit c = false) : accumulateDouble st c = st := by
  unfold accumulateDouble
  rw [if_neg h1, if_neg (by simp [h2])]

theorem foldl_int_digits (ds : List Nat) (st : DoubleState α) (hds : ∀ d ∈ ds, d < 10)
    (h0 : st.index = 0) :
    ((ds.map (· + 48)).foldl accumulateDouble st).value =
        st.value * 10 ^ ds.length + (decimalValue ds : α) ∧
      ((ds.map (· + 48)).foldl accumulateDouble st).index = 0 := by
  induction ds generalizing st with
  | nil => simp [decimalValue, h0]
  | cons d rest ih =>
    obtain ⟨hv, hi⟩ := accumulateDouble_digit_int st d (hds d (List.mem_cons_self d rest)) h0
    obtain ⟨h1, h2⟩ := ih (accumulateDouble st (d + 48))
      (fun x hx => hds x (List.mem_cons_of_mem d hx)) hi
    simp only [List.map_cons, List.foldl_cons]
    refine ⟨?_, h2⟩
    rw [h1, hv, decimalValue_cons, List.length_cons]
    push_cast
    ring

theorem foldl_frac_digits (fs : List Nat) (st : DoubleState α) (hfs : ∀ d ∈ fs, d < 10)
    (hk : st.index ≠ 0) :
    ((fs.map (· + 48)).foldl accumulateDouble st).value =
        st.value + ∑ j ∈ Finset.range fs.length, (fs.getD j 0 : α) / 10 ^ (st.index + j) ∧
      ((fs.map (· + 48)).foldl accumulateDouble st).index = st.index + fs.length := by
  induction fs generalizing st with
  | nil => simp
  | cons d rest ih =>
    obtain ⟨hv, hi⟩ := accumulateDouble_digit_frac st d (hfs d (List.mem_cons_self d rest)) hk
    obtain ⟨h1, h2⟩ := ih (accumulateDouble st (d + 48))
      (fun x hx => hfs x (List.mem_cons_of_mem d hx)) (by rw [hi]; omega)
    simp only [List.map_cons, List.foldl_cons]
    refine ⟨?_, by rw [h2, hi, List.length_cons]; omega⟩
    rw [h1, hv, hi, List.length_cons, Finset.sum_range_succ', add_assoc]
    congr 1
    rw [add_comm]
    congr 1
    apply Finset.sum_congr rfl
    intro j _
    have e : st.index + 1 + j = st.index + (j + 1) := by omega
    rw [e]
    rfl

theorem foldl_after_dot (pre fs : List Nat) (st : DoubleState α) (hfs : ∀ d ∈ fs, d < 10) :
    ((pre ++ 46 :: fs.map (· + 48)).foldl accumulateDouble st).value =
      (pre.foldl accumulateDouble st).value + fractionValue fs := by
  rw [List.foldl_append, List.foldl_cons]
  obtain ⟨hv, hi⟩ := accumulateDouble_dot (pre.foldl accumulateDouble st)
  obtain ⟨h1, -⟩ := foldl_frac_digits fs (accumulateDouble (pre.foldl accumulateDouble st) 46)
    hfs (by rw [hi]; decide)
  rw [h1, hv, hi]
  congr 1
  unfold fractionValue
  apply Finset.sum_congr rfl
  intro j _
  rw [Nat.add_comm]

theorem foldl_accumulateDouble_filter (line : List Nat) (st : DoubleState α) :
    line.foldl accumulateDouble st =
      (line.filter (fun c => decide (c = 46) || isDigit c)).foldl accumulateDouble st := by
  induction line generalizing st with
  | nil => rfl
  | cons c rest ih =>
    by_cases hc : (decide (c = 46) || isDigit c) = true
    · rw [List.filter_cons_of_pos (p := fun c => decide (c = 46) || isDigit c) hc]
      exact ih _
    · rw [List.filter_cons_of_neg (p := fun c => decide (c = 46) || isDigit c) hc]
      simp only [Bool.or_eq_true, decide_eq_true_eq, not_or] at hc
      simp only [List.foldl_cons]
      rw [accumulateDouble_other st c hc.1 (by simpa using hc.2)]
      exact ih st

theorem accumulateDouble_nonneg (st : DoubleState α) (c : Nat) (h : 0 ≤ st.value) :
    0 ≤ (accumulateDouble st c).value := by
  unfold accumulateDouble
  split
  · exact h
  · split
    · split
      · rename_i hk
        rw [lpow_neg (10 : α) st.index hk]
        have h1 : (0 : α) ≤ 1 / 10 ^ st.index := by positivity
        have h2 : (0 : α) ≤ ((c - 48 : Nat) : α) := Nat.cast_nonneg _
        exact add_nonneg h (mul_nonneg h2 h1)
      · have h2 : (0 : α) ≤ ((c - 48 : Nat) : α) := Nat.cast_nonneg _
        exact add_nonneg (mul_nonneg h (by norm_num)) h2
    · exact h

theorem foldl_accumulateDouble_nonneg (line : List Nat) (st : DoubleState α)
    (h : 0 ≤ st.value) : 0 ≤ (line.foldl accumulateDouble st).value := by
  induction line generalizing st with
  | nil => exact h
  | cons c rest ih => exact ih _ (accumulateDouble_nonneg st c h)

/-! ### The configuration file -/

theorem fgetcLine_flag {σ : Type} (body : σ → Nat → σ) (stream : List Nat) (s : σ) :
    (fgetcLine body stream s).2.2 = decide (stream.count 10 = 0) := by
  induction stream generalizing s with
  | nil => simp [fgetcLine]
  | cons c l ih =>
    by_cases hc : c = 10
    · subst hc
      simp [fgetcLine]
    · simp only [fgetcLine, if_neg hc]
      rw [ih, List.count_cons_of_ne (Ne.symm hc)]

theorem fgetcLine_rest_count {σ : Type} (body : σ → Nat → σ) (stream : List Nat) (s : σ) :
    (fgetcLine body stream s).2.1.count 10 = stream.count 10 - 1 := by
  induction stream generalizing s with
  | nil => simp [fgetcLine]
  | cons c l ih =>
    by_cases hc : c = 10
    · subst hc
      simp [fgetcLine]
    · simp only [fgetcLine, if_neg hc]
      rw [ih, List.count_cons_of_ne (Ne.symm hc)]

theorem layerLines_spec (n : Nat) (hn1 : 1 ≤ n) (hn2 : n < SIZE_MOD) (remaining : Nat) :
    ∀ (i : Nat) (stream block : List Nat) (eof : Bool), i + remaining = n →
      (stream.count 10 + i + 1 < n →
        (layerLines n remaining i stream block eof).returned = some 1) ∧
      (n ≤ stream.count 10 + i + 1 → 1 ≤ remaining →
        (layerLines n remaining i stream block eof).returned = none ∧
        (layerLines n remaining i stream block eof).eof =
          decide (stream.count 10 < remaining) ∧
        (layerLines n remaining i stream block eof).stream.count 10 =
          stream.count 10 - remaining) := by
  induction remaining with
  | zero =>
    intro i stream block eof hi
    exact ⟨fun h => by omega, fun _ h => by omega⟩
  | succ remaining ih =>
    intro i stream block eof hi
    have hflag := fgetcLine_flag
      (fun (b : List Nat) c => b.set i (accumulateSize (b.getD i 0) c).2) stream block
    have hcount := fgetcLine_rest_count
      (fun (b : List Nat) c => b.set i (accumulateSize (b.getD i 0) c).2) stream block
    have hsub : sizeSub n 1 = n - 1 := sizeSub_one n hn1 hn2
    by_cases hzero : stream.count 10 = 0
    · rw [hzero] at hflag hcount
      simp only [decide_True] at hflag
      by_cases hlast : i < n - 1
      · have hret : (layerLines n (remaining + 1) i stream block eof).returned = some 1 := by
          simp only [layerLines, hflag, hsub, hlast, decide_True, Bool.and_self, if_true]
        exact ⟨fun _ => hret, fun h _ => by omega⟩
      · have hrem : remaining = 0 := by omega
        subst hrem
        have hunf : layerLines n (0 + 1) i stream block eof =
            layerLines n 0 (i + 1)
              (fgetcLine (fun (b : List Nat) c => b.set i (accumulateSize (b.getD i 0) c).2)
                stream block).2.1
              (fgetcLine (fun (b : List Nat) c => b.set i (accumulateSize (b.getD i 0) c).2)
                stream block).1
              (fgetcLine (fun (b : List Nat) c => b.set i (accumulateSize (b.getD i 0) c).2)
                stream block).2.2 := by
          simp only [layerLines, hflag, hsub, hlast, decide_False, Bool.and_false,
            Bool.false_eq_true, if_false]
        refine ⟨fun h => by omega, fun _ _ => ?_⟩
        rw [hunf]
        simp only [layerLines, hflag, hcount, hzero]
        simp
    · have hflag2 : (fgetcLine
          (fun (b : List Nat) c => b.set i (accumulateSize (b.getD i 0) c).2)
          stream block).2.2 = false := by
        rw [hflag]; simp [hzero]
      have hunf : layerLines n (remaining + 1) i stream block eof =
          layerLines n remaining (i + 1)
            (fgetcLine (fun (b : List Nat) c => b.set i (accumulateSize (b.getD i 0) c).2)
              stream block).2.1
            (fgetcLine (fun (b : List Nat) c => b.set i (accumulateSize (b.getD i 0) c).2)
              stream block).1
            (fgetcLine (fun (b : List Nat) c => b.set i (accumulateSize (b.getD i 0) c).2)
              stream block).2.2 := by
        simp only [layerLines, hflag2, Bool.false_and, Bool.false_eq_true, if_false]
      rw [hunf]
      obtain ⟨ih1, ih2⟩ := ih (i + 1)
        (fgetcLine (fun (b : List Nat) c => b.set i (accumulateSize (b.getD i 0) c).2)
          stream block).2.1
        (fgetcLine (fun (b : List Nat) c => b.set i (accumulateSize (b.getD i 0) c).2)
          stream block).1
        (fgetcLine (fun (b : List Nat) c => b.set i (accumulateSize (b.getD i 0) c).2)
          stream block).2.2 (by omega)
      rw [hcount] at ih1 ih2
      refine ⟨fun h => ih1 (by omega), fun h _ => ?_⟩
      by_cases hrem : remaining = 0
      · subst hrem
        simp only [layerLines, hflag2, hcount]
        refine ⟨trivial, ?_, trivial⟩
        simp
        omega
      · obtain ⟨a, b, c⟩ := ih2 (by omega) (by omega)
        refine ⟨a, ?_, by rw [c]; omega⟩
        rw [b]
        simp only [decide_eq_decide]
        omega

theorem wr2_of_lt {β : Type} (table : List (List β)) (i k : Nat) (v : β) (hi : i < table.length)
    (hk : k < (table.getD i []).length) :
    wr2 table i k v = some (table.set i ((table.getD i []).set k v)) := by
  simp only [wr2, rd_table table i hi, Option.some_bind, wr_of_lt _ k v hk,
    wr_of_lt table i _ hi]

theorem wr2_of_ge {β : Type} (table : List (List β)) (i k : Nat) (v : β)
    (hi : table.length ≤ i) : wr2 table i k v = none := by
  unfold wr2 rd
  rw [List.getElem?_eq_none hi]
  rfl

theorem FieldsShaped_set {fields : List (List Nat)} (h : FieldsShaped fields) (i k c : Nat) :
    FieldsShaped (fields.set i ((fields.getD i []).set k c)) := by
  refine ⟨by rw [List.length_set]; exact h.1, fun j hj => ?_⟩
  by_cases hij : i = j
  · subst hij
    rw [getD_set_self fields i _ [] (by rw [h.1]; exact hj), List.length_set]
    exact h.2 i hj
  · rw [getD_set_other fields i j _ [] hij]
    exact h.2 j hj

theorem FieldsShaped_replicate :
    FieldsShaped (List.replicate 4 (List.replicate MAX_PATH 0)) := by
  refine ⟨List.length_replicate _ _, fun k hk => ?_⟩
  interval_cases k <;> exact List.length_replicate MAX_PATH 0

theorem pathScan_spec (stream : List Nat) :
    ∀ st : PathState, FieldsShaped st.fields → st.currField ≤ 4 → st.index < MAX_PATH →
      ∃ st1, pathScan stream st = some st1 ∧ FieldsShaped st1.fields ∧
        st1.index < MAX_PATH ∧ st1.currField = min 4 (st.currField + stream.count 10) := by
  induction stream with
  | nil =>
    intro st hf hc hi
    exact ⟨st, rfl, hf, hi, by simp; omega⟩
  | cons c rest ih =>
    intro st hf hc hi
    by_cases hlt : st.currField < 4
    · have hwr : ∀ v, wr2 st.fields st.currField st.index v =
          some (st.fields.set st.currField ((st.fields.getD st.currField []).set st.index v)) :=
        fun v => wr2_of_lt st.fields st.currField st.index v (by rw [hf.1]; exact hlt)
          (by rw [hf.2 _ hlt]; exact hi)
      by_cases hnl : c = 10
      · subst hnl
        obtain ⟨st1, h1, h2, h3, h4⟩ := ih
          ⟨st.fields.set st.currField ((st.fields.getD st.currField []).set st.index 0),
            st.currField + 1, 0⟩ (FieldsShaped_set hf _ _ _) (by show st.currField + 1 ≤ 4; omega)
          (by show 0 < MAX_PATH; decide)
        refine ⟨st1, ?_, h2, h3, ?_⟩
        · simp only [pathScan, if_pos hlt, if_true, hwr, Option.some_bind]
          exact h1
        · rw [h4, List.count_cons_self]
          show min 4 (st.currField + 1 + List.count 10 rest) = _
          congr 1
          omega
      · by_cases hroom : st.index < MAX_PATH - 1
        · obtain ⟨st1, h1, h2, h3, h4⟩ := ih
            ⟨st.fields.set st.currField ((st.fields.getD st.currField []).set st.index c),
              st.currField, st.index + 1⟩ (FieldsShaped_set hf _ _ _) hc
            (by show st.index + 1 < MAX_PATH; omega)
          refine ⟨st1, ?_, h2, h3, ?_⟩
          · simp only [pathScan, if_pos hlt, if_neg hnl, if_pos hroom, hwr, Option.some_bind]
            exact h1
          · rw [h4, List.count_cons_of_ne (Ne.symm hnl)]
        · obtain ⟨st1, h1, h2, h3, h4⟩ := ih st hf hc hi
          refine ⟨st1, ?_, h2, h3, ?_⟩
          · simp only [pathScan, if_pos hlt, if_neg hnl, if_neg hroom]
            exact h1
          · rw [h4, List.count_cons_of_ne (Ne.symm hnl)]
    · refine ⟨st, ?_, hf, hi, ?_⟩
      · simp only [pathScan, if_neg hlt]
      · omega

theorem readPaths_spec (stream : List Nat) (fields : List (List Nat))
    (hf : FieldsShaped fields) :
    (stream.count 10 < 4 → ∃ f, readPaths stream fields = some f) ∧
    (4 ≤ stream.count 10 → readPaths stream fields = none) := by
  obtain ⟨st, h1, h2, h3, h4⟩ := pathScan_spec stream ⟨fields, 0, 0⟩ hf (Nat.zero_le 4)
    (by show 0 < MAX_PATH; decide)
  have h5 : st.currField = min 4 (stream.count 10) := by
    rw [h4]; show min 4 (0 + _) = _; rw [Nat.zero_add]
  unfold readPaths
  rw [h1]
  simp only [Option.some_bind]
  refine ⟨fun h => ⟨_, wr2_of_lt st.fields st.currField st.index 0 (by rw [h2.1, h5]; omega)
    (by rw [h2.2 _ (by rw [h5]; omega)]; exact h3)⟩, fun h => ?_⟩
  exact wr2_of_ge st.fields st.currField st.index 0 (by rw [h2.1, h5]; omega)

theorem GetConfig_return (l1 l2 l3 rest : List Nat) (ctx : ConfigContext α)
    (h1 : 10 ∉ l1) (h2 : 10 ∉ l2) (h3 : 10 ∉ l3) (hctx : ctx.layersCount = 0)
    (hfields : FieldsShaped ctx.fields) (hn : 0 < parseSize l3 0) :
    (rest.count 10 + 1 < parseSize l3 0 → ∀ callocOk,
      (GetConfig (some (l1 ++ 10 :: (l2 ++ 10 :: (l3 ++ 10 :: rest)))) callocOk ctx).map
        Prod.fst = some 1) ∧
    (parseSize l3 0 ≤ rest.count 10 + 1 → rest.count 10 < parseSize l3 0 + 4 →
      (GetConfig (some (l1 ++ 10 :: (l2 ++ 10 :: (l3 ++ 10 :: rest)))) true ctx).map
        Prod.fst = some 0) ∧
    (parseSize l3 0 + 4 ≤ rest.count 10 →
      GetConfig (some (l1 ++ 10 :: (l2 ++ 10 :: (l3 ++ 10 :: rest)))) true ctx = none) := by
  have hcnt : (l3.foldl (fun (s : Bool × Nat) c =>
      (s.1 || (accumulateSize s.2 c).1, (accumulateSize s.2 c).2))
      (ctx.layersCount_set, ctx.layersCount)).2 = parseSize l3 0 := by
    rw [foldl_count_snd, hctx]
  have hmax : parseSize l3 0 < SIZE_MOD := by
    have := parseSize_le l3 0 (Nat.zero_le _)
    unfold SIZE_MAX at this
    unfold SIZE_MOD at *
    omega
  obtain ⟨hl1, hl2⟩ := layerLines_spec (parseSize l3 0) hn hmax (parseSize l3 0) 0 rest
    (List.replicate (parseSize l3 0) 0) false (Nat.zero_add _)
  have hne : ¬ parseSize l3 0 = 0 := by omega
  have hle : ¬ parseSize l3 0 ≤ 0 := by omega
  refine ⟨fun h callocOk => ?_, fun ha hb => ?_, fun h => ?_⟩
  · simp only [GetConfig, fgetcLine_newline _ l1 _ _ h1, fgetcLine_newline _ l2 _ _ h2,
      fgetcLine_newline _ l3 _ _ h3, hcnt, Bool.false_and, Bool.false_eq_true, if_false]
    cases callocOk
    · simp [hne]
    · simp only [hne, ne_eq, not_false_eq_true, decide_True, Bool.not_true, Bool.and_false,
        Bool.false_eq_true, if_false, if_true, hl1 (by omega)]
      rfl
  · obtain ⟨hr, he, hs⟩ := hl2 (by omega) hn
    simp only [GetConfig, fgetcLine_newline _ l1 _ _ h1, fgetcLine_newline _ l2 _ _ h2,
      fgetcLine_newline _ l3 _ _ h3, hcnt, Bool.false_and, Bool.false_eq_true, if_false,
      hne, ne_eq, not_false_eq_true, decide_True, Bool.not_true, Bool.and_false, if_true, hr, he]
    by_cases hlast : rest.count 10 < parseSize l3 0
    · simp [hlast]
    · obtain ⟨f, hf⟩ := (readPaths_spec _ ctx.fields hfields).1 (by rw [hs]; omega)
      simp [hlast, hf]
  · obtain ⟨hr, he, hs⟩ := hl2 (by omega) hn
    have hnone := (readPaths_spec (layerLines (parseSize l3 0) (parseSize l3 0) 0 rest
      (List.replicate (parseSize l3 0) 0) false).stream ctx.fields hfields).2
      (by rw [hs]; omega)
    have hlast : ¬ rest.count 10 < parseSize l3 0 := by omega
    simp only [GetConfig, fgetcLine_newline _ l1 _ _ h1, fgetcLine_newline _ l2 _ _ h2,
      fgetcLine_newline _ l3 _ _ h3, hcnt, Bool.false_and, Bool.false_eq_true, if_false,
      hne, ne_eq, not_false_eq_true, decide_True, Bool.not_true, Bool.and_false, if_true, hr, he]
    simp [hlast, hnone]

/-! ### Byte order -/

theorem and_byte_mask (w k : Nat) :
    w &&& ((2 ^ 8 - 1) <<< k) = ((w >>> k) % 2 ^ 8) <<< k := by
  apply Nat.eq_of_testBit_eq
  intro i
  simp only [Nat.testBit_and, Nat.testBit_shiftLeft, Nat.testBit_two_pow_sub_one,
    Nat.testBit_mod_two_pow, Nat.testBit_shiftRight]
  by_cases hik : k ≤ i
  · have e : k + (i - k) = i := by omega
    simp [hik, e, Bool.and_comm]
  · simp [hik]

theorem or_bytes (a b c d : Nat) (hb : b < 256) (hc : c < 256) (hd : d < 256) :
    a * 2 ^ 24 ||| b * 2 ^ 16 ||| c * 2 ^ 8 ||| d =
      a * 2 ^ 24 + b * 2 ^ 16 + c * 2 ^ 8 + d := by
  have h1 : c * 2 ^ 8 ||| d = c * 2 ^ 8 + d := by
    rw [Nat.mul_comm c, ← Nat.mul_add_lt_is_or (by omega) c]
  have h2 : b * 2 ^ 16 ||| (c * 2 ^ 8 + d) = b * 2 ^ 16 + (c * 2 ^ 8 + d) := by
    rw [Nat.mul_comm b, ← Nat.mul_add_lt_is_or (by omega) b]
  have h3 : a * 2 ^ 24 ||| (b * 2 ^ 16 + (c * 2 ^ 8 + d)) =
      a * 2 ^ 24 + (b * 2 ^ 16 + (c * 2 ^ 8 + d)) := by
    rw [Nat.mul_comm a, ← Nat.mul_add_lt_is_or (by omega) a]
  rw [Nat.or_assoc, Nat.or_assoc, h1, h2, h3]
  omega

theorem CorrectEndiannessFromBig_little (w : Nat) (hw : w < 2 ^ 32) :
    CorrectEndiannessFromBig true w =
      (w % 256) * 2 ^ 24 + (w / 2 ^ 8 % 256) * 2 ^ 16 + (w / 2 ^ 16 % 256) * 2 ^ 8 +
        w / 2 ^ 24 := by
  have m0 : w &&& 0x000000ff = w % 256 := by
    have h := and_byte_mask w 0
    simpa using h
  have m1 : w &&& 0x0000ff00 = (w / 2 ^ 8 % 256) * 2 ^ 8 := by
    have h := and_byte_mask w 8
    rw [Nat.shiftLeft_eq, Nat.shiftLeft_eq, Nat.shiftRight_eq_div_pow] at h
    exact h
  have m2 : w &&& 0x00ff0000 = (w / 2 ^ 16 % 256) * 2 ^ 16 := by
    have h := and_byte_mask w 16
    rw [Nat.shiftLeft_eq, Nat.shiftLeft_eq, Nat.shiftRight_eq_div_pow] at h
    exact h
  have m3 : w &&& 0xff000000 = (w / 2 ^ 24 % 256) * 2 ^ 24 := by
    have h := and_byte_mask w 24
    rw [Nat.shiftLeft_eq, Nat.shiftLeft_eq, Nat.shiftRight_eq_div_pow] at h
    exact h
  have e : GetEndianness true ≠ 0 := by decide
  unfold CorrectEndiannessFromBig
  rw [if_neg e, m0, m1, m2, m3]
  simp only [Nat.shiftLeft_eq, Nat.shiftRight_eq_div_pow]
  have a0 : w % 256 * 2 ^ 24 % 2 ^ 32 = w % 256 * 2 ^ 24 := by omega
  have a1 : w / 2 ^ 8 % 256 * 2 ^ 8 * 2 ^ 8 % 2 ^ 32 = (w / 2 ^ 8 % 256) * 2 ^ 16 := by omega
  have a2 : w / 2 ^ 16 % 256 * 2 ^ 16 / 2 ^ 8 = (w / 2 ^ 16 % 256) * 2 ^ 8 := by omega
  have a3 : w / 2 ^ 24 % 256 * 2 ^ 24 / 2 ^ 24 = w / 2 ^ 24 := by omega
  rw [a0, a1, a2, a3]
  exact or_bytes _ _ _ _ (by omega) (by omega) (by omega)

theorem CorrectEndiannessFromBig_bytes (b0 b1 b2 b3 : Nat) (h0 : b0 < 256) (h1 : b1 < 256)
    (h2 : b2 < 256) (h3 : b3 < 256) :
    CorrectEndiannessFromBig true (b0 + b1 * 2 ^ 8 + b2 * 2 ^ 16 + b3 * 2 ^ 24) =
      b0 * 2 ^ 24 + b1 * 2 ^ 16 + b2 * 2 ^ 8 + b3 := by
  rw [CorrectEndiannessFromBig_little _ (by omega)]
  omega

theorem CorrectEndiannessFromBig_twice (w : Nat) (hw : w < 2 ^ 32) :
    CorrectEndiannessFromBig true (CorrectEndiannessFromBig true w) = w := by
  have key : ∀ b0 b1 b2 b3 : Nat, b0 < 256 → b1 < 256 → b2 < 256 → b3 < 256 →
      CorrectEndiannessFromBig true (CorrectEndiannessFromBig true
        (b0 + b1 * 2 ^ 8 + b2 * 2 ^ 16 + b3 * 2 ^ 24)) =
        b0 + b1 * 2 ^ 8 + b2 * 2 ^ 16 + b3 * 2 ^ 24 := by
    intro b0 b1 b2 b3 h0 h1 h2 h3
    rw [CorrectEndiannessFromBig_bytes b0 b1 b2 b3 h0 h1 h2 h3]
    have e : b0 * 2 ^ 24 + b1 * 2 ^ 16 + b2 * 2 ^ 8 + b3 =
        b3 + b2 * 2 ^ 8 + b1 * 2 ^ 16 + b0 * 2 ^ 24 := by omega
    rw [e, CorrectEndiannessFromBig_bytes b3 b2 b1 b0 h3 h2 h1 h0]
    omega
  have e : w % 256 + (w / 2 ^ 8 % 256) * 2 ^ 8 + (w / 2 ^ 16 % 256) * 2 ^ 16 +
      (w / 2 ^ 24) * 2 ^ 24 = w := by omega
  have h := key (w % 256) (w / 2 ^ 8 % 256) (w / 2 ^ 16 % 256) (w / 2 ^ 24)
    (by omega) (by omega) (by omega) (by omega)
  rw [e] at h
  exact h

/-! ### Inactive neurons -/

theorem hiddenJacobian_of_neg (layer_lengths : List Nat)
    (weights deactivated_neurons jac : List (List α)) (i r : Nat)
    (h : at2 deactivated_neurons i r < 0) :
    hiddenJacobian layer_lengths weights deactivated_neurons jac i r = 0 := by
  unfold hiddenJacobian
  rw [if_neg (not_le.mpr h), zero_mul]

/-! ### The rate handed to Descend -/

theorem forLoop_upto {σ : Type} (body : Nat → σ → Option σ) (n k : Nat) (s0 s : σ)
    (hk : k ≤ n) (h : forLoop body n s0 = some s) : ∃ sk, forLoop body k s0 = some sk := by
  induction n generalizing s with
  | zero =>
    have e : k = 0 := by omega
    subst e
    exact ⟨s, h⟩
  | succ n ih =>
    rcases Nat.lt_or_ge k (n + 1) with hlt | hge
    · have h1 : (forLoop body n s0).bind (body n) = some s := h
      obtain ⟨s1, hs1, -⟩ := Option.bind_eq_some.mp h1
      exact ih s1 (by omega) hs1
    · have e : k = n + 1 := by omega
      subst e
      exact ⟨s, h⟩

theorem trainSample_spec (exp : α → α) (inputSize layers_count : Nat)
    (layer_lengths : List Nat) (images : List (List Nat)) (labels : List Nat) (image : Nat)
    (learningRate : α) (net net1 : Network α)
    (h : trainSample exp inputSize layers_count layer_lengths images labels image learningRate
      net = some net1) :
    ∃ inp fw lenOut target jac,
      setInputLayer inputSize images image net.inputLayer = some inp ∧
      ForwardPass exp inputSize inp layers_count layer_lengths net.weights net.biases
        net.deactivated_neurons net.activated_neurons = some fw ∧
      rd layer_lengths (sizeSub layers_count 1) = some lenOut ∧
      setTarget lenOut labels image net.intendedOutput = some target ∧
      BackPropagate layers_count layer_lengths net.weights fw.1 fw.2 target
        net.biasJacobians = some jac ∧
      Descend layers_count layer_lengths inputSize inp fw.2 net.weights net.biases jac
        learningRate = some (net1.weights, net1.biases) := by
  unfold trainSample at h
  obtain ⟨inp, h1, h⟩ := Option.bind_eq_some.mp h
  obtain ⟨fw, h2, h⟩ := Option.bind_eq_some.mp h
  obtain ⟨lenOut, h3, h⟩ := Option.bind_eq_some.mp h
  obtain ⟨target, h4, h⟩ := Option.bind_eq_some.mp h
  obtain ⟨jac, h5, h⟩ := Option.bind_eq_some.mp h
  obtain ⟨wb, h6, h⟩ := Option.bind_eq_some.mp h
  have e := (Option.some.inj h).symm
  subst e
  exact ⟨inp, fw, lenOut, target, jac, h1, h2, h3, h4, h5, h6⟩

theorem trainingCount_self (k : Nat) : trainingCount k k = k := by
  unfold trainingCount
  simp

theorem trainingPass_sample (exp : α → α) (inputSize layers_count : Nat)
    (layer_lengths : List Nat) (images : List (List Nat)) (labels : List Nat)
    (image_count label_count : Nat) (learningRate : α) (net : Network α)
    (tr : Network α × List α)
    (h : trainingPass exp inputSize layers_count layer_lengths images labels image_count
      label_count learningRate net = some tr) :
    trainingPass exp inputSize layers_count layer_lengths images labels
      (trainingCount image_count label_count) (trainingCount image_count label_count)
      learningRate net = some tr ∧
    ∀ image, image < trainingCount image_count label_count →
      ∃ before after inp fw lenOut target jac,
        trainingPass exp inputSize layers_count layer_lengths images labels image image
          learningRate net = some before ∧
        trainingPass exp inputSize layers_count layer_lengths images labels (image + 1)
          (image + 1) learningRate net = some after ∧
        setInputLayer inputSize images image before.1.inputLayer = some inp ∧
        ForwardPass exp inputSize inp layers_count layer_lengths before.1.weights
          before.1.biases before.1.deactivated_neurons before.1.activated_neurons = some fw ∧
        rd layer_lengths (sizeSub layers_count 1) = some lenOut ∧
        setTarget lenOut labels image before.1.intendedOutput = some target ∧
        BackPropagate layers_count layer_lengths before.1.weights fw.1 fw.2 target
          before.1.biasJacobians = some jac ∧
        Descend layers_count layer_lengths inputSize inp fw.2 before.1.weights
          before.1.biases jac learningRate = some (after.1.weights, after.1.biases) := by
  unfold trainingPass at h ⊢
  rw [trainingCount_self]
  refine ⟨h, fun image hi => ?_⟩
  rw [trainingCount_self, trainingCount_self]
  obtain ⟨after, hafter⟩ := forLoop_upto _ _ (image + 1) _ _ (by omega) h
  have h1 : (forLoop (fun image (st : Network α × List α) =>
      (trainSample exp inputSize layers_count layer_lengths images labels image learningRate
        st.1).bind (fun net1 => some (net1, learningRate :: st.2))) image (net, [])).bind
      (fun (st : Network α × List α) =>
        (trainSample exp inputSize layers_count layer_lengths images labels image learningRate
          st.1).bind (fun net1 => some (net1, learningRate :: st.2))) = some after := hafter
  obtain ⟨before, hbefore, hstep⟩ := Option.bind_eq_some.mp h1
  obtain ⟨net1, hnet1, hs⟩ := Option.bind_eq_some.mp hstep
  have e := (Option.some.inj hs).symm
  subst e
  obtain ⟨inp, fw, lenOut, target, jac, a1, a2, a3, a4, a5, a6⟩ :=
    trainSample_spec _ _ _ _ _ _ _ _ _ _ hnet1
  exact ⟨before, _, inp, fw, lenOut, target, jac, hbefore, hafter, a1, a2, a3, a4, a5, a6⟩

theorem evaluationPass_weights (exp : α → α) (charSigned : Bool) (inputSize layers_count : Nat)
    (layer_lengths : List Nat) (test_images : List (List Nat)) (test_labels : List Nat)
    (test_image_count : Nat) (net : Network α) (ev : EvalState α)
    (h : evaluationPass exp charSigned inputSize layers_count layer_lengths test_images
      test_labels test_image_count net = some ev) :
    ev.net.weights = net.weights ∧ ev.net.biases = net.biases := by
  unfold evaluationPass at h
  have hP := forLoop_preserves (evalSample exp charSigned inputSize layers_count layer_lengths
      test_images test_labels)
    (fun _ (st : EvalState α) => st.net.weights = net.weights ∧ st.net.biases = net.biases)
    test_image_count ({ numRight := 0, totalCost := 0, net := net } : EvalState α) ev
    ⟨rfl, rfl⟩
    (by
      intro i _ s1 s2 hP hbody
      unfold evalSample at hbody
      obtain ⟨inp, -, hbody⟩ := Option.bind_eq_some.mp hbody
      obtain ⟨fw, -, hbody⟩ := Option.bind_eq_some.mp hbody
      obtain ⟨lenOut, -, hbody⟩ := Option.bind_eq_some.mp hbody
      obtain ⟨out, -, hbody⟩ := Option.bind_eq_some.mp hbody
      obtain ⟨largest, -, hbody⟩ := Option.bind_eq_some.mp hbody
      obtain ⟨target, -, hbody⟩ := Option.bind_eq_some.mp hbody
      obtain ⟨cost, -, hbody⟩ := Option.bind_eq_some.mp hbody
      obtain ⟨label, -, hbody⟩ := Option.bind_eq_some.mp hbody
      have e := (Option.some.inj hbody).symm
      subst e
      exact hP) h
  exact hP

theorem epochBody_training (s : Setup α) (attempts : Nat → List SaveAttempt) (epoch : Nat)
    (st st1 : EpochState α) (h : epochBody s attempts epoch st = some st1) :
    st1.learningRate = st.learningRate * s.learningRateMultiplier ∧
    ∃ tr, trainingPass s.exp (inputWidth s.row_count s.col_count) s.layers_count
        s.layer_lengths s.images s.labels s.image_count s.label_count st.learningRate
        st.net = some tr ∧
      st1.net.weights = tr.1.weights ∧ st1.net.biases = tr.1.biases := by
  unfold epochBody at h
  obtain ⟨tr, htr, h⟩ := Option.bind_eq_some.mp h
  obtain ⟨ev, hev, h⟩ := Option.bind_eq_some.mp h
  obtain ⟨sv, -, h⟩ := Option.bind_eq_some.mp h
  have e := (Option.some.inj h).symm
  subst e
  obtain ⟨hw, hb⟩ := evaluationPass_weights _ _ _ _ _ _ _ _ _ _ hev
  exact ⟨rfl, tr, htr, hw, hb⟩

theorem epochsBefore_succ (s : Setup α) (attempts : Nat → List SaveAttempt) (n : Nat)
    (r : α) (net : Network α) (hn : 1 ≤ n) (hmax : n < SIZE_MOD - 1) :
    epochsBefore s attempts (n + 1) r net =
      (epochsBefore s attempts n r net).bind (epochBody s attempts n) := by
  unfold epochsBefore whileLt
  have h1 : min (n + 1) (SIZE_MOD - 1) = n + 1 := min_eq_left (by omega)
  have h2 : min n (SIZE_MOD - 1) = n := min_eq_left (by omega)
  have h3 : n + 1 - 1 = (n - 1) + 1 := by omega
  have h4 : 1 + (n - 1) = n := by omega
  rw [h1, h2, h3]
  show (forLoop _ (n - 1) _).bind (fun st => epochBody s attempts (1 + (n - 1)) st) = _
  rw [h4]

/-! ### Blocks and streams -/

theorem mallocCells_of_lt (count : Nat) (h : count < 2 ^ 61) : mallocCells count 8 = count := by
  unfold mallocCells SIZE_MOD
  omega

theorem heapWidths_eq_iff {β : Type} (layers_count : Nat) (heap : Nat → Nat)
    (layer_lengths : List Nat) (hll : layer_lengths.length = layers_count) :
    (List.range layers_count).map (fun i => (Field.u64 (heap i % SIZE_MOD) : Field β)) =
        layer_lengths.map Field.u64 ↔
      ∀ i, i < layers_count → heap i % SIZE_MOD = layer_lengths.getD i 0 := by
  constructor
  · intro h i hi
    have h1 := congrArg (fun l => l[i]?) h
    have hi2 : i < layer_lengths.length := by omega
    simp only [List.getElem?_map, List.getElem?_range hi, Option.map_some',
      List.getElem?_eq_getElem hi2] at h1
    have h2 := Field.u64.inj (Option.some.inj h1)
    rw [h2, List.getD_eq_getElem _ _ hi2]
  · intro h
    apply List.ext_getElem?
    intro i
    by_cases hi : i < layers_count
    · have hi2 : i < layer_lengths.length := by omega
      simp only [List.getElem?_map, List.getElem?_range hi, Option.map_some',
        List.getElem?_eq_getElem hi2]
      rw [h i hi, List.getD_eq_getElem _ _ hi2]
    · have hi2 : layer_lengths.length ≤ i := by omega
      have hi3 : (List.range layers_count).length ≤ i := by simp; omega
      simp only [List.getElem?_map, List.getElem?_eq_none hi2, List.getElem?_eq_none hi3,
        Option.map_none']

end Lemmas

/-! ## The claims -/

section Claims

variable {α : Type} [LinearOrderedField α]

/-- C1: for a network with at least two layers whose buffers match the layer
widths and an input of `inputLayerSize` entries, `ForwardPass` returns and
leaves `deactivated[0] = W0 * input + b0`, `deactivated[i] = Wi * activated[i-1] + bi`
for `i > 0`, `activated[i] = max(0, deactivated[i])` on every layer but the
last, and `activated[last] = 1 / (1 + exp(-deactivated[last]))`, with
row-major weight matrices whose rows are the destination neurons. -/
theorem C1_ForwardPass_layer_equations (exp : α → α) (inputLayerSize : Nat)
    (inputLayer : List α) (layers_count : Nat) (layer_lengths : List Nat)
    (weights biases deactivated_neurons activated_neurons : List (List α))
    (hL : 2 ≤ layers_count) (hsz : layers_count < SIZE_MOD)
    (hll : layer_lengths.length = layers_count)
    (hin : inputLayer.length = inputLayerSize)
    (hW : WeightsShaped inputLayerSize layers_count layer_lengths weights)
    (hB : TableShaped layers_count layer_lengths biases)
    (hD : TableShaped layers_count layer_lengths deactivated_neurons)
    (hA : TableShaped layers_count layer_lengths activated_neurons) :
    ∃ deact act, ForwardPass exp inputLayerSize inputLayer layers_count layer_lengths weights
        biases deactivated_neurons activated_neurons = some (deact, act) ∧
      (∀ r, r < layer_lengths.getD 0 0 →
        at2 deact 0 r = (∑ c ∈ Finset.range inputLayerSize,
          at2 weights 0 (r * inputLayerSize + c) * vget inputLayer c) + at2 biases 0 r) ∧
      (∀ i, 0 < i → i < layers_count → ∀ r, r < layer_lengths.getD i 0 →
        at2 deact i r = (∑ c ∈ Finset.range (layer_lengths.getD (i - 1) 0),
          at2 weights i (r * layer_lengths.getD (i - 1) 0 + c) * at2 act (i - 1) c)
            + at2 biases i r) ∧
      (∀ i, i + 1 < layers_count → ∀ r, r < layer_lengths.getD i 0 →
        at2 act i r = max 0 (at2 deact i r)) ∧
      (∀ r, r < layer_lengths.getD (layers_count - 1) 0 →
        at2 act (layers_count - 1) r = 1 / (1 + exp (-(at2 deact (layers_count - 1) r)))) := by
  obtain ⟨st, hrun, -, -, hdone⟩ := ForwardPass_spec exp inputLayerSize inputLayer layers_count
    layer_lengths weights biases deactivated_neurons activated_neurons hL hsz hll
    (le_of_eq hin.symm) hW hB hD hA
  refine ⟨st.1, st.2, hrun, ?_, ?_, ?_, ?_⟩
  · intro r hr
    have h := (hdone 0 (by omega) r hr).1
    simpa [srcWidth, srcVal] using h
  · intro i hi0 hi r hr
    have h := (hdone i hi r hr).1
    have hne : i ≠ 0 := by omega
    simpa [srcWidth, srcVal, hne] using h
  · intro i hi r hr
    have h := (hdone i (by omega) r hr).2
    have hne : ¬ (i + 1 = layers_count) := by omega
    rw [h, layerActivation, if_neg hne, Activation_eq_max]
  · intro r hr
    have h := (hdone (layers_count - 1) (by omega) r hr).2
    have he : layers_count - 1 + 1 = layers_count := by omega
    rw [h, layerActivation, if_pos he, OutputActivation]

theorem C1_ForwardPass_layer_equations_witness :
    ∃ deact act, ForwardPass (fun x : ℚ => 1 + x) 2 [1, 2] 2 [2, 1] [[1, 0, 0, 1], [1, -1]]
        [[0, 0], [0]] [[9, 9], [9]] [[9, 9], [9]] = some (deact, act) ∧
      (∀ r, r < [2, 1].getD 0 0 →
        at2 deact 0 r = (∑ c ∈ Finset.range 2,
          at2 [[1, 0, 0, 1], [1, -1]] 0 (r * 2 + c) * vget [1, 2] c) + at2 [[0, 0], [0]] 0 r) ∧
      (∀ i, 0 < i → i < 2 → ∀ r, r < [2, 1].getD i 0 →
        at2 deact i r = (∑ c ∈ Finset.range ([2, 1].getD (i - 1) 0),
          at2 [[1, 0, 0, 1], [1, -1]] i (r * [2, 1].getD (i - 1) 0 + c) * at2 act (i - 1) c)
            + at2 [[0, 0], [0]] i r) ∧
      (∀ i, i + 1 < 2 → ∀ r, r < [2, 1].getD i 0 →
        at2 act i r = max 0 (at2 deact i r)) ∧
      (∀ r, r < [2, 1].getD (2 - 1) 0 →
        at2 act (2 - 1) r = 1 / (1 + (fun x : ℚ => 1 + x) (-(at2 deact (2 - 1) r)))) :=
  C1_ForwardPass_layer_equations (fun x : ℚ => 1 + x) 2 [1, 2] 2 [2, 1]
    [[1, 0, 0, 1], [1, -1]] [[0, 0], [0]] [[9, 9], [9]] [[9, 9], [9]]
    (by decide) (by decide) rfl rfl
    ⟨rfl, fun i hi => by interval_cases i <;> rfl⟩
    ⟨rfl, fun i hi => by interval_cases i <;> rfl⟩
    ⟨rfl, fun i hi => by interval_cases i <;> rfl⟩
    ⟨rfl, fun i hi => by interval_cases i <;> rfl⟩

/-- C2: for a well-shaped network and a target of the output width,
`BackPropagate` returns and leaves `2 * (a_i - t_i) * a_i * (1 - a_i)` in
component `i` of the output layer's jacobian, `a` being the output layer's
activated vector and `t` the target. -/
theorem C2_BackPropagate_output_jacobian (inputLayerSize layers_count : Nat)
    (layer_lengths : List Nat)
    (weights deactivated_neurons activated_neurons : List (List α)) (intended : List α)
    (biasJacobian : List (List α))
    (hL : 1 ≤ layers_count) (hsz : layers_count < SIZE_MOD)
    (hll : layer_lengths.length = layers_count)
    (hW : WeightsShaped inputLayerSize layers_count layer_lengths weights)
    (hD : TableShaped layers_count layer_lengths deactivated_neurons)
    (hA : TableShaped layers_count layer_lengths activated_neurons)
    (hT : intended.length = layer_lengths.getD (layers_count - 1) 0)
    (hJ : TableShaped layers_count layer_lengths biasJacobian) :
    ∃ jac, BackPropagate layers_count layer_lengths weights deactivated_neurons
        activated_neurons intended biasJacobian = some jac ∧
      ∀ i, i < layer_lengths.getD (layers_count - 1) 0 →
        at2 jac (layers_count - 1) i =
          2 * (at2 activated_neurons (layers_count - 1) i - vget intended i) *
            at2 activated_neurons (layers_count - 1) i *
            (1 - at2 activated_neurons (layers_count - 1) i) := by
  obtain ⟨jac, hrun, -, hout, -⟩ := BackPropagate_spec inputLayerSize layers_count layer_lengths
    weights deactivated_neurons activated_neurons intended biasJacobian hL hsz hll hW hD hA
    (le_of_eq hT.symm) hJ
  refine ⟨jac, hrun, fun i hi => ?_⟩
  rw [hout i hi, outputJacobian]
  ring

theorem C2_BackPropagate_output_jacobian_witness :
    ∃ jac, BackPropagate 3 [2, 2, 1] [[1, 0, 0, 1], [1, 1, 1, -1], [1, -1]]
        [[1, 2], [4, 0], [4]] [[1, 2], [4, 0], [(1 / 2 : ℚ)]] [0] [[9, 9], [9, 9], [9]] =
          some jac ∧
      ∀ i, i < [2, 2, 1].getD (3 - 1) 0 →
        at2 jac (3 - 1) i =
          2 * (at2 [[1, 2], [4, 0], [(1 / 2 : ℚ)]] (3 - 1) i - vget [0] i) *
            at2 [[1, 2], [4, 0], [(1 / 2 : ℚ)]] (3 - 1) i *
            (1 - at2 [[1, 2], [4, 0], [(1 / 2 : ℚ)]] (3 - 1) i) :=
  C2_BackPropagate_output_jacobian 2 3 [2, 2, 1] [[1, 0, 0, 1], [1, 1, 1, -1], [1, -1]]
    [[1, 2], [4, 0], [4]] [[1, 2], [4, 0], [(1 / 2 : ℚ)]] [0] [[9, 9], [9, 9], [9]]
    (by decide) (by decide) rfl
    ⟨rfl, fun i hi => by interval_cases i <;> rfl⟩
    ⟨rfl, fun i hi => by interval_cases i <;> rfl⟩
    ⟨rfl, fun i hi => by interval_cases i <;> rfl⟩
    rfl
    ⟨rfl, fun i hi => by interval_cases i <;> rfl⟩

/-- C3: the value `CostPrimeWrtDeactivated` writes into component `i` of the
output layer's jacobian, `2 * (a_i - t_i) * a_i * (1 - a_i)` with
`a = OutputActivation(z)`, is the derivative with respect to `z_i` of
`Cost(OutputActivation(z), t) = sum_k (sigmoid(z_k) - t_k)^2`, for every real
deactivated output `z`, target `t` and index `i`. -/
theorem C3_output_jacobian_is_cost_derivative (n : Nat) (z t scratch jac0 : List ℝ) (i : Nat)
    (hz : z.length = n) (ht : t.length = n) (hs : scratch.length = n) (hj : jac0.length = n)
    (hi : i < n) :
    ∃ a jac F, ActivateOutputVector Real.exp n z scratch = some a ∧
      CostPrimeWrtDeactivated n jac0 a t = some jac ∧
      vget jac i = 2 * (vget a i - vget t i) * vget a i * (1 - vget a i) ∧
      (∀ x, outputCost Real.exp n (z.set i x) scratch t = some (F x)) ∧
      (∀ x, F x = ∑ k ∈ Finset.range n,
        (OutputActivation Real.exp (vget (z.set i x) k) - vget t k) ^ 2) ∧
      HasDerivAt F (vget jac i) (vget z i) := by
  obtain ⟨a, ha, hFa⟩ := ActivateOutputVector_spec Real.exp n z scratch
    (le_of_eq hz.symm) (le_of_eq hs.symm)
  obtain ⟨jac, hjac, hFj⟩ := CostPrimeWrtDeactivated_spec n jac0 a t (le_of_eq hj.symm)
    (by rw [hFa.1, hs]) (le_of_eq ht.symm)
  have hiz : i < z.length := by rw [hz]; exact hi
  have hjv : vget jac i = 2 * (OutputActivation Real.exp (vget z i) - vget t i) *
      (OutputActivation Real.exp (vget z i) * (1 - OutputActivation Real.exp (vget z i))) := by
    rw [hFj.vget_lt hi, hFa.vget_lt hi]
  refine ⟨a, jac, fun x => ∑ k ∈ Finset.range n,
      (OutputActivation Real.exp (vget (z.set i x) k) - vget t k) *
        (OutputActivation Real.exp (vget (z.set i x) k) - vget t k), ha, hjac, ?_, ?_, ?_, ?_⟩
  · rw [hFj.vget_lt hi]; ring
  · intro x
    exact outputCost_spec n (z.set i x) scratch t (by simp [hz]) (le_of_eq hs.symm)
      (le_of_eq ht.symm)
  · intro x
    exact Finset.sum_congr rfl (fun k _ => (sq _).symm)
  · have hsum := HasDerivAt.sum (u := Finset.range n)
      (fun k _ => hasDerivAt_outputCost_term z t i k hiz)
    have e : (∑ k ∈ Finset.range n, if k = i then
        2 * (OutputActivation Real.exp (vget z i) - vget t i) *
        (OutputActivation Real.exp (vget z i) * (1 - OutputActivation Real.exp (vget z i)))
        else 0) = vget jac i := by
      rw [Finset.sum_ite_eq' (Finset.range n) i, if_pos (Finset.mem_range.mpr hi), hjv]
    rw [e] at hsum
    exact hsum

theorem C3_output_jacobian_is_cost_derivative_witness :
    ∃ a jac F, ActivateOutputVector Real.exp 2 [0, 1] [9, 9] = some a ∧
      CostPrimeWrtDeactivated 2 [9, 9] a [1, 0] = some jac ∧
      vget jac 0 = 2 * (vget a 0 - vget [1, 0] 0) * vget a 0 * (1 - vget a 0) ∧
      (∀ x, outputCost Real.exp 2 ([0, 1].set 0 x) [9, 9] [1, 0] = some (F x)) ∧
      (∀ x, F x = ∑ k ∈ Finset.range 2,
        (OutputActivation Real.exp (vget ([0, 1].set 0 x) k) - vget [1, 0] k) ^ 2) ∧
      HasDerivAt F (vget jac 0) (vget [0, 1] 0) :=
  C3_output_jacobian_is_cost_derivative 2 [0, 1] [1, 0] [9, 9] [9, 9] 0 rfl rfl rfl rfl
    (by decide)

/-- C4: for a well-shaped network with at least two layers, `BackPropagate`
returns and, for every non-final layer `i` and every row,
`jacobian[i][row] = step(deactivated[i][row]) * sum_k weights[i+1][k][row] * jacobian[i+1][k]`
with `step x = 1` for `x >= 0` and `0` otherwise: the next layer's jacobian
times the transposed next weight matrix, times the ReLU step derivative. -/
theorem C4_BackPropagate_hidden_jacobian (inputLayerSize layers_count : Nat)
    (layer_lengths : List Nat)
    (weights deactivated_neurons activated_neurons : List (List α)) (intended : List α)
    (biasJacobian : List (List α))
    (hL : 2 ≤ layers_count) (hsz : layers_count < SIZE_MOD)
    (hll : layer_lengths.length = layers_count)
    (hW : WeightsShaped inputLayerSize layers_count layer_lengths weights)
    (hD : TableShaped layers_count layer_lengths deactivated_neurons)
    (hA : TableShaped layers_count layer_lengths activated_neurons)
    (hT : intended.length = layer_lengths.getD (layers_count - 1) 0)
    (hJ : TableShaped layers_count layer_lengths biasJacobian) :
    ∃ jac, BackPropagate layers_count layer_lengths weights deactivated_neurons
        activated_neurons intended biasJacobian = some jac ∧
      ∀ i, i + 1 < layers_count → ∀ row, row < layer_lengths.getD i 0 →
        at2 jac i row =
          (if at2 deactivated_neurons i row ≥ 0 then 1 else 0) *
            ∑ k ∈ Finset.range (layer_lengths.getD (i + 1) 0),
              at2 weights (i + 1) (k * layer_lengths.getD i 0 + row) * at2 jac (i + 1) k := by
  obtain ⟨jac, hrun, -, -, hhid⟩ := BackPropagate_spec inputLayerSize layers_count layer_lengths
    weights deactivated_neurons activated_neurons intended biasJacobian (by omega) hsz hll hW
    hD hA (le_of_eq hT.symm) hJ
  refine ⟨jac, hrun, fun i hi row hrow => ?_⟩
  rw [hhid i (Nat.zero_le i) hi row hrow, hiddenJacobian]
  congr 1
  exact Finset.sum_congr rfl (fun k _ => mul_comm _ _)

theorem C4_BackPropagate_hidden_jacobian_witness :
    ∃ jac, BackPropagate 3 [2, 2, 1] [[1, 0, 0, 1], [1, 1, 1, -1], [1, -1]]
        [[1, -2], [4, 0], [4]] [[1, 0], [4, 0], [(1 / 2 : ℚ)]] [0] [[9, 9], [9, 9], [9]] =
          some jac ∧
      ∀ i, i + 1 < 3 → ∀ row, row < [2, 2, 1].getD i 0 →
        at2 jac i row =
          (if at2 [[1, -2], [4, 0], [(4 : ℚ)]] i row ≥ 0 then 1 else 0) *
            ∑ k ∈ Finset.range ([2, 2, 1].getD (i + 1) 0),
              at2 [[1, 0, 0, 1], [1, 1, 1, -1], [1, -1]] (i + 1) (k * [2, 2, 1].getD i 0 + row) *
                at2 jac (i + 1) k :=
  C4_BackPropagate_hidden_jacobian 2 3 [2, 2, 1] [[1, 0, 0, 1], [1, 1, 1, -1], [1, -1]]
    [[1, -2], [4, 0], [4]] [[1, 0], [4, 0], [(1 / 2 : ℚ)]] [0] [[9, 9], [9, 9], [9]]
    (by decide) (by decide) rfl
    ⟨rfl, fun i hi => by interval_cases i <;> rfl⟩
    ⟨rfl, fun i hi => by interval_cases i <;> rfl⟩
    ⟨rfl, fun i hi => by interval_cases i <;> rfl⟩
    rfl
    ⟨rfl, fun i hi => by interval_cases i <;> rfl⟩

/-- C5: for a well-shaped network, `Descend` returns and changes every
parameter by the rule
`weight[layer][row][col] = old weight - learningRate * jacobian[layer][row] * source[col]`,
`bias[layer][row] = old bias - learningRate * jacobian[layer][row]`, where
`source` is the raw input for layer 0 and the previous layer's activated
vector for every later layer. -/
theorem C5_Descend_update_rule (layers_count : Nat) (layer_lengths : List Nat)
    (inputSize : Nat) (inputLayer : List α)
    (activated_neurons weights biases biasesJacobian : List (List α)) (learningRate : α)
    (hll : layer_lengths.length = layers_count)
    (hin : inputLayer.length = inputSize)
    (hA : TableShaped layers_count layer_lengths activated_neurons)
    (hW : WeightsShaped inputSize layers_count layer_lengths weights)
    (hB : TableShaped layers_count layer_lengths biases)
    (hJ : TableShaped layers_count layer_lengths biasesJacobian) :
    ∃ weights1 biases1, Descend layers_count layer_lengths inputSize inputLayer
        activated_neurons weights biases biasesJacobian learningRate =
          some (weights1, biases1) ∧
      (∀ row, row < layer_lengths.getD 0 0 → ∀ col, col < inputSize →
        at2 weights1 0 (row * inputSize + col) = at2 weights 0 (row * inputSize + col) -
          learningRate * at2 biasesJacobian 0 row * vget inputLayer col) ∧
      (∀ layer, 0 < layer → layer < layers_count → ∀ row, row < layer_lengths.getD layer 0 →
        ∀ col, col < layer_lengths.getD (layer - 1) 0 →
          at2 weights1 layer (row * layer_lengths.getD (layer - 1) 0 + col) =
            at2 weights layer (row * layer_lengths.getD (layer - 1) 0 + col) -
              learningRate * at2 biasesJacobian layer row *
                at2 activated_neurons (layer - 1) col) ∧
      (∀ layer, layer < layers_count → ∀ row, row < layer_lengths.getD layer 0 →
        at2 biases1 layer row = at2 biases layer row -
          learningRate * at2 biasesJacobian layer row) := by
  obtain ⟨w1, b1, hrun, -, -, hdone⟩ := Descend_spec layers_count layer_lengths inputSize
    inputLayer activated_neurons weights biases biasesJacobian learningRate hll
    (le_of_eq hin.symm) hA hW hB hJ
  refine ⟨w1, b1, hrun, ?_, ?_, ?_⟩
  · intro row hrow col hcol
    by_cases hL : 0 < layers_count
    · have h := (hdone 0 hL row hrow).1 col (by simpa [srcWidth] using hcol)
      simp only [srcWidth, srcVal, if_true] at h
      rw [h]; ring
    · have h0 : layer_lengths.getD 0 0 = 0 := by
        have : layer_lengths = [] := List.eq_nil_of_length_eq_zero (by omega)
        rw [this]; rfl
      omega
  · intro layer h0 hl row hrow col hcol
    have hne : layer ≠ 0 := by omega
    have h := (hdone layer hl row hrow).1 col (by simpa [srcWidth, hne] using hcol)
    simp only [srcWidth, srcVal, hne, if_false] at h
    rw [h]; ring
  · intro layer hl row hrow
    exact (hdone layer hl row hrow).2

theorem C5_Descend_update_rule_witness :
    ∃ weights1 biases1, Descend 2 [2, 1] 2 [1, 2] [[1, 2], [1 / 2]]
        [[1, 0, 0, 1], [1, -1]] [[0, 0], [0]] [[1, 2], [3]] (1 / 10 : ℚ) =
          some (weights1, biases1) ∧
      (∀ row, row < [2, 1].getD 0 0 → ∀ col, col < 2 →
        at2 weights1 0 (row * 2 + col) = at2 [[1, 0, 0, 1], [1, -1]] 0 (row * 2 + col) -
          (1 / 10 : ℚ) * at2 [[1, 2], [3]] 0 row * vget [1, 2] col) ∧
      (∀ layer, 0 < layer → layer < 2 → ∀ row, row < [2, 1].getD layer 0 →
        ∀ col, col < [2, 1].getD (layer - 1) 0 →
          at2 weights1 layer (row * [2, 1].getD (layer - 1) 0 + col) =
            at2 [[1, 0, 0, 1], [1, -1]] layer (row * [2, 1].getD (layer - 1) 0 + col) -
              (1 / 10 : ℚ) * at2 [[1, 2], [3]] layer row *
                at2 [[1, 2], [1 / 2]] (layer - 1) col) ∧
      (∀ layer, layer < 2 → ∀ row, row < [2, 1].getD layer 0 →
        at2 biases1 layer row = at2 [[0, 0], [0]] layer row -
          (1 / 10 : ℚ) * at2 [[1, 2], [3]] layer row) :=
  C5_Descend_update_rule 2 [2, 1] 2 [1, 2] [[1, 2], [1 / 2]]
    [[1, 0, 0, 1], [1, -1]] [[0, 0], [0]] [[1, 2], [3]] (1 / 10 : ℚ) rfl rfl
    ⟨rfl, fun i hi => by interval_cases i <;> rfl⟩
    ⟨rfl, fun i hi => by interval_cases i <;> rfl⟩
    ⟨rfl, fun i hi => by interval_cases i <;> rfl⟩
    ⟨rfl, fun i hi => by interval_cases i <;> rfl⟩

/-- C6 (counterexample): the network with layer widths `[1, 2, 1]`, weights
`[[1], [3, 1], [4, -4]]` and biases `[[0], [-3, 0], [4]]` on the input `[1]`
with target `[0]`.  `ForwardPass` leaves the hidden neuron `deactivated[1][0]`
exactly at `0`, `BackPropagate` leaves the nonzero jacobian
`[[2], [1, -1], [1/4]]`, and yet no `eps > 0` makes every rate `0 < lr < eps`
lower the cost: for every `0 < lr <= 1/4` the cost after the step is larger
than before. -/
theorem C6_kink_counterexample :
    ForwardPass Real.exp 1 [1] 3 [1, 2, 1] [[1], [3, 1], [4, -4]] [[0], [-3, 0], [4]]
      [[0], [0, 0], [0]] [[0], [0, 0], [0]] =
      some ([[1], [0, 1], [0]], [[1], [0, 1], [1 / 2]]) ∧
    BackPropagate 3 [1, 2, 1] [[1], [3, 1], [4, -4]] [[1], [0, 1], [0]]
      [[1], [0, 1], [1 / 2]] [0] [[0], [0, 0], [0]] =
      some [[2], [1, -1], [(1 / 4 : ℝ)]] ∧
    (∃ i r, i < 3 ∧ r < [1, 2, 1].getD i 0 ∧ at2 [[2], [1, -1], [(1 / 4 : ℝ)]] i r ≠ 0) ∧
    ¬ ∃ eps : ℝ, 0 < eps ∧ ∀ lr, 0 < lr → lr < eps →
      ∃ w1 b1 c0 c1,
        Descend 3 [1, 2, 1] 1 [1] [[1], [0, 1], [1 / 2]] [[1], [3, 1], [4, -4]]
          [[0], [-3, 0], [4]] [[2], [1, -1], [1 / 4]] lr = some (w1, b1) ∧
        sampleCost Real.exp 1 [1] 3 [1, 2, 1] [[1], [3, 1], [4, -4]] [[0], [-3, 0], [4]]
          [[1], [0, 1], [0]] [[1], [0, 1], [1 / 2]] [0] = some c0 ∧
        sampleCost Real.exp 1 [1] 3 [1, 2, 1] w1 b1
          [[1], [0, 1], [0]] [[1], [0, 1], [1 / 2]] [0] = some c1 ∧
        c1 < c0 := by
  refine ⟨kink_example_forward, kink_example_backward,
    ⟨0, 0, by decide, by decide, by simp [at2]⟩, ?_⟩
  rintro ⟨eps, heps, h⟩
  obtain ⟨-, -, -, hc0, hstep⟩ := training_step_model Real.exp 1 [1] 3 [1, 2, 1]
    [[1], [3, 1], [4, -4]] [[0], [-3, 0], [4]] [[0], [0, 0], [0]] [[0], [0, 0], [0]]
    [[0], [0, 0], [0]] [0] [[1], [0, 1], [0]] [[1], [0, 1], [1 / 2]] [[2], [1, -1], [1 / 4]]
    (by decide) (by decide) rfl (le_refl _)
    ⟨rfl, fun i hi => by interval_cases i <;> rfl⟩
    ⟨rfl, fun i hi => by interval_cases i <;> rfl⟩
    ⟨rfl, fun i hi => by interval_cases i <;> rfl⟩
    ⟨rfl, fun i hi => by interval_cases i <;> rfl⟩
    ⟨rfl, fun i hi => by interval_cases i <;> rfl⟩
    (le_refl _) kink_example_forward kink_example_backward
  have hlr0 : 0 < min (eps / 2) (1 / 4) := lt_min (by linarith) (by norm_num)
  have hlr1 : min (eps / 2) (1 / 4) < eps := lt_of_le_of_lt (min_le_left _ _) (by linarith)
  obtain ⟨w1, b1, c0, c1, hd, h0, h1, hlt⟩ := h _ hlr0 hlr1
  obtain ⟨w2, b2, hd2, h2⟩ := hstep (min (eps / 2) (1 / 4))
  rw [hd] at hd2
  simp only [Option.some.injEq, Prod.mk.injEq] at hd2
  obtain ⟨rfl, rfl⟩ := hd2
  rw [hc0] at h0
  rw [h2] at h1
  simp only [Option.some.injEq] at h0 h1
  have hinc := kink_example_cost_increases _ hlr0 (min_le_right _ _)
  rw [h0, h1] at hinc
  exact lt_asymm hlt hinc

/-- C6 (amended): for a well-shaped network with at least two layers, an input
and a target such that after `ForwardPass` and `BackPropagate` no hidden
neuron's deactivated value is exactly `0` and at least one jacobian component
is nonzero, there is an `eps > 0` such that for every learning rate
`0 < lr < eps` the cost obtained by `ForwardPass` on the same input after one
`Descend` step with `lr` is strictly smaller than the cost before the step
(over the reals). -/
theorem C6_small_step_decreases_cost_off_kink (inputLayerSize : Nat) (inputLayer : List ℝ)
    (layers_count : Nat) (layer_lengths : List Nat)
    (weights biases deactivated_neurons activated_neurons biasJacobian : List (List ℝ))
    (intended : List ℝ) (deact act jac : List (List ℝ))
    (hL : 2 ≤ layers_count) (hsz : layers_count < SIZE_MOD)
    (hll : layer_lengths.length = layers_count)
    (hin : inputLayer.length = inputLayerSize)
    (hW : WeightsShaped inputLayerSize layers_count layer_lengths weights)
    (hB : TableShaped layers_count layer_lengths biases)
    (hD : TableShaped layers_count layer_lengths deactivated_neurons)
    (hA : TableShaped layers_count layer_lengths activated_neurons)
    (hJ : TableShaped layers_count layer_lengths biasJacobian)
    (hT : intended.length = layer_lengths.getD (layers_count - 1) 0)
    (hfwd : ForwardPass Real.exp inputLayerSize inputLayer layers_count layer_lengths weights
      biases deactivated_neurons activated_neurons = some (deact, act))
    (hback : BackPropagate layers_count layer_lengths weights deact act intended biasJacobian =
      some jac)
    (hkink : ∀ i, i + 1 < layers_count → ∀ r, r < layer_lengths.getD i 0 → at2 deact i r ≠ 0)
    (hnz : ∃ i r, i < layers_count ∧ r < layer_lengths.getD i 0 ∧ at2 jac i r ≠ 0) :
    ∃ eps, 0 < eps ∧ ∀ lr, 0 < lr → lr < eps →
      ∃ w1 b1 c0 c1,
        Descend layers_count layer_lengths inputLayerSize inputLayer act weights biases jac lr =
          some (w1, b1) ∧
        sampleCost Real.exp inputLayerSize inputLayer layers_count layer_lengths weights biases
          deact act intended = some c0 ∧
        sampleCost Real.exp inputLayerSize inputLayer layers_count layer_lengths w1 b1
          deact act intended = some c1 ∧
        c1 < c0 := by
  obtain ⟨hz, hout, hhid, hc0, hstep⟩ := training_step_model Real.exp inputLayerSize inputLayer
    layers_count layer_lengths weights biases deactivated_neurons activated_neurons biasJacobian
    intended deact act jac hL hsz hll (le_of_eq hin.symm) hW hB hD hA hJ (le_of_eq hT.symm)
    hfwd hback
  obtain ⟨eps, heps, hdec⟩ := netCost_decreases layers_count
    (layerActivation Real.exp layers_count) (srcWidth inputLayerSize layer_lengths)
    (fun i => layer_lengths.getD i 0) (weightAt inputLayerSize layer_lengths weights)
    (at2 biases) (vget inputLayer) (vget intended) (at2 jac) (by omega)
    (fun i hi => layerActivation_hidden Real.exp layers_count i hi)
    (layerActivation_output Real.exp layers_count (by omega))
    (fun i => by simp [srcWidth])
    (fun i hi r hr => by rw [← hz i (by omega) r hr]; exact hkink i hi r hr)
    hout hhid hnz
  refine ⟨eps, heps, fun lr h0 h1 => ?_⟩
  obtain ⟨w1, b1, hd, hc1⟩ := hstep lr
  exact ⟨w1, b1, _, _, hd, hc0, hc1, hdec lr h0 h1⟩

theorem C6_small_step_decreases_cost_off_kink_witness :
    ∃ eps, 0 < eps ∧ ∀ lr, 0 < lr → lr < eps →
      ∃ w1 b1 c0 c1,
        Descend 2 [1, 1] 1 [1] [[1], [1 / 2]] [[1], [1]] [[0], [-1]] [[1 / 4], [1 / 4]] lr =
          some (w1, b1) ∧
        sampleCost Real.exp 1 [1] 2 [1, 1] [[1], [1]] [[0], [-1]] [[1], [0]] [[1], [1 / 2]] [0] =
          some c0 ∧
        sampleCost Real.exp 1 [1] 2 [1, 1] w1 b1 [[1], [0]] [[1], [1 / 2]] [0] = some c1 ∧
        c1 < c0 :=
  C6_small_step_decreases_cost_off_kink 1 [1] 2 [1, 1] [[1], [1]] [[0], [-1]] [[9], [9]]
    [[9], [9]] [[9], [9]] [0] [[1], [0]] [[1], [1 / 2]] [[1 / 4], [1 / 4]]
    (by decide) (by decide) rfl rfl
    ⟨rfl, fun i hi => by interval_cases i <;> rfl⟩
    ⟨rfl, fun i hi => by interval_cases i <;> rfl⟩
    ⟨rfl, fun i hi => by interval_cases i <;> rfl⟩
    ⟨rfl, fun i hi => by interval_cases i <;> rfl⟩
    ⟨rfl, fun i hi => by interval_cases i <;> rfl⟩
    rfl
    (by
      simp [ForwardPass, layerBlock, onBuf, rd, wr, TransformVector, AddVector, ActivateVector,
        ActivateOutputVector, Activation, forLoop, whileLt, sizeSub, SIZE_MOD, sigmoid_zero])
    (by
      simp [BackPropagate, onBuf, rd, wr, rd2, wr2, CostPrimeWrtDeactivated, ActivationPrime,
        forLoop, downLoop, sizeSub, SIZE_MOD]
      norm_num)
    (fun i hi r hr => by
      have hi0 : i = 0 := by omega
      subst hi0
      have hr0 : r = 0 := by simpa using hr
      subst hr0
      simp [at2])
    ⟨0, 0, by decide, by decide, by simp [at2]⟩

/-- C7 (counterexample): with `layers_count = 1` and all weights and biases
zero, `ForwardPass` on the one-layer tables reads `layer_lengths[1]` past the
table and yields no output; with tables that have room for the stray access
the network output `activated[layers_count - 1][0]` is `0`, not `0.5`. -/
theorem C7_single_layer_counterexample :
    (¬ ∃ st, ForwardPass Real.exp 1 [1] 1 [1] [[0]] [[0]] [[0]] [[0]] = some st ∧
        at2 st.2 (1 - 1) 0 = 1 / 2) ∧
    (¬ ∃ st, ForwardPass Real.exp 1 [1] 1 [1, 1] [[0], [0]] [[0], [0]] [[0], [0]] [[0], [0]]
        = some st ∧ at2 st.2 (1 - 1) 0 = 1 / 2) := by
  constructor
  · have h : ForwardPass Real.exp 1 [1] 1 [1] [[0]] [[0]] [[0]] [[0]] = none := by
      simp [ForwardPass, layerBlock, onBuf, rd, wr, TransformVector, AddVector, ActivateVector,
        forLoop, whileLt, sizeSub, SIZE_MOD]
    rw [h]; simp
  · have h : ForwardPass Real.exp 1 [1] 1 [1, 1] [[0], [0]] [[0], [0]] [[0], [0]] [[0], [0]] =
        some ([[0], [0]], [[0], [OutputActivation Real.exp 0]]) := by
      simp [ForwardPass, layerBlock, onBuf, rd, wr, TransformVector, AddVector, ActivateVector,
        ActivateOutputVector, Activation, forLoop, whileLt, sizeSub, SIZE_MOD]
    rw [h]; simp [at2]

/-- C7 (amended): for a network with at least two layers whose weights and
biases are all zero, `ForwardPass` returns and every output neuron holds
`OutputActivation(0) = 0.5`, for any input. -/
theorem C7_all_zero_network_outputs_half (exp : α → α) (hexp : exp 0 = 1)
    (inputLayerSize : Nat) (inputLayer : List α) (layers_count : Nat)
    (layer_lengths : List Nat)
    (weights biases deactivated_neurons activated_neurons : List (List α))
    (hL : 2 ≤ layers_count) (hsz : layers_count < SIZE_MOD)
    (hll : layer_lengths.length = layers_count)
    (hin : inputLayer.length = inputLayerSize)
    (hW : WeightsShaped inputLayerSize layers_count layer_lengths weights)
    (hB : TableShaped layers_count layer_lengths biases)
    (hD : TableShaped layers_count layer_lengths deactivated_neurons)
    (hA : TableShaped layers_count layer_lengths activated_neurons)
    (hW0 : ∀ i k, at2 weights i k = 0) (hB0 : ∀ i k, at2 biases i k = 0) :
    ∃ deact act, ForwardPass exp inputLayerSize inputLayer layers_count layer_lengths weights
        biases deactivated_neurons activated_neurons = some (deact, act) ∧
      ∀ r, r < layer_lengths.getD (layers_count - 1) 0 →
        at2 act (layers_count - 1) r = OutputActivation exp 0 ∧
        at2 act (layers_count - 1) r = 1 / 2 := by
  obtain ⟨st, hrun, hout⟩ := zero_network_output exp hexp inputLayerSize inputLayer layers_count
    layer_lengths weights biases deactivated_neurons activated_neurons hL hsz hll
    (le_of_eq hin.symm) hW hB hD hA (hW0 _) (hB0 _)
  refine ⟨st.1, st.2, hrun, fun r hr => ⟨?_, hout r hr⟩⟩
  rw [hout r hr, OutputActivation, neg_zero, hexp]
  norm_num

theorem C7_all_zero_network_outputs_half_witness :
    ∃ deact act, ForwardPass Real.exp 2 [3, 4] 2 [2, 1] [[0, 0, 0, 0], [0, 0]]
        [[0, 0], [0]] [[9, 9], [9]] [[9, 9], [9]] = some (deact, act) ∧
      ∀ r, r < [2, 1].getD (2 - 1) 0 →
        at2 act (2 - 1) r = OutputActivation Real.exp 0 ∧ at2 act (2 - 1) r = 1 / 2 :=
  C7_all_zero_network_outputs_half Real.exp Real.exp_zero 2 [3, 4] 2 [2, 1]
    [[0, 0, 0, 0], [0, 0]] [[0, 0], [0]] [[9, 9], [9]] [[9, 9], [9]]
    (by decide) (by decide) rfl rfl
    ⟨rfl, fun i hi => by interval_cases i <;> rfl⟩
    ⟨rfl, fun i hi => by interval_cases i <;> rfl⟩
    ⟨rfl, fun i hi => by interval_cases i <;> rfl⟩
    ⟨rfl, fun i hi => by interval_cases i <;> rfl⟩
    (fun i k => by
      rcases i with _ | _ | i
      · rcases k with _ | _ | _ | _ | k <;> simp [at2]
      · rcases k with _ | _ | k <;> simp [at2]
      · simp [at2])
    (fun i k => by
      rcases i with _ | _ | i
      · rcases k with _ | _ | k <;> simp [at2]
      · rcases k with _ | k <;> simp [at2]
      · simp [at2])

/-- C8: for a non-empty output vector the evaluation loop's `largestindex` is
the smallest index holding the maximum of the vector: no entry is larger
than the entry at that index and every entry before it is strictly smaller. -/
theorem C8_largestindex_first_argmax (out : List α) (hne : out ≠ []) :
    ∃ k, largestindex out.length out = some k ∧ k < out.length ∧
      (∀ j, j < out.length → vget out j ≤ vget out k) ∧
      (∀ j, j < k → vget out j < vget out k) :=
  largestindex_spec out hne

theorem C8_largestindex_first_argmax_witness :
    ∃ k, largestindex [1, 3, 3, (2 : ℚ)].length [1, 3, 3, (2 : ℚ)] = some k ∧
      k < [1, 3, 3, (2 : ℚ)].length ∧
      (∀ j, j < [1, 3, 3, (2 : ℚ)].length → vget [1, 3, 3, (2 : ℚ)] j ≤ vget [1, 3, 3, 2] k) ∧
      (∀ j, j < k → vget [1, 3, 3, (2 : ℚ)] j < vget [1, 3, 3, 2] k) :=
  C8_largestindex_first_argmax [1, 3, 3, (2 : ℚ)] (by simp)

/-- C9 (code bug): saving a network with layer widths `[3, 2]` (input width 2,
12 weights, 5 biases) succeeds, and the two width fields hold the
indeterminate content of the fresh `layer_lengths_64` block (here zeros),
not `3` and `2`: the block is written without ever being filled. -/
theorem C9_saved_width_fields_are_uninitialised :
    total_weight_count (inputWidth 1 2) 2 [3, 2] = some 12 ∧
    total_neuron_count 2 [3, 2] = some 5 ∧
    saveBlock 1 2 2 (List.replicate 12 (0 : ℚ)) (List.replicate 5 0) 12 5 true true
      (fun _ => 0) (fun _ => 12) =
      some (.saved ([Field.u16 1, Field.u64 2, Field.u64 2, Field.u64 0, Field.u64 0,
        Field.u64 8] ++ List.replicate 12 (Field.f64 0) ++ List.replicate 5 (Field.f64 0))) := by
  refine ⟨by decide, by decide, ?_⟩
  simp [saveBlock, fwriteOrFail, fwrite, inputWidth, SIZE_MOD, sizeof_double, List.range_succ]

/-- C10 (code bug, the defect of C9): a save whose seven `fwrite` calls are
complete hands the stream, in this order, a `uint16` 1, the `uint64` input
width computed as the `uint32` product `row_count * col_count`, the `uint64`
layer count `L`, the `L` cells of the fresh block `layer_lengths_64` as
`malloc` left them, the `uint64` tag 8, the
`inputWidth * W0 + sum_{i=1..L-1} W(i-1) * W(i)` weights of the arena, which
is the concatenation of the per-layer views in layer order, and the
`sum_i W(i)` biases likewise, `2 + 8 + 8 + 8 L + 8 + 8 * weights + 8 * biases`
bytes in all.  This is the file of the specification exactly when the
product `row_count * col_count` fits 32 bits and every cell of the block
happens to hold the width of its layer.  The block prints its success before
`fclose` runs, and the file holds as much of the sequence as the device took. -/
theorem C10_saved_file_layout (row_count col_count layers_count : Nat)
    (layer_lengths : List Nat) (all_weights all_biases : List α) (twc tnc : Nat)
    (fopenOk mallocOk : Bool) (heap room : Nat → Nat) (file : List (Field α))
    (hL : 1 ≤ layers_count) (hsz : layers_count < 2 ^ 61)
    (hll : layer_lengths.length = layers_count)
    (hwc : weightCount (inputWidth row_count col_count) layers_count layer_lengths < SIZE_MOD)
    (hnc : neuronCount layers_count layer_lengths < SIZE_MOD)
    (htw : total_weight_count (inputWidth row_count col_count) layers_count layer_lengths =
      some twc)
    (htn : total_neuron_count layers_count layer_lengths = some tnc)
    (hw : all_weights.length = twc) (hb : all_biases.length = tnc)
    (hsave : saveBlock row_count col_count layers_count all_weights all_biases twc tnc fopenOk
      mallocOk heap room = some (.saved file)) :
    ∃ (woffs boffs : List Nat),
      file = [Field.u16 1, Field.u64 (inputWidth row_count col_count), Field.u64 layers_count]
        ++ (List.range layers_count).map (fun i => Field.u64 (heap i % SIZE_MOD))
        ++ [Field.u64 8] ++ all_weights.map Field.f64 ++ all_biases.map Field.f64 ∧
      (file = specModelFile (row_count * col_count) layers_count layer_lengths all_weights
          all_biases ↔
        row_count * col_count < 2 ^ 32 ∧
          ∀ i, i < layers_count → heap i % SIZE_MOD = layer_lengths.getD i 0) ∧
      mallocCells layers_count sizeof_pointer = layers_count ∧
      reportsSuccess (SaveResult.saved file) = true ∧
      (∀ flushed, savedFile (SaveResult.saved file) flushed = some (file.take flushed) ∧
        (file.take flushed = file ↔ file.length ≤ flushed)) ∧
      all_weights.length =
        weightCount (inputWidth row_count col_count) layers_count layer_lengths ∧
      weightViews (inputWidth row_count col_count) layers_count layer_lengths = some woffs ∧
      all_weights = ((List.range layers_count).map (fun i =>
        viewAt all_weights (woffs.getD i 0)
          (weightSize (inputWidth row_count col_count) layer_lengths i))).flatten ∧
      all_biases.length = neuronCount layers_count layer_lengths ∧
      neuronViews layers_count layer_lengths = some boffs ∧
      all_biases = ((List.range layers_count).map (fun i =>
        viewAt all_biases (boffs.getD i 0) (layer_lengths.getD i 0))).flatten ∧
      fileBytes file = 2 + 8 + 8 + 8 * layers_count + 8 +
        8 * weightCount (inputWidth row_count col_count) layers_count layer_lengths +
        8 * neuronCount layers_count layer_lengths := by
  rw [total_weight_count_spec _ _ _ hL hll hwc] at htw
  rw [total_neuron_count_spec _ _ hll hnc] at htn
  simp only [Option.some.injEq] at htw htn
  subst htw htn
  obtain ⟨hfile, -, -⟩ := saveBlock_saved _ _ _ _ _ _ _ _ _ _ _ _ hsave
  obtain ⟨woffs, hwv, -, hwo⟩ := weightViews_spec (inputWidth row_count col_count) layers_count
    layer_lengths hL hll hwc
  obtain ⟨boffs, hbv, -, hbo⟩ := neuronViews_spec layers_count layer_lengths hll hnc
  have hlt : layers_count < SIZE_MOD := by unfold SIZE_MOD; omega
  have hmod : layers_count % SIZE_MOD = layers_count := Nat.mod_eq_of_lt hlt
  have hfile2 : file = [Field.u16 1, Field.u64 (inputWidth row_count col_count),
      Field.u64 layers_count] ++
      (List.range layers_count).map (fun i => Field.u64 (heap i % SIZE_MOD)) ++
      [Field.u64 8] ++ all_weights.map Field.f64 ++ all_biases.map Field.f64 := by
    rw [hfile, hmod, ← hw, ← hb, ← List.length_map all_weights Field.f64, List.take_length,
      ← List.length_map all_biases Field.f64, List.take_length]
    rfl
  refine ⟨woffs, boffs, hfile2, ?_, mallocCells_of_lt layers_count hsz, rfl,
    fun flushed => ⟨rfl, ?_⟩, hw, hwv, ?_, hb, hbv, ?_, ?_⟩
  · rw [hfile2]
    unfold specModelFile
    simp only [List.append_cancel_right_eq, List.cons_append, List.nil_append,
      List.cons.injEq, true_and, Field.u64.injEq]
    rw [heapWidths_eq_iff layers_count heap layer_lengths hll]
    unfold inputWidth
    constructor
    · rintro ⟨h1, h2⟩
      refine ⟨?_, h2⟩
      by_contra hge
      have := Nat.mod_lt (row_count * col_count) (show 0 < 2 ^ 32 by norm_num)
      omega
    · rintro ⟨h1, h2⟩
      exact ⟨Nat.mod_eq_of_lt h1, h2⟩
  · rw [List.take_eq_self_iff]
  · exact arena_eq_views all_weights _ layers_count woffs
      (by rw [hw, weightCount_eq_sum _ _ _ hL]) hwo
  · exact arena_eq_views all_biases _ layers_count boffs (by rw [hb]; rfl) hbo
  · rw [hfile2]
    simp only [fileBytes_append, fileBytes_f64, List.length_map,
      List.length_range, hw, hb]
    rw [show (List.range layers_count).map (fun i => (Field.u64 (heap i % SIZE_MOD) : Field α)) =
      ((List.range layers_count).map (fun i => heap i % SIZE_MOD)).map Field.u64 by
        rw [List.map_map]; rfl, fileBytes_u64]
    simp [fileBytes, Field.byteSize]

/-- C10 (witness): the network with layer widths `[3, 2]` on 1x2 images (12
weights, 5 biases) saved with a block whose cells hold 7.  The save is
complete, the file has the stated length, its two width fields hold 7 and 7,
and it is not the file of the specification, whose width fields hold 3 and
2.  When the device takes only 6 items at `fclose`, the block has printed its
success and the file holds the header alone. -/
theorem C10_saved_file_layout_witness :
    saveBlock 1 2 2 (List.replicate 12 (0 : ℚ)) (List.replicate 5 0) 12 5 true true
      (fun _ => 7) (fun _ => 12) =
      some (.saved ([Field.u16 1, Field.u64 2, Field.u64 2, Field.u64 7, Field.u64 7,
        Field.u64 8] ++ List.replicate 12 (Field.f64 0) ++ List.replicate 5 (Field.f64 0))) ∧
    ([Field.u16 1, Field.u64 2, Field.u64 2, Field.u64 7, Field.u64 7, Field.u64 8] ++
        List.replicate 12 (Field.f64 (0 : ℚ)) ++ List.replicate 5 (Field.f64 0)) ≠
      specModelFile (1 * 2) 2 [3, 2] (List.replicate 12 (0 : ℚ)) (List.replicate 5 0) ∧
    fileBytes ([Field.u16 1, Field.u64 2, Field.u64 2, Field.u64 7, Field.u64 7, Field.u64 8]
        ++ List.replicate 12 (Field.f64 (0 : ℚ)) ++ List.replicate 5 (Field.f64 0)) =
      2 + 8 + 8 + 8 * 2 + 8 + 8 * 12 + 8 * 5 ∧
    reportsSuccess (SaveResult.saved ([Field.u16 1, Field.u64 2, Field.u64 2, Field.u64 7,
      Field.u64 7, Field.u64 8] ++ List.replicate 12 (Field.f64 (0 : ℚ)) ++
      List.replicate 5 (Field.f64 0))) = true ∧
    savedFile (SaveResult.saved ([Field.u16 1, Field.u64 2, Field.u64 2, Field.u64 7,
      Field.u64 7, Field.u64 8] ++ List.replicate 12 (Field.f64 (0 : ℚ)) ++
      List.replicate 5 (Field.f64 0))) 6 =
      some [Field.u16 1, Field.u64 2, Field.u64 2, Field.u64 7, Field.u64 7, Field.u64 8] := by
  have hs : saveBlock 1 2 2 (List.replicate 12 (0 : ℚ)) (List.replicate 5 0) 12 5 true true
      (fun _ => 7) (fun _ => 12) =
      some (.saved ([Field.u16 1, Field.u64 2, Field.u64 2, Field.u64 7, Field.u64 7,
        Field.u64 8] ++ List.replicate 12 (Field.f64 0) ++ List.replicate 5 (Field.f64 0))) := by
    simp [saveBlock, fwriteOrFail, fwrite, inputWidth, SIZE_MOD, sizeof_double, List.range_succ]
  obtain ⟨woffs, boffs, -, hiff, -, hrep, hdisk, -, -, -, -, -, -, hbytes⟩ :=
    C10_saved_file_layout 1 2 2 [3, 2] (List.replicate 12 (0 : ℚ)) (List.replicate 5 0) 12 5
      true true (fun _ => 7) (fun _ => 12) _ (by decide) (by decide) rfl (by decide)
      (by decide) (by decide) (by decide) rfl rfl hs
  refine ⟨hs, fun e => ?_, hbytes, hrep, (hdisk 6).1⟩
  have h7 := (hiff.mp e).2 0 (by decide)
  exact absurd h7 (by decide)

/-- C11 (code bug, the defect of C9): a save followed by the load the
specification describes does not give the network back.  The networks with
layer widths `[2, 3]` and `[4, 1]` on input width 1 both have 8 weights and 5
biases, so with the same parameter values the save block, which never reads
`layer_lengths`, is run on the same arguments and writes the same file for
both; its two width fields hold what `malloc` left in the block (here 0 and
0).  Loading that file yields the layer widths `[0, 0]` and no weights and no
biases. -/
theorem C11_round_trip_loses_layer_widths :
    total_weight_count (inputWidth 1 1) 2 [2, 3] = some 8 ∧
    total_neuron_count 2 [2, 3] = some 5 ∧
    total_weight_count (inputWidth 1 1) 2 [4, 1] = some 8 ∧
    total_neuron_count 2 [4, 1] = some 5 ∧
    saveBlock 1 1 2 ([1, 2, 3, 4, 5, 6, 7, 8] : List ℚ) [1, 2, 3, 4, 5] 8 5 true true
      (fun _ => 0) (fun _ => 8) =
      some (.saved [.u16 1, .u64 1, .u64 2, .u64 0, .u64 0, .u64 8,
        .f64 1, .f64 2, .f64 3, .f64 4, .f64 5, .f64 6, .f64 7, .f64 8,
        .f64 1, .f64 2, .f64 3, .f64 4, .f64 5]) ∧
    (loadModel ([.u16 1, .u64 1, .u64 2, .u64 0, .u64 0, .u64 8,
        .f64 1, .f64 2, .f64 3, .f64 4, .f64 5, .f64 6, .f64 7, .f64 8,
        .f64 1, .f64 2, .f64 3, .f64 4, .f64 5] : List (Field ℚ))).map
      (fun l => (l.inputWidth, l.layer_lengths, l.all_weights, l.all_biases)) =
      some (1, [0, 0], [], []) := by
  refine ⟨by decide, by decide, by decide, by decide, by rfl, by rfl⟩

/-- C12: a file whose first four bytes are not `00 00 08 01` makes `GetLabels`
return `NULL`, a file whose first four bytes are not `00 00 08 03` makes
`GetImages` return `NULL`, and so `GetLabels` returns `NULL` on a file that
starts with the image magic `00 00 08 03`; on either byte order of the host
and whatever `malloc` does. -/
theorem C12_loaders_reject_wrong_magic (hostLittle : Bool) (bytes : List Nat)
    (mallocOk mallocData mallocRaw : Bool) (hbytes : ∀ b ∈ bytes, b < 256) :
    (bytes.take 4 ≠ [0, 0, 8, 1] → GetLabels hostLittle (some bytes) mallocOk = none) ∧
    (bytes.take 4 ≠ [0, 0, 8, 3] →
      GetImages hostLittle (some bytes) mallocData mallocRaw = none) ∧
    (bytes.take 4 = [0, 0, 8, 3] → GetLabels hostLittle (some bytes) mallocOk = none) :=
  ⟨GetLabels_rejects hostLittle bytes mallocOk hbytes,
   GetImages_rejects hostLittle bytes mallocData mallocRaw hbytes,
   fun h => GetLabels_rejects hostLittle bytes mallocOk hbytes (by rw [h]; decide)⟩

/-- C12 (witness): the 17 bytes of an image file with one 1x1 image, and the
same file with its magic changed to `00 00 08 04`. -/
theorem C12_loaders_reject_wrong_magic_witness :
    GetLabels true (some [0, 0, 8, 3, 0, 0, 0, 1, 0, 0, 0, 1, 0, 0, 0, 1, 7]) true = none ∧
    GetImages true (some [0, 0, 8, 4, 0, 0, 0, 1, 0, 0, 0, 1, 0, 0, 0, 1, 7]) true true =
      none ∧
    (GetImages true (some [0, 0, 8, 3, 0, 0, 0, 1, 0, 0, 0, 1, 0, 0, 0, 1, 7]) true
      true).isSome = true :=
  ⟨(C12_loaders_reject_wrong_magic true [0, 0, 8, 3, 0, 0, 0, 1, 0, 0, 0, 1, 0, 0, 0, 1, 7]
      true true true (by decide)).2.2 (by decide),
   (C12_loaders_reject_wrong_magic true [0, 0, 8, 4, 0, 0, 0, 1, 0, 0, 0, 1, 0, 0, 0, 1, 7]
      true true true (by decide)).2.1 (by decide),
   by decide⟩

/-- C13 (code bug): the training loop runs `min(image_count, label_count)`
samples, but the evaluation loop runs `test_image_count` samples whatever the
number of test labels: with fewer test labels than test images it reads
`test_labels[image]` past the end of the label array. -/
theorem C13_evaluation_loop_ignores_label_count (exp : α → α) (charSigned : Bool)
    (inputSize layers_count : Nat) (layer_lengths : List Nat) (test_images : List (List Nat))
    (test_labels : List Nat) (test_image_count image_count label_count : Nat)
    (net : Network α) (h : test_labels.length < test_image_count) :
    trainingCount image_count label_count = min image_count label_count ∧
    evaluationPass exp charSigned inputSize layers_count layer_lengths test_images
      test_labels test_image_count net = none := by
  refine ⟨?_, ?_⟩
  · unfold trainingCount
    split <;> omega
  · exact forLoop_none_of_step_none _ test_image_count test_labels.length _ h
      (fun s => evalSample_none exp charSigned inputSize layers_count layer_lengths
        test_images test_labels test_labels.length s (le_refl _))

/-- C13 (witness): two 1x2 test images and one test label on a network with
layer widths `[2, 1]`; with two labels the same pass returns. -/
theorem C13_evaluation_loop_ignores_label_count_witness :
    evaluationPass (fun x : ℚ => 1 + x) true 2 2 [2, 1] [[255, 0], [0, 255]] [0] 2
      ⟨[0, 0], [[0, 0], [0]], [[0, 0], [0]], [[1, 0, 0, 1], [1, -1]], [[0, 0], [0]], [0],
        [[0, 0], [0]]⟩ = none ∧
    (evaluationPass (fun x : ℚ => 1 + x) true 2 2 [2, 1] [[255, 0], [0, 255]] [0, 0] 2
      ⟨[0, 0], [[0, 0], [0]], [[0, 0], [0]], [[1, 0, 0, 1], [1, -1]], [[0, 0], [0]], [0],
        [[0, 0], [0]]⟩).isSome = true ∧
    ((trainingPass (fun x : ℚ => 1 + x) 2 2 [2, 1] [[255, 0], [0, 255]] [0] 2 1 (1 / 10)
      ⟨[0, 0], [[0, 0], [0]], [[0, 0], [0]], [[1, 0, 0, 1], [1, -1]], [[0, 0], [0]], [0],
        [[0, 0], [0]]⟩).map (fun r => r.2.length)) = some 1 :=
  ⟨(C13_evaluation_loop_ignores_label_count (fun x : ℚ => 1 + x) true 2 2 [2, 1]
      [[255, 0], [0, 255]] [0] 2 2 1
      ⟨[0, 0], [[0, 0], [0]], [[0, 0], [0]], [[1, 0, 0, 1], [1, -1]], [[0, 0], [0]], [0],
        [[0, 0], [0]]⟩ (by decide)).2,
   by rfl, by rfl⟩

/-- C14 (code bug): where `char` is a signed type, the test
`(size_t)test_labels[image] == largestindex` never counts a sample whose label
byte is in `128 .. 255`, not even when the arg-max index equals the label
byte, the index `(unsigned char)test_labels[image]` at which the target holds
`1.0`: the conversion sign-extends the byte to `2^64 - 256 + label`. -/
theorem C14_high_label_bytes_are_never_counted (label largest numRight : Nat)
    (h1 : 128 ≤ label) (h2 : label < 256) (h3 : largest < 2 ^ 63) :
    labelAsSize true label = 2 ^ 64 - 256 + label ∧
    countIfRight true label largest numRight = numRight ∧
    (countIfRight false label largest numRight = numRight + 1 ↔ largest = label % 256) := by
  have e : labelAsSize true label = SIZE_MOD - 256 + label := labelAsSize_signed_high label h1 h2
  refine ⟨e, ?_, ?_⟩
  · unfold countIfRight
    rw [e, if_neg]
    unfold SIZE_MOD; omega
  · unfold countIfRight labelAsSize
    simp only [Bool.false_and, Bool.false_eq_true, if_false]
    constructor
    · intro h
      by_contra hne
      rw [if_neg (fun h' => hne h'.symm)] at h
      omega
    · intro h
      rw [if_pos h.symm]

/-- C14 (witness): the label byte 200 with the arg-max at index 200. -/
theorem C14_high_label_bytes_are_never_counted_witness :
    countIfRight true 200 200 0 = 0 ∧ countIfRight false 200 200 0 = 1 :=
  ⟨(C14_high_label_bytes_are_never_counted 200 200 0 (by decide) (by decide) (by decide)).2.1,
   by decide⟩

/-- C15 (counterexample): with the output width 10 and the label byte 200 the
statement `intendedOutput[(unsigned char)labels[image]] = 1.0` writes outside
the 10 entries of the target vector. -/
theorem C15_label_beyond_output_width_counterexample :
    memsetZero 10 (List.replicate 10 (0 : ℚ)) = some (List.replicate 10 0) ∧
    wr (List.replicate 10 (0 : ℚ)) (200 % 256) 1 = none ∧
    setTarget 10 [200] 0 (List.replicate 10 (0 : ℚ)) = none := by
  refine ⟨by rfl, by rfl, by rfl⟩

/-- C15 (amended): for a sample whose label byte is smaller than the output
width, the two statements that build the target return, and the target
vector has the output width as its length and holds `1.0` at the index equal
to the label byte and `0.0` everywhere else. -/
theorem C15_target_is_one_hot_for_labels_below_width (len : Nat) (labels : List Nat)
    (image : Nat) (intendedOutput : List α) (hbuf : intendedOutput.length = len)
    (himage : image < labels.length) (hlabel : labels.getD image 0 % 256 < len) :
    ∃ t, setTarget len labels image intendedOutput = some t ∧ t.length = len ∧
      ∀ k, k < len → vget t k = if k = labels.getD image 0 % 256 then 1 else 0 :=
  setTarget_spec len labels image intendedOutput hbuf himage hlabel

/-- C15 (witness): the label byte 2 on an output width of 3. -/
theorem C15_target_is_one_hot_for_labels_below_width_witness :
    ∃ t, setTarget 3 [7, 2] 1 [(5 : ℚ), 6, 7] = some t ∧ t.length = 3 ∧
      ∀ k, k < 3 → vget t k = if k = [7, 2].getD 1 0 % 256 then 1 else 0 :=
  C15_target_is_one_hot_for_labels_below_width 3 [7, 2] 1 [5, 6, 7] rfl (by decide)
    (by decide)

/-- C16 (counterexample): two layer-width lists on input width 1.  For
`[2^32, 2^32]` the count `total_weight_count` is computed in `size_t` and
wraps: it is `2^32` where the two matrices have `2^32 + 2^64` entries, and the
view of layer 1 starts at offset `2^32`, the end of an arena of
`total_weight_count` entries, so none of its `2^64` entries lies in the
arena.  For `[2^61 + 1, 1]` the counts `2^62 + 2` and `2^61 + 2` do not wrap,
but the byte counts `count * sizeof(double)` handed to `malloc` do: each arena
has 2 entries, and the views span `2^62 + 2` and `2^61 + 2`. -/
theorem C16_size_overflow_counterexample :
    total_weight_count 1 2 [2 ^ 32, 2 ^ 32] = some (2 ^ 32) ∧
    weightCount 1 2 [2 ^ 32, 2 ^ 32] = 2 ^ 32 + 2 ^ 64 ∧
    weightViews 1 2 [2 ^ 32, 2 ^ 32] = some [0, 2 ^ 32] ∧
    weightSize 1 [2 ^ 32, 2 ^ 32] 1 = 2 ^ 64 ∧
    viewAt (List.replicate 5 (0 : ℚ) ++ List.replicate 3 1) 5 (2 ^ 64) = [1, 1, 1] ∧
    total_weight_count 1 2 [2 ^ 61 + 1, 1] = some (2 ^ 62 + 2) ∧
    weightCount 1 2 [2 ^ 61 + 1, 1] = 2 ^ 62 + 2 ∧
    mallocCells (2 ^ 62 + 2) sizeof_double = 2 ∧
    weightViews 1 2 [2 ^ 61 + 1, 1] = some [0, 2 ^ 61 + 1] ∧
    total_neuron_count 2 [2 ^ 61 + 1, 1] = some (2 ^ 61 + 2) ∧
    neuronCount 2 [2 ^ 61 + 1, 1] = 2 ^ 61 + 2 ∧
    mallocCells (2 ^ 61 + 2) sizeof_double = 2 ∧
    neuronViews 2 [2 ^ 61 + 1, 1] = some [0, 2 ^ 61 + 1] := by
  refine ⟨by rfl, by rfl, by rfl, by rfl, by rfl, by rfl, by rfl, by rfl, by rfl, by rfl,
    by rfl, by rfl, by rfl⟩

/-- C16 (amended): for at least 2 layers whose number `L`, weight count and
neuron count are below `2^61`, the counts `main` computes are the weight count
and the neuron count, the blocks `malloc` returns for the pointer tables and
the arenas hold `L` pointers and that many entries, and the offsets `main`
gives the per-layer views are those of consecutive slices that exactly cover
the arena.  The weight view of layer 0 starts at 0 and has `W0 * n` entries,
the weight view of layer `i >= 1` starts at
`n * W0 + sum_{k=1..i-1} W(k-1) * W(k)` and has `W(i) * W(i-1)` entries, each
view starts where the one before ends, the last ends at `total_weight_count`,
and the allocated arena is the concatenation of its views; the same for the
views of the neuron arenas (biases, activated, deactivated, jacobians), which
start at `sum_{k<i} W(k)`, have `W(i)` entries and end at
`total_neuron_count`. -/
theorem C16_views_tile_the_arenas (n layers_count : Nat) (layer_lengths : List Nat)
    (hL : 2 ≤ layers_count) (hll : layer_lengths.length = layers_count)
    (hLs : layers_count < 2 ^ 61)
    (hwc : weightCount n layers_count layer_lengths < 2 ^ 61)
    (hnc : neuronCount layers_count layer_lengths < 2 ^ 61) :
    ∃ woffs noffs : List Nat,
      weightViews n layers_count layer_lengths = some woffs ∧
      neuronViews layers_count layer_lengths = some noffs ∧
      woffs.length = layers_count ∧ noffs.length = layers_count ∧
      mallocCells layers_count sizeof_pointer = layers_count ∧
      total_weight_count n layers_count layer_lengths =
        some (weightCount n layers_count layer_lengths) ∧
      total_neuron_count layers_count layer_lengths =
        some (neuronCount layers_count layer_lengths) ∧
      mallocCells (weightCount n layers_count layer_lengths) sizeof_double =
        weightCount n layers_count layer_lengths ∧
      mallocCells (neuronCount layers_count layer_lengths) sizeof_double =
        neuronCount layers_count layer_lengths ∧
      woffs.getD 0 0 = 0 ∧
      weightSize n layer_lengths 0 = layer_lengths.getD 0 0 * n ∧
      (∀ i, 1 ≤ i → i < layers_count →
        woffs.getD i 0 = n * layer_lengths.getD 0 0 +
          ∑ k ∈ Finset.Ico 1 i, layer_lengths.getD (k - 1) 0 * layer_lengths.getD k 0 ∧
        weightSize n layer_lengths i =
          layer_lengths.getD i 0 * layer_lengths.getD (i - 1) 0) ∧
      (∀ i, i + 1 < layers_count →
        woffs.getD (i + 1) 0 = woffs.getD i 0 + weightSize n layer_lengths i) ∧
      woffs.getD (layers_count - 1) 0 + weightSize n layer_lengths (layers_count - 1) =
        weightCount n layers_count layer_lengths ∧
      (∀ i, i < layers_count →
        noffs.getD i 0 = ∑ k ∈ Finset.range i, layer_lengths.getD k 0) ∧
      (∀ i, i + 1 < layers_count →
        noffs.getD (i + 1) 0 = noffs.getD i 0 + layer_lengths.getD i 0) ∧
      noffs.getD (layers_count - 1) 0 + layer_lengths.getD (layers_count - 1) 0 =
        neuronCount layers_count layer_lengths ∧
      (∀ arena : List α,
        arena.length = mallocCells (weightCount n layers_count layer_lengths) sizeof_double →
        (∀ i, i < layers_count →
          (viewAt arena (woffs.getD i 0) (weightSize n layer_lengths i)).length =
            weightSize n layer_lengths i) ∧
        arena = ((List.range layers_count).map (fun i =>
          viewAt arena (woffs.getD i 0) (weightSize n layer_lengths i))).flatten) ∧
      (∀ arena : List α,
        arena.length = mallocCells (neuronCount layers_count layer_lengths) sizeof_double →
        (∀ i, i < layers_count →
          (viewAt arena (noffs.getD i 0) (layer_lengths.getD i 0)).length =
            layer_lengths.getD i 0) ∧
        arena = ((List.range layers_count).map (fun i =>
          viewAt arena (noffs.getD i 0) (layer_lengths.getD i 0))).flatten) := by
  have hL1 : 1 ≤ layers_count := by omega
  have hwc1 : weightCount n layers_count layer_lengths < SIZE_MOD := by
    unfold SIZE_MOD; omega
  have hnc1 : neuronCount layers_count layer_lengths < SIZE_MOD := by
    unfold SIZE_MOD; omega
  have hmw := mallocCells_of_lt _ hwc
  have hmn := mallocCells_of_lt _ hnc
  obtain ⟨woffs, hw, hwl, hwo⟩ := weightViews_spec n layers_count layer_lengths hL1 hll hwc1
  obtain ⟨noffs, hn, hnl, hno⟩ := neuronViews_spec layers_count layer_lengths hll hnc1
  have hwsum := weightCount_eq_sum n layers_count layer_lengths hL1
  have hlast : layers_count - 1 + 1 = layers_count := by omega
  refine ⟨woffs, noffs, hw, hn, hwl, hnl, mallocCells_of_lt _ hLs,
    total_weight_count_spec n layers_count layer_lengths hL1 hll hwc1,
    total_neuron_count_spec layers_count layer_lengths hll hnc1, hmw, hmn, ?_,
    weightSize_zero n layer_lengths, ?_, ?_, ?_, hno, ?_, ?_, ?_, ?_⟩
  · rw [hwo 0 (by omega)]; simp
  · intro i hi1 hi
    exact ⟨by rw [hwo i hi, sum_weightSize_eq n layer_lengths i hi1],
      weightSize_succ n layer_lengths i hi1⟩
  · intro i hi
    rw [hwo (i + 1) hi, hwo i (by omega), Finset.sum_range_succ]
  · rw [hwo (layers_count - 1) (by omega), hwsum, ← Finset.sum_range_succ, hlast]
  · intro i hi
    rw [hno (i + 1) hi, hno i (by omega), Finset.sum_range_succ]
  · rw [hno (layers_count - 1) (by omega)]
    unfold neuronCount
    rw [← Finset.sum_range_succ, hlast]
  · intro arena hlen
    have hlen : arena.length = weightCount n layers_count layer_lengths := by
      rw [hlen]; exact hmw
    refine ⟨fun i hi => viewAt_length arena _ _ ?_, ?_⟩
    · rw [hlen, hwsum, hwo i hi, ← Finset.sum_range_succ]
      exact sum_range_le_of_le _ (by omega)
    · exact arena_eq_views arena (weightSize n layer_lengths) layers_count woffs
        (by rw [hlen, hwsum]) hwo
  · intro arena hlen
    have hlen : arena.length = neuronCount layers_count layer_lengths := by
      rw [hlen]; exact hmn
    refine ⟨fun i hi => viewAt_length arena _ _ ?_, ?_⟩
    · rw [hlen, hno i hi]
      unfold neuronCount
      rw [← Finset.sum_range_succ]
      exact sum_range_le_of_le _ (by omega)
    · exact arena_eq_views arena (fun i => layer_lengths.getD i 0) layers_count noffs
        (by rw [hlen]; rfl) hno

/-- C16 (witness): the layer widths `[3, 2]` on input width 2, whose weight
arena has 12 entries and whose neuron arenas have 5. -/
theorem C16_views_tile_the_arenas_witness :
    ∃ woffs noffs : List Nat,
      weightViews 2 2 [3, 2] = some woffs ∧ neuronViews 2 [3, 2] = some noffs ∧
      total_weight_count 2 2 [3, 2] = some (weightCount 2 2 [3, 2]) ∧
      total_neuron_count 2 [3, 2] = some (neuronCount 2 [3, 2]) ∧
      mallocCells (weightCount 2 2 [3, 2]) sizeof_double = weightCount 2 2 [3, 2] ∧
      mallocCells (neuronCount 2 [3, 2]) sizeof_double = neuronCount 2 [3, 2] ∧
      woffs.getD 0 0 = 0 ∧
      woffs.getD (2 - 1) 0 + weightSize 2 [3, 2] (2 - 1) = weightCount 2 2 [3, 2] ∧
      noffs.getD (2 - 1) 0 + [3, 2].getD (2 - 1) 0 = neuronCount 2 [3, 2] ∧
      (List.replicate 12 (0 : ℚ) = ((List.range 2).map (fun i =>
        viewAt (List.replicate 12 (0 : ℚ)) (woffs.getD i 0)
          (weightSize 2 [3, 2] i))).flatten) := by
  obtain ⟨woffs, noffs, hw, hn, -, -, -, htw, htn, hmw, hmn, h0, -, -, -, hwe, -, -, hne,
      hwa, -⟩ :=
    C16_views_tile_the_arenas (α := ℚ) 2 2 [3, 2] (by decide) rfl (by decide) (by decide)
      (by decide)
  exact ⟨woffs, noffs, hw, hn, htw, htn, hmw, hmn, h0, hwe, hne,
    (hwa (List.replicate 12 0) (by decide)).2⟩

/-- C17: on a network of at least 2 layers, `ForwardPass` leaves every memory
cell outside the views `deactivated_neurons[i]` and `activated_neurons[i]`
(`i < layers_count`, `layer_lengths[i]` cells each) as it was, and
`BackPropagate` leaves every cell outside the views `biasJacobian[i]` as it
was; so every weight and bias, the input and the target (and, for
`BackPropagate`, every deactivated and activated value), all stored outside
these views, are the same after the call as before. -/
theorem C17_passes_write_only_their_buffers (exp : α → α)
    (inputLayerSize inputLayer layers_count : Nat)
    (layer_lengths weights biases deactivated_neurons activated_neurons : Nat → Nat)
    (intended : Nat) (biasJacobian : Nat → Nat) (m : Nat → α)
    (hL : 2 ≤ layers_count) (hsz : layers_count < SIZE_MOD) :
    (∀ a, (∀ i, i < layers_count →
          ¬ inView (deactivated_neurons i) (layer_lengths i) a ∧
          ¬ inView (activated_neurons i) (layer_lengths i) a) →
        ForwardPassMem exp inputLayerSize inputLayer layers_count layer_lengths weights
          biases deactivated_neurons activated_neurons m a = m a) ∧
    (∀ a, (∀ i, i < layers_count → ¬ inView (biasJacobian i) (layer_lengths i) a) →
        BackPropagateMem layers_count layer_lengths weights deactivated_neurons
          activated_neurons intended biasJacobian m a = m a) := by
  refine ⟨fun a ha => ?_, fun a ha => ?_⟩
  · apply ForwardPassMem_frame exp inputLayerSize inputLayer layers_count layer_lengths
      weights biases deactivated_neurons activated_neurons m hL hsz a
    rintro ⟨i, hi, h | h⟩
    · exact (ha i hi).1 h
    · exact (ha i hi).2 h
  · apply BackPropagateMem_frame layers_count layer_lengths weights deactivated_neurons
      activated_neurons intended biasJacobian m (by omega) hsz a
    rintro ⟨i, hi, h⟩
    exact ha i hi h

/-- C17 (witness): layer widths `[2, 1]` on 2 inputs, with the input at cells
0-1, the weights at 2-7, the biases at 8-10, the deactivated values at 11-13,
the activated values at 14-16, the target at 17 and the jacobians at 18-20;
the weight at cell 5 keeps its value through both passes. -/
theorem C17_passes_write_only_their_buffers_witness :
    ForwardPassMem (fun x : ℚ => 1 + x) 2 0 2 (fun i => [2, 1].getD i 0)
        (fun i => [2, 6].getD i 0) (fun i => [8, 10].getD i 0) (fun i => [11, 13].getD i 0)
        (fun i => [14, 16].getD i 0) (fun a => (a : ℚ)) 5 = 5 ∧
    BackPropagateMem 2 (fun i => [2, 1].getD i 0) (fun i => [2, 6].getD i 0)
        (fun i => [11, 13].getD i 0) (fun i => [14, 16].getD i 0) 17
        (fun i => [18, 20].getD i 0) (fun a => (a : ℚ)) 5 = 5 := by
  obtain ⟨h1, h2⟩ := C17_passes_write_only_their_buffers (fun x : ℚ => 1 + x) 2 0 2
    (fun i => [2, 1].getD i 0) (fun i => [2, 6].getD i 0) (fun i => [8, 10].getD i 0)
    (fun i => [11, 13].getD i 0) (fun i => [14, 16].getD i 0) 17
    (fun i => [18, 20].getD i 0) (fun a => (a : ℚ)) (by decide) (by decide)
  refine ⟨h1 5 (fun i hi => ?_), h2 5 (fun i hi => ?_)⟩
  · interval_cases i <;> simp [inView]
  · interval_cases i <;> simp [inView]

/-- C18: when the epoch loop reaches epoch `n` (`1 <= n`), whatever lines were
typed at the save prompts of the earlier epochs and however their save blocks
ended, the variable `learningRate` holds `r * m^(n-1)` for the initial rate
`r` and the multiplier `m`.  The body of epoch `n` runs the training pass from
that state, and for every sample `image` of the pass the call of `Descend` is
the one with the rate argument `r * m^(n-1)`: it takes the weights and biases
as the pass left them after `image` samples (`before`, the pass with both
counts `image`) and its result is the weights and biases after `image + 1`
samples (`after`); the weights and biases the epoch ends with are those of
the last call, and the loop goes to epoch `n + 1` with `r * m^n`. -/
theorem C18_learning_rate_in_epoch (s : Setup α) (attempts : Nat → List SaveAttempt)
    (n : Nat) (r : α) (net : Network α) (st : EpochState α) (hn : 1 ≤ n)
    (hmax : n < SIZE_MOD) (h : epochsBefore s attempts n r net = some st) :
    st.learningRate = r * s.learningRateMultiplier ^ (n - 1) ∧
    (n < SIZE_MOD - 1 →
      epochsBefore s attempts (n + 1) r net = epochBody s attempts n st) ∧
    (∀ st1, epochBody s attempts n st = some st1 →
      st1.learningRate = r * s.learningRateMultiplier ^ n ∧
      ∃ tr,
        trainingPass s.exp (inputWidth s.row_count s.col_count) s.layers_count
          s.layer_lengths s.images s.labels s.image_count s.label_count
          (r * s.learningRateMultiplier ^ (n - 1)) st.net = some tr ∧
        st1.net.weights = tr.1.weights ∧ st1.net.biases = tr.1.biases ∧
        trainingPass s.exp (inputWidth s.row_count s.col_count) s.layers_count
          s.layer_lengths s.images s.labels (trainingCount s.image_count s.label_count)
          (trainingCount s.image_count s.label_count)
          (r * s.learningRateMultiplier ^ (n - 1)) st.net = some tr ∧
        ∀ image, image < trainingCount s.image_count s.label_count →
          ∃ before after inp fw lenOut target jac,
            trainingPass s.exp (inputWidth s.row_count s.col_count) s.layers_count
              s.layer_lengths s.images s.labels image image
              (r * s.learningRateMultiplier ^ (n - 1)) st.net = some before ∧
            trainingPass s.exp (inputWidth s.row_count s.col_count) s.layers_count
              s.layer_lengths s.images s.labels (image + 1) (image + 1)
              (r * s.learningRateMultiplier ^ (n - 1)) st.net = some after ∧
            setInputLayer (inputWidth s.row_count s.col_count) s.images image
              before.1.inputLayer = some inp ∧
            ForwardPass s.exp (inputWidth s.row_count s.col_count) inp s.layers_count
              s.layer_lengths before.1.weights before.1.biases before.1.deactivated_neurons
              before.1.activated_neurons = some fw ∧
            rd s.layer_lengths (sizeSub s.layers_count 1) = some lenOut ∧
            setTarget lenOut s.labels image before.1.intendedOutput = some target ∧
            BackPropagate s.layers_count s.layer_lengths before.1.weights fw.1 fw.2 target
              before.1.biasJacobians = some jac ∧
            Descend s.layers_count s.layer_lengths (inputWidth s.row_count s.col_count) inp
              fw.2 before.1.weights before.1.biases jac
              (r * s.learningRateMultiplier ^ (n - 1)) =
              some (after.1.weights, after.1.biases)) := by
  obtain ⟨h1, -⟩ := epochsBefore_spec s attempts n r net st hn hmax h
  refine ⟨h1, fun hlt => ?_, fun st1 hst1 => ?_⟩
  · rw [epochsBefore_succ s attempts n r net hn hlt, h]
    rfl
  · obtain ⟨hr, tr, htr, hw, hb⟩ := epochBody_training s attempts n st st1 hst1
    rw [h1] at htr
    obtain ⟨hfull, hsample⟩ := trainingPass_sample _ _ _ _ _ _ _ _ _ _ tr htr
    refine ⟨?_, tr, htr, hw, hb, hfull, hsample⟩
    rw [hr, h1, mul_assoc, ← pow_succ]
    congr 2
    omega

/-- C18 (witness): a network with layer widths `[2, 1]` on two 1x2 training
images, rate `1/10` and multiplier `1/2`; at the prompt of epoch 1 a save
fails at `fopen`, a second one fails at its first `fwrite`, a third one is
complete.  Epoch 2 is reached with the rate `1/10 * 1/2`, its two calls of
`Descend` take that rate, and epoch 3 is reached with `1/10 * (1/2)^2`. -/
theorem C18_learning_rate_in_epoch_witness :
    ∃ st st1 : EpochState ℚ,
      epochsBefore
        ⟨fun x => 1 + x, true, 1, 2, 2, [2, 1], [[255, 0], [0, 255]], [0, 0], 2, 2,
          [[255, 0]], [0], 1, 6, 3, 1 / 2⟩
        (fun e => if e = 1 then
          [⟨[97], false, true, fun _ => 0, fun _ => 6⟩,
           ⟨[97], true, true, fun _ => 0, fun _ => 0⟩,
           ⟨[97], true, true, fun _ => 0, fun _ => 6⟩] else [])
        2 (1 / 10)
        ⟨[0, 0], [[0, 0], [0]], [[0, 0], [0]], [[1, 0, 0, 1], [1, -1]], [[0, 0], [0]], [0],
          [[0, 0], [0]]⟩ = some st ∧
      epochsBefore
        ⟨fun x => 1 + x, true, 1, 2, 2, [2, 1], [[255, 0], [0, 255]], [0, 0], 2, 2,
          [[255, 0]], [0], 1, 6, 3, 1 / 2⟩
        (fun e => if e = 1 then
          [⟨[97], false, true, fun _ => 0, fun _ => 6⟩,
           ⟨[97], true, true, fun _ => 0, fun _ => 0⟩,
           ⟨[97], true, true, fun _ => 0, fun _ => 6⟩] else [])
        3 (1 / 10)
        ⟨[0, 0], [[0, 0], [0]], [[0, 0], [0]], [[1, 0, 0, 1], [1, -1]], [[0, 0], [0]], [0],
          [[0, 0], [0]]⟩ = some st1 ∧
      st.learningRate = 1 / 10 * (1 / 2) ^ (2 - 1) ∧
      st1.learningRate = 1 / 10 * (1 / 2) ^ 2 ∧
      ∀ image, image < 2 →
        ∃ (before after : Network ℚ × List ℚ) (inp : List ℚ)
            (fw : List (List ℚ) × List (List ℚ)) (jac : List (List ℚ)),
          trainingPass (fun x => 1 + x) (inputWidth 1 2) 2 [2, 1] [[255, 0], [0, 255]] [0, 0]
            image image (1 / 10 * (1 / 2) ^ (2 - 1)) st.net = some before ∧
          trainingPass (fun x => 1 + x) (inputWidth 1 2) 2 [2, 1] [[255, 0], [0, 255]] [0, 0]
            (image + 1) (image + 1) (1 / 10 * (1 / 2) ^ (2 - 1)) st.net = some after ∧
          Descend 2 [2, 1] (inputWidth 1 2) inp fw.2 before.1.weights before.1.biases jac
            (1 / 10 * (1 / 2) ^ (2 - 1)) = some (after.1.weights, after.1.biases) := by
  have h : (epochsBefore
        (⟨fun x => 1 + x, true, 1, 2, 2, [2, 1], [[255, 0], [0, 255]], [0, 0], 2, 2,
          [[255, 0]], [0], 1, 6, 3, 1 / 2⟩ : Setup ℚ)
        (fun e => if e = 1 then
          [⟨[97], false, true, fun _ => 0, fun _ => 6⟩,
           ⟨[97], true, true, fun _ => 0, fun _ => 0⟩,
           ⟨[97], true, true, fun _ => 0, fun _ => 6⟩] else [])
        2 (1 / 10)
        ⟨[0, 0], [[0, 0], [0]], [[0, 0], [0]], [[1, 0, 0, 1], [1, -1]], [[0, 0], [0]], [0],
          [[0, 0], [0]]⟩).map (fun st => st.descendRates.map Prod.fst) =
      some [1, 1] := by rfl
  have h3 : (epochsBefore
        (⟨fun x => 1 + x, true, 1, 2, 2, [2, 1], [[255, 0], [0, 255]], [0, 0], 2, 2,
          [[255, 0]], [0], 1, 6, 3, 1 / 2⟩ : Setup ℚ)
        (fun e => if e = 1 then
          [⟨[97], false, true, fun _ => 0, fun _ => 6⟩,
           ⟨[97], true, true, fun _ => 0, fun _ => 0⟩,
           ⟨[97], true, true, fun _ => 0, fun _ => 6⟩] else [])
        3 (1 / 10)
        ⟨[0, 0], [[0, 0], [0]], [[0, 0], [0]], [[1, 0, 0, 1], [1, -1]], [[0, 0], [0]], [0],
          [[0, 0], [0]]⟩).map (fun st => st.descendRates.map Prod.fst) =
      some [2, 2, 1, 1] := by rfl
  obtain ⟨st, hst, -⟩ := Option.map_eq_some'.mp h
  obtain ⟨st1, hst1, -⟩ := Option.map_eq_some'.mp h3
  obtain ⟨h1, h2, h4⟩ := C18_learning_rate_in_epoch _ _ 2 (1 / 10) _ st (by decide)
    (by decide) hst
  obtain ⟨h5, tr, -, -, -, -, h6⟩ := h4 st1 ((h2 (by decide)).symm.trans hst1)
  refine ⟨st, st1, hst, hst1, h1, h5, fun image hi => ?_⟩
  obtain ⟨before, after, inp, fw, -, -, jac, a1, a2, -, -, -, -, -, a3⟩ := h6 image hi
  exact ⟨before, after, inp, fw, jac, a1, a2, a3⟩

/-- C19: on well-shaped tables the initialisation of `main` returns; afterwards
every bias is `0` and every weight of layer `i` lies between
`-0.5 * sqrt(2 / fanIn)` and `0.5 * sqrt(2 / fanIn)`, where `fanIn` is the input
width for layer 0 and the width of layer `i - 1` otherwise; for every sequence
of values of `rand()` in `0 .. RAND_MAX`.  Over the reals with the real square
root. -/
theorem C19_initial_weights_and_biases (RAND_MAX : Nat) (rand : Nat → Nat)
    (row_count col_count layers_count : Nat) (layer_lengths : List Nat)
    (weights biases : List (List ℝ)) (hL : 1 ≤ layers_count)
    (hll : layer_lengths.length = layers_count)
    (hW : WeightsShaped (inputWidth row_count col_count) layers_count layer_lengths weights)
    (hB : TableShaped layers_count layer_lengths biases)
    (hsz : ∀ i, i < layers_count →
      weightSize (inputWidth row_count col_count) layer_lengths i < SIZE_MOD)
    (hpos : 0 < RAND_MAX) (hrand : ∀ k, rand k ≤ RAND_MAX) :
    ∃ W1 k B1,
      initWeights Real.sqrt RAND_MAX rand row_count col_count layers_count layer_lengths
        weights = some (W1, k) ∧
      initBiases layers_count layer_lengths biases = some B1 ∧
      WeightsShaped (inputWidth row_count col_count) layers_count layer_lengths W1 ∧
      TableShaped layers_count layer_lengths B1 ∧
      (∀ i, i < layers_count →
        ∀ j, j < weightSize (inputWidth row_count col_count) layer_lengths i →
          -(1 / 2) * Real.sqrt
              (2 / (srcWidth (inputWidth row_count col_count) layer_lengths i : ℝ)) ≤
            at2 W1 i j ∧
          at2 W1 i j ≤ 1 / 2 * Real.sqrt
              (2 / (srcWidth (inputWidth row_count col_count) layer_lengths i : ℝ))) ∧
      (∀ i, i < layers_count → ∀ r, r < layer_lengths.getD i 0 → at2 B1 i r = 0) := by
  obtain ⟨W1, k, hW1, hshape, hval⟩ := initWeights_spec Real.sqrt RAND_MAX rand row_count
    col_count layers_count layer_lengths weights hL hll hW hsz
  obtain ⟨B1, hB1, hBshape, hzero⟩ := initBiases_spec layers_count layer_lengths biases hll hB
  refine ⟨W1, k, B1, hW1, hB1, hshape, hBshape, fun i hi j hj => ?_, hzero⟩
  obtain ⟨c, hc⟩ := hval i hi j hj
  rw [hc]
  exact heWeight_bounds Real.sqrt Real.sqrt_nonneg RAND_MAX _ (rand c) hpos (hrand c)

/-- C19 (witness): layer widths `[2, 1]` on 1x2 images, `RAND_MAX = 4` and the
`k`-th call of `rand()` returning `k mod 5`. -/
theorem C19_initial_weights_and_biases_witness :
    ∃ W1 k B1,
      initWeights Real.sqrt 4 (fun k => k % 5) 1 2 2 [2, 1] [[9, 9, 9, 9], [9, 9]] =
        some (W1, k) ∧
      initBiases 2 [2, 1] [[(9 : ℝ), 9], [9]] = some B1 ∧
      WeightsShaped (inputWidth 1 2) 2 [2, 1] W1 ∧
      TableShaped 2 [2, 1] B1 ∧
      (∀ i, i < 2 → ∀ j, j < weightSize (inputWidth 1 2) [2, 1] i →
          -(1 / 2) * Real.sqrt (2 / (srcWidth (inputWidth 1 2) [2, 1] i : ℝ)) ≤ at2 W1 i j ∧
          at2 W1 i j ≤ 1 / 2 * Real.sqrt (2 / (srcWidth (inputWidth 1 2) [2, 1] i : ℝ))) ∧
      (∀ i, i < 2 → ∀ r, r < [2, 1].getD i 0 → at2 B1 i r = 0) :=
  C19_initial_weights_and_biases 4 (fun k => k % 5) 1 2 2 [2, 1] [[9, 9, 9, 9], [9, 9]]
    [[9, 9], [9]] (by decide) rfl
    ⟨rfl, fun i hi => by interval_cases i <;> rfl⟩
    ⟨rfl, fun i hi => by interval_cases i <;> rfl⟩
    (fun i hi => by interval_cases i <;> decide) (by decide)
    (fun k => Nat.le_of_lt_succ (Nat.mod_lt k (by decide)))

/-- C21: the integer loops (layer count, layer widths) never wrap.  On a value
`n <= SIZE_MAX` a digit `d` gives `10 * n + d` exactly when
`10 * n + d <= SIZE_MAX` and leaves `n` otherwise, and any other character
leaves `n`; so after any characters the value is at most `SIZE_MAX`, the
value is the one read from the digits alone, and a line of decimal digits
whose value is at most `SIZE_MAX` gives exactly that value.  The line loop
applies this to every character before the newline, for the layer count as
for `layerLengths[i]`. -/
theorem C21_integer_accumulation_saturates :
    (∀ n c, n ≤ SIZE_MAX →
      accumulateSize n c =
        if isDigit c = true ∧ 10 * n + (c - 48) ≤ SIZE_MAX then (true, 10 * n + (c - 48))
        else (false, n)) ∧
    (∀ line n, n ≤ SIZE_MAX → parseSize line n ≤ SIZE_MAX) ∧
    (∀ line n, n ≤ SIZE_MAX → parseSize line n = parseSize (line.filter isDigit) n) ∧
    (∀ ds : List Nat, (∀ d ∈ ds, d < 10) → decimalValue ds ≤ SIZE_MAX →
      parseSize (ds.map (· + 48)) 0 = decimalValue ds) ∧
    (∀ (line rest : List Nat) (s : Bool × Nat), 10 ∉ line →
      (fgetcLine (fun (s : Bool × Nat) c =>
        (s.1 || (accumulateSize s.2 c).1, (accumulateSize s.2 c).2))
        (line ++ 10 :: rest) s).1.2 = parseSize line s.2) ∧
    (∀ (line rest block : List Nat) (i : Nat), 10 ∉ line → i < block.length →
      (fgetcLine (fun (b : List Nat) c => b.set i (accumulateSize (b.getD i 0) c).2)
        (line ++ 10 :: rest) block).1.getD i 0 = parseSize line (block.getD i 0)) := by
  refine ⟨accumulateSize_spec, parseSize_le, parseSize_filter, fun ds hds hfit => ?_,
    fun line rest s h => ?_, fun line rest block i h hi => ?_⟩
  · have h := parseSize_digits_from ds 0 hds (by simpa using hfit)
    simpa using h
  · rw [fgetcLine_newline _ line rest s h]
    exact foldl_count_snd line s
  · rw [fgetcLine_newline _ line rest block h]
    exact foldl_block_getD line i block hi

/-- C21 (witness): the line `18446744073709551615` gives `SIZE_MAX`, and the
line `18446744073709551616`, one more, gives `1844674407370955161`: its last
digit does not fit and is dropped. -/
theorem C21_integer_accumulation_saturates_witness :
    parseSize ([1, 8, 4, 4, 6, 7, 4, 4, 0, 7, 3, 7, 0, 9, 5, 5, 1, 6, 1, 5].map (· + 48)) 0 =
      decimalValue [1, 8, 4, 4, 6, 7, 4, 4, 0, 7, 3, 7, 0, 9, 5, 5, 1, 6, 1, 5] ∧
    decimalValue [1, 8, 4, 4, 6, 7, 4, 4, 0, 7, 3, 7, 0, 9, 5, 5, 1, 6, 1, 5] = SIZE_MAX ∧
    parseSize ([1, 8, 4, 4, 6, 7, 4, 4, 0, 7, 3, 7, 0, 9, 5, 5, 1, 6, 1, 6].map (· + 48)) 0 =
      1844674407370955161 :=
  ⟨C21_integer_accumulation_saturates.2.2.2.1
      [1, 8, 4, 4, 6, 7, 4, 4, 0, 7, 3, 7, 0, 9, 5, 5, 1, 6, 1, 5] (by decide) (by decide),
    by decide, by decide⟩

/-- C22: over the reals, the loop that reads a `double` into a variable holding
`0.0` gives, on the digits `d1 ... dm`, a `'.'` and the digits `f1 ... fn`
(`m, n >= 0`), the value `sum_i d_i * 10^(m-i) + sum_j f_j * 10^(-j)`, and on
the digits `d1 ... dm` alone their integer value; the line loop applies the
body to every character before the newline. -/
theorem C22_decimal_line_value (ds fs : List Nat) (hds : ∀ d ∈ ds, d < 10)
    (hfs : ∀ d ∈ fs, d < 10) :
    (parseDouble (ds.map (· + 48) ++ 46 :: fs.map (· + 48)) : ℝ) =
      ∑ i ∈ Finset.range ds.length, (ds.getD i 0 : ℝ) * 10 ^ (ds.length - 1 - i) +
        ∑ j ∈ Finset.range fs.length, (fs.getD j 0 : ℝ) / 10 ^ (j + 1) ∧
    (parseDouble (ds.map (· + 48)) : ℝ) =
      ∑ i ∈ Finset.range ds.length, (ds.getD i 0 : ℝ) * 10 ^ (ds.length - 1 - i) ∧
    (∀ (line rest : List Nat) (st : DoubleState ℝ), 10 ∉ line →
      fgetcLine accumulateDouble (line ++ 10 :: rest) st =
        (line.foldl accumulateDouble st, rest, false)) := by
  have hint := foldl_int_digits (α := ℝ) ds ⟨false, 0, 0⟩ hds rfl
  have hval : ((decimalValue ds : Nat) : ℝ) =
      ∑ i ∈ Finset.range ds.length, (ds.getD i 0 : ℝ) * 10 ^ (ds.length - 1 - i) := by
    unfold decimalValue
    push_cast
    rfl
  refine ⟨?_, ?_, fun line rest st h => fgetcLine_newline accumulateDouble line rest st h⟩
  · unfold parseDouble
    rw [foldl_after_dot _ fs _ hfs, hint.1, ← hval]
    simp [fractionValue]
  · unfold parseDouble
    rw [hint.1, ← hval]
    simp

/-- C22 (witness): the line `12.34`. -/
theorem C22_decimal_line_value_witness :
    (parseDouble ([1, 2].map (· + 48) ++ 46 :: [3, 4].map (· + 48)) : ℝ) =
      ∑ i ∈ Finset.range [1, 2].length, (([1, 2] : List Nat).getD i 0 : ℝ) *
          10 ^ ([1, 2].length - 1 - i) +
        ∑ j ∈ Finset.range [3, 4].length, (([3, 4] : List Nat).getD j 0 : ℝ) / 10 ^ (j + 1) :=
  (C22_decimal_line_value [1, 2] [3, 4] (by decide) (by decide)).1

/-- C23 (code bug, the defect of C28): for a configuration whose first three
lines end with a newline and whose layer count is `n > 0`, with `k` newlines
after the count line.  When `k < n - 1`, so that the end of the file comes in
the width line of a layer before the last, `GetConfig` returns 1.  When
the end of the file comes in the last width line (`k = n - 1`) or later with
fewer than 4 newlines after the width lines (`n <= k < n + 4`), it returns 0
(`calloc` succeeding).  When 4 or more newlines follow the width lines
(`n + 4 <= k`), as in a file with four path lines each ended by a newline,
it does not return 0: the store after the path loop goes outside the array
`fields`. -/
theorem C23_GetConfig_return_value (l1 l2 l3 rest : List Nat) (ctx : ConfigContext α)
    (h1 : 10 ∉ l1) (h2 : 10 ∉ l2) (h3 : 10 ∉ l3) (hctx : ctx.layersCount = 0)
    (hfields : FieldsShaped ctx.fields) (hn : 0 < parseSize l3 0) :
    (rest.count 10 + 1 < parseSize l3 0 → ∀ callocOk,
      (GetConfig (some (l1 ++ 10 :: (l2 ++ 10 :: (l3 ++ 10 :: rest)))) callocOk ctx).map
        Prod.fst = some 1) ∧
    (parseSize l3 0 ≤ rest.count 10 + 1 → rest.count 10 < parseSize l3 0 + 4 →
      (GetConfig (some (l1 ++ 10 :: (l2 ++ 10 :: (l3 ++ 10 :: rest)))) true ctx).map
        Prod.fst = some 0) ∧
    (parseSize l3 0 + 4 ≤ rest.count 10 →
      GetConfig (some (l1 ++ 10 :: (l2 ++ 10 :: (l3 ++ 10 :: rest)))) true ctx = none) :=
  GetConfig_return l1 l2 l3 rest ctx h1 h2 h3 hctx hfields hn

/-- C23 (witness): the configuration with the lines `0.01`, `0.95`, `2`, `16`,
`10`, `a`, `b`, `c`, `d`, every line ended by a newline. -/
theorem C23_GetConfig_return_value_witness :
    GetConfig (some ([48, 46, 48, 49] ++ 10 :: ([48, 46, 57, 53] ++ 10 :: ([50] ++ 10 ::
      [49, 54, 10, 49, 48, 10, 97, 10, 98, 10, 99, 10, 100, 10])))) true
      (⟨false, 0, false, 0, false, 0, [], List.replicate 4 (List.replicate MAX_PATH 0)⟩ :
        ConfigContext ℚ) = none :=
  (C23_GetConfig_return_value [48, 46, 48, 49] [48, 46, 57, 53] [50]
    [49, 54, 10, 49, 48, 10, 97, 10, 98, 10, 99, 10, 100, 10]
    (⟨false, 0, false, 0, false, 0, [], List.replicate 4 (List.replicate MAX_PATH 0)⟩ :
      ConfigContext ℚ)
    (by decide) (by decide) (by decide) rfl
    FieldsShaped_replicate (by decide)).2.2 (by decide)

/-- C24: on a little-endian host `CorrectEndiannessFromBig`, applied to the word
the host reads from the four bytes `b0 b1 b2 b3` of a file, gives
`b0 * 2^24 + b1 * 2^16 + b2 * 2^8 + b3`, and applied twice to a 32-bit word it
gives the word back; on a big-endian host it gives its argument back. -/
theorem C24_CorrectEndiannessFromBig_reverses_bytes :
    (∀ b0 b1 b2 b3 : Nat, b0 < 256 → b1 < 256 → b2 < 256 → b3 < 256 →
      CorrectEndiannessFromBig true (hostWord true [b0, b1, b2, b3] 0) =
        b0 * 2 ^ 24 + b1 * 2 ^ 16 + b2 * 2 ^ 8 + b3) ∧
    (∀ w : Nat, w < 2 ^ 32 →
      CorrectEndiannessFromBig true (CorrectEndiannessFromBig true w) = w) ∧
    (∀ w : Nat, CorrectEndiannessFromBig false w = w) ∧
    (∀ b0 b1 b2 b3 : Nat,
      CorrectEndiannessFromBig false (hostWord false [b0, b1, b2, b3] 0) =
        b0 * 2 ^ 24 + b1 * 2 ^ 16 + b2 * 2 ^ 8 + b3) := by
  refine ⟨fun b0 b1 b2 b3 h0 h1 h2 h3 => ?_, fun w hw => ?_, fun w => ?_,
    fun b0 b1 b2 b3 => ?_⟩
  · have hv : hostWord true [b0, b1, b2, b3] 0 =
        b0 + b1 * 2 ^ 8 + b2 * 2 ^ 16 + b3 * 2 ^ 24 := by
      simp [hostWord]
    rw [hv, CorrectEndiannessFromBig_little _ (by omega)]
    omega
  · exact CorrectEndiannessFromBig_twice w hw
  · simp [CorrectEndiannessFromBig, GetEndianness]
  · simp [CorrectEndiannessFromBig, GetEndianness, hostWord]

/-- C24 (witness): the bytes `00 00 08 03` and the word `0x12345678`. -/
theorem C24_CorrectEndiannessFromBig_reverses_bytes_witness :
    CorrectEndiannessFromBig true (hostWord true [0, 0, 8, 3] 0) =
      0 * 2 ^ 24 + 0 * 2 ^ 16 + 8 * 2 ^ 8 + 3 ∧
    CorrectEndiannessFromBig true (CorrectEndiannessFromBig true 0x12345678) = 0x12345678 :=
  ⟨C24_CorrectEndiannessFromBig_reverses_bytes.1 0 0 8 3 (by decide) (by decide) (by decide)
      (by decide),
    C24_CorrectEndiannessFromBig_reverses_bytes.2.1 0x12345678 (by decide)⟩

/-- C25 (code bug): an image file whose header gives 1 image of
`0x80000001 x 2` pixels, followed by 2 pixel bytes.  The product
`1 * 0x80000001 * 2` is taken in `uint32_t` and wraps from `2^32 + 2` to 2, so
`GetImages` asks for 2 bytes, succeeds, and hands back an image of 2 bytes
where the header calls for `2^32 + 2`. -/
theorem C25_GetImages_size_wraps :
    GetImages true (some [0, 0, 8, 3, 0, 0, 0, 1, 128, 0, 0, 1, 0, 0, 0, 2, 7, 9]) true true =
      some { data := [[7, 9]], image_count := 1, row_count := 2 ^ 31 + 1, col_count := 2 } ∧
    1 * (2 ^ 31 + 1) * 2 = 2 ^ 32 + 2 ∧
    (1 * (2 ^ 31 + 1) % 2 ^ 32) * 2 % 2 ^ 32 = 2 := by
  refine ⟨by rfl, by decide, by decide⟩

/-- C26: on a network of at least 2 layers whose final layer has all weights
and all biases zero, `ForwardPass` returns and every output neuron holds
`0.5`, whatever the input and the weights and biases of the earlier layers
(`exp` any function with `exp 0 = 1`). -/
theorem C26_zero_final_layer_outputs_half (exp : α → α) (hexp : exp 0 = 1)
    (inputLayerSize : Nat) (inputLayer : List α) (layers_count : Nat)
    (layer_lengths : List Nat)
    (weights biases deactivated_neurons activated_neurons : List (List α))
    (hL : 2 ≤ layers_count) (hsz : layers_count < SIZE_MOD)
    (hll : layer_lengths.length = layers_count)
    (hin : inputLayer.length = inputLayerSize)
    (hW : WeightsShaped inputLayerSize layers_count layer_lengths weights)
    (hB : TableShaped layers_count layer_lengths biases)
    (hD : TableShaped layers_count layer_lengths deactivated_neurons)
    (hA : TableShaped layers_count layer_lengths activated_neurons)
    (hW0 : ∀ k, k < weightSize inputLayerSize layer_lengths (layers_count - 1) →
      at2 weights (layers_count - 1) k = 0)
    (hB0 : ∀ r, r < layer_lengths.getD (layers_count - 1) 0 →
      at2 biases (layers_count - 1) r = 0) :
    ∃ deact act, ForwardPass exp inputLayerSize inputLayer layers_count layer_lengths weights
        biases deactivated_neurons activated_neurons = some (deact, act) ∧
      ∀ r, r < layer_lengths.getD (layers_count - 1) 0 →
        at2 act (layers_count - 1) r = 1 / 2 := by
  have hW0a : ∀ k, at2 weights (layers_count - 1) k = 0 := by
    intro k
    by_cases hk : k < weightSize inputLayerSize layer_lengths (layers_count - 1)
    · exact hW0 k hk
    · unfold at2
      have hlen := hW.2 (layers_count - 1) (by omega)
      unfold weightSize at hk
      rw [List.getD_eq_default _ _ (by omega)]
  have hB0a : ∀ r, at2 biases (layers_count - 1) r = 0 := by
    intro r
    by_cases hr : r < layer_lengths.getD (layers_count - 1) 0
    · exact hB0 r hr
    · unfold at2
      have hlen := hB.2 (layers_count - 1) (by omega)
      rw [List.getD_eq_default _ _ (by omega)]
  obtain ⟨st, hrun, hout⟩ := zero_network_output exp hexp inputLayerSize inputLayer layers_count
    layer_lengths weights biases deactivated_neurons activated_neurons hL hsz hll
    (le_of_eq hin.symm) hW hB hD hA hW0a hB0a
  exact ⟨st.1, st.2, hrun, hout⟩

/-- C26 (witness): layer widths `[2, 1]` on 2 inputs, a first layer with
weights `[5, -6, 7, 8]` and biases `[1, -2]`, and a zero final layer. -/
theorem C26_zero_final_layer_outputs_half_witness :
    ∃ deact act, ForwardPass Real.exp 2 [3, 4] 2 [2, 1] [[5, -6, 7, 8], [0, 0]]
        [[1, -2], [0]] [[9, 9], [9]] [[9, 9], [9]] = some (deact, act) ∧
      ∀ r, r < [2, 1].getD (2 - 1) 0 → at2 act (2 - 1) r = 1 / 2 :=
  C26_zero_final_layer_outputs_half Real.exp Real.exp_zero 2 [3, 4] 2 [2, 1]
    [[5, -6, 7, 8], [0, 0]] [[1, -2], [0]] [[9, 9], [9]] [[9, 9], [9]]
    (by decide) (by decide) rfl rfl
    ⟨rfl, fun i hi => by interval_cases i <;> rfl⟩
    ⟨rfl, fun i hi => by interval_cases i <;> rfl⟩
    ⟨rfl, fun i hi => by interval_cases i <;> rfl⟩
    ⟨rfl, fun i hi => by interval_cases i <;> rfl⟩
    (fun k _ => by rcases k with _ | _ | k <;> simp [at2])
    (fun r _ => by rcases r with _ | r <;> simp [at2])

/-- C27: on a network of at least 2 layers whose buffers have the shapes of
the arena layout (layer `i` has a weight view of `W(i) * W(i-1)` entries,
`W(0) * inputSize` for layer 0, and bias, deactivated, activated and jacobian
views of `W(i)` entries; the input has `inputSize` entries and the target the
output width), `ForwardPass`, `BackPropagate` and `Descend` run to their end:
none of their array accesses, each of which is checked against the length of
the buffer it indexes, is out of bounds. -/
theorem C27_passes_stay_in_bounds (exp : α → α) (inputLayerSize : Nat)
    (inputLayer : List α) (layers_count : Nat) (layer_lengths : List Nat)
    (weights biases deactivated_neurons activated_neurons biasJacobian : List (List α))
    (intended : List α) (learningRate : α)
    (hL : 2 ≤ layers_count) (hsz : layers_count < SIZE_MOD)
    (hll : layer_lengths.length = layers_count)
    (hin : inputLayer.length = inputLayerSize)
    (hW : WeightsShaped inputLayerSize layers_count layer_lengths weights)
    (hB : TableShaped layers_count layer_lengths biases)
    (hD : TableShaped layers_count layer_lengths deactivated_neurons)
    (hA : TableShaped layers_count layer_lengths activated_neurons)
    (hJ : TableShaped layers_count layer_lengths biasJacobian)
    (hT : intended.length = layer_lengths.getD (layers_count - 1) 0) :
    (∃ st, ForwardPass exp inputLayerSize inputLayer layers_count layer_lengths weights
      biases deactivated_neurons activated_neurons = some st) ∧
    (∃ jac, BackPropagate layers_count layer_lengths weights deactivated_neurons
      activated_neurons intended biasJacobian = some jac) ∧
    (∃ wb, Descend layers_count layer_lengths inputLayerSize inputLayer activated_neurons
      weights biases biasJacobian learningRate = some wb) := by
  obtain ⟨st, hst, -⟩ := ForwardPass_spec exp inputLayerSize inputLayer layers_count
    layer_lengths weights biases deactivated_neurons activated_neurons hL hsz hll
    (le_of_eq hin.symm) hW hB hD hA
  obtain ⟨jac, hjac, -⟩ := BackPropagate_spec inputLayerSize layers_count layer_lengths
    weights deactivated_neurons activated_neurons intended biasJacobian (by omega) hsz hll hW
    hD hA (le_of_eq hT.symm) hJ
  obtain ⟨w1, b1, hwb, -⟩ := Descend_spec layers_count layer_lengths inputLayerSize
    inputLayer activated_neurons weights biases biasJacobian learningRate hll
    (le_of_eq hin.symm) hA hW hB hJ
  exact ⟨⟨st, hst⟩, ⟨jac, hjac⟩, ⟨(w1, b1), hwb⟩⟩

/-- C27 (witness): layer widths `[2, 1]` on 2 inputs. -/
theorem C27_passes_stay_in_bounds_witness :
    (∃ st, ForwardPass (fun x : ℚ => 1 + x) 2 [3, 4] 2 [2, 1] [[5, -6, 7, 8], [1, 2]]
      [[1, -2], [0]] [[9, 9], [9]] [[9, 9], [9]] = some st) ∧
    (∃ jac, BackPropagate 2 [2, 1] [[5, -6, 7, 8], [1, 2]] [[9, 9], [9]] [[9, 9], [9]]
      [(1 : ℚ)] [[0, 0], [0]] = some jac) ∧
    (∃ wb, Descend 2 [2, 1] 2 [3, 4] [[9, 9], [9]] [[5, -6, 7, 8], [1, 2]] [[1, -2], [0]]
      [[0, 0], [0]] (1 / 10 : ℚ) = some wb) :=
  C27_passes_stay_in_bounds (fun x : ℚ => 1 + x) 2 [3, 4] 2 [2, 1] [[5, -6, 7, 8], [1, 2]]
    [[1, -2], [0]] [[9, 9], [9]] [[9, 9], [9]] [[0, 0], [0]] [1] (1 / 10)
    (by decide) (by decide) rfl rfl
    ⟨rfl, fun i hi => by interval_cases i <;> rfl⟩
    ⟨rfl, fun i hi => by interval_cases i <;> rfl⟩
    ⟨rfl, fun i hi => by interval_cases i <;> rfl⟩
    ⟨rfl, fun i hi => by interval_cases i <;> rfl⟩
    ⟨rfl, fun i hi => by interval_cases i <;> rfl⟩
    rfl

/-- C28 (code bug): the stores inside the path loop of `GetConfig` all go to
one of the four filename buffers, below position `MAX_PATH`, and the loop
ends with `index < MAX_PATH` and `currField` the number of newlines read, at
most 4.  The store `fields[currField][index] = 0` after the loop is in
bounds when fewer than 4 newlines were read; when the paths hold 4 newlines
or more, as when the fourth path line ends with a newline, it is made with
`currField = 4`, outside the array `fields`. -/
theorem C28_store_after_path_loop (stream : List Nat) (fields : List (List Nat))
    (hfields : FieldsShaped fields) :
    ∃ st, pathScan stream ⟨fields, 0, 0⟩ = some st ∧
      st.currField = min 4 (stream.count 10) ∧ st.index < MAX_PATH ∧
      (stream.count 10 < 4 → ∃ f, readPaths stream fields = some f) ∧
      (4 ≤ stream.count 10 →
        st.currField = 4 ∧ wr2 st.fields st.currField st.index 0 = none ∧
        readPaths stream fields = none) := by
  obtain ⟨st, h1, h2, h3, h4⟩ := pathScan_spec stream ⟨fields, 0, 0⟩ hfields (Nat.zero_le 4)
    (by show 0 < MAX_PATH; decide)
  have h5 : st.currField = min 4 (stream.count 10) := by
    rw [h4]; show min 4 (0 + _) = _; rw [Nat.zero_add]
  obtain ⟨hlt, hge⟩ := readPaths_spec stream fields hfields
  refine ⟨st, h1, h5, h3, hlt, fun h => ⟨by rw [h5]; omega, ?_, hge h⟩⟩
  exact wr2_of_ge st.fields st.currField st.index 0 (by rw [h2.1, h5]; omega)

/-- C28 (witness): the path lines `a`, `b`, `c`, `d`, each ended by a newline. -/
theorem C28_store_after_path_loop_witness :
    readPaths [97, 10, 98, 10, 99, 10, 100, 10] (List.replicate 4 (List.replicate MAX_PATH 0)) =
      none ∧
    ∃ f, readPaths [97, 10, 98, 10, 99, 10, 100] (List.replicate 4 (List.replicate MAX_PATH 0))
      = some f := by
  obtain ⟨st, -, -, -, -, h⟩ := C28_store_after_path_loop [97, 10, 98, 10, 99, 10, 100, 10]
    (List.replicate 4 (List.replicate MAX_PATH 0)) FieldsShaped_replicate
  obtain ⟨st2, -, -, -, h2, -⟩ := C28_store_after_path_loop [97, 10, 98, 10, 99, 10, 100]
    (List.replicate 4 (List.replicate MAX_PATH 0)) FieldsShaped_replicate
  exact ⟨(h (by decide)).2.2, h2 (by decide)⟩

/-- C29: when `deactivated_neurons[i][row] < 0` for a layer `i` before the last,
`BackPropagate` returns with `biasJacobian[i][row] = 0`, and `Descend` with
that jacobian returns, for every learning rate, with `biases[i][row]` and
every weight of row `row` of layer `i` unchanged. -/
theorem C29_inactive_neuron_is_not_trained (inputLayerSize : Nat) (inputLayer : List α)
    (layers_count : Nat) (layer_lengths : List Nat)
    (weights biases deactivated_neurons activated_neurons biasJacobian : List (List α))
    (intended : List α) (i row : Nat)
    (hL : 2 ≤ layers_count) (hsz : layers_count < SIZE_MOD)
    (hll : layer_lengths.length = layers_count)
    (hin : inputLayer.length = inputLayerSize)
    (hW : WeightsShaped inputLayerSize layers_count layer_lengths weights)
    (hB : TableShaped layers_count layer_lengths biases)
    (hD : TableShaped layers_count layer_lengths deactivated_neurons)
    (hA : TableShaped layers_count layer_lengths activated_neurons)
    (hJ : TableShaped layers_count layer_lengths biasJacobian)
    (hT : intended.length = layer_lengths.getD (layers_count - 1) 0)
    (hi : i + 1 < layers_count) (hrow : row < layer_lengths.getD i 0)
    (hneg : at2 deactivated_neurons i row < 0) :
    ∃ jac, BackPropagate layers_count layer_lengths weights deactivated_neurons
        activated_neurons intended biasJacobian = some jac ∧
      at2 jac i row = 0 ∧
      ∀ learningRate : α, ∃ weights1 biases1,
        Descend layers_count layer_lengths inputLayerSize inputLayer activated_neurons
          weights biases jac learningRate = some (weights1, biases1) ∧
        at2 biases1 i row = at2 biases i row ∧
        ∀ col, col < srcWidth inputLayerSize layer_lengths i →
          at2 weights1 i (row * srcWidth inputLayerSize layer_lengths i + col) =
            at2 weights i (row * srcWidth inputLayerSize layer_lengths i + col) := by
  obtain ⟨jac, hjac, hJ1, hdone⟩ := BackPropagate_spec inputLayerSize layers_count
    layer_lengths weights deactivated_neurons activated_neurons intended biasJacobian
    (by omega) hsz hll hW hD hA (le_of_eq hT.symm) hJ
  have hzero : at2 jac i row = 0 := by
    rw [hdone.2 i (Nat.zero_le i) hi row hrow]
    exact hiddenJacobian_of_neg layer_lengths weights deactivated_neurons jac i row hneg
  refine ⟨jac, hjac, hzero, fun learningRate => ?_⟩
  obtain ⟨w1, b1, hwb, -, -, hdesc⟩ := Descend_spec layers_count layer_lengths inputLayerSize
    inputLayer activated_neurons weights biases jac learningRate hll (le_of_eq hin.symm) hA
    hW hB hJ1
  obtain ⟨hw, hb⟩ := hdesc i (by omega) row hrow
  refine ⟨w1, b1, hwb, by rw [hb, hzero, mul_zero, sub_zero], fun col hcol => ?_⟩
  rw [hw col hcol, hzero, mul_zero, sub_zero]

/-- C29 (witness): layer widths `[2, 1]` on 2 inputs with
`deactivated_neurons[0][1] = -1`. -/
theorem C29_inactive_neuron_is_not_trained_witness :
    ∃ jac, BackPropagate 2 [2, 1] [[5, -6, 7, 8], [1, 2]] [[3, -1], [2]] [[3, 0], [1 / 2]]
        [(1 : ℚ)] [[0, 0], [0]] = some jac ∧
      at2 jac 0 1 = 0 ∧
      ∀ learningRate : ℚ, ∃ weights1 biases1,
        Descend 2 [2, 1] 2 [3, 4] [[3, 0], [1 / 2]] [[5, -6, 7, 8], [1, 2]] [[1, -2], [0]]
          jac learningRate = some (weights1, biases1) ∧
        at2 biases1 0 1 = at2 [[1, -2], [(0 : ℚ)]] 0 1 ∧
        ∀ col, col < srcWidth 2 [2, 1] 0 →
          at2 weights1 0 (1 * srcWidth 2 [2, 1] 0 + col) =
            at2 [[5, -6, 7, 8], [1, (2 : ℚ)]] 0 (1 * srcWidth 2 [2, 1] 0 + col) :=
  C29_inactive_neuron_is_not_trained 2 [3, 4] 2 [2, 1] [[5, -6, 7, 8], [1, 2]]
    [[1, -2], [0]] [[3, -1], [2]] [[3, 0], [1 / 2]] [[0, 0], [0]] [1] 0 1
    (by decide) (by decide) rfl rfl
    ⟨rfl, fun i hi => by interval_cases i <;> rfl⟩
    ⟨rfl, fun i hi => by interval_cases i <;> rfl⟩
    ⟨rfl, fun i hi => by interval_cases i <;> rfl⟩
    ⟨rfl, fun i hi => by interval_cases i <;> rfl⟩
    ⟨rfl, fun i hi => by interval_cases i <;> rfl⟩
    rfl (by decide) (by decide) (by rfl)

/-- C30: the loop that reads a `double` skips every character other than a
digit and `'.'`: the state after a line is the state after the line with all
other characters deleted, so the values agree.  The value read into a
variable holding `0.0` is never negative, and a `'.'` followed by the digits
`f1 ... fn` adds `sum_j f_j * 10^(-j)` to the value read before it, whatever
came before.  The lines `-0.5`, `1e-3` and `1.2.3` give `0.5`, `13` and `1.5`. -/
theorem C30_double_reader_skips_other_characters :
    (∀ (line : List Nat) (st : DoubleState α),
      line.foldl accumulateDouble st =
        (line.filter (fun c => decide (c = 46) || isDigit c)).foldl accumulateDouble st) ∧
    (∀ line : List Nat,
      (parseDouble line : α) =
        parseDouble (line.filter (fun c => decide (c = 46) || isDigit c))) ∧
    (∀ line : List Nat, (0 : α) ≤ parseDouble line) ∧
    (∀ pre fs : List Nat, (∀ d ∈ fs, d < 10) →
      (parseDouble (pre ++ 46 :: fs.map (· + 48)) : α) = parseDouble pre + fractionValue fs) ∧
    (parseDouble [45, 48, 46, 53] : α) = 1 / 2 ∧
    (parseDouble [49, 101, 45, 51] : α) = 13 ∧
    (parseDouble [49, 46, 50, 46, 51] : α) = 3 / 2 := by
  refine ⟨foldl_accumulateDouble_filter, fun line => ?_, fun line => ?_, fun pre fs hfs => ?_,
    ?_, ?_, ?_⟩
  · unfold parseDouble
    rw [← foldl_accumulateDouble_filter]
  · exact foldl_accumulateDouble_nonneg line _ (le_refl _)
  · exact foldl_after_dot pre fs _ hfs
  · have h := foldl_after_dot (α := α) [45, 48] [5] ⟨false, 0, 0⟩ (by decide)
    have e : (([45, 48] : List Nat).foldl accumulateDouble (⟨false, 0, 0⟩ : DoubleState α)).value
        = 0 := by
      simp [accumulateDouble, isDigit]
    unfold parseDouble
    rw [show ([45, 48, 46, 53] : List Nat) = [45, 48] ++ 46 :: [5].map (· + 48) from rfl, h, e]
    simp [fractionValue]
    norm_num
  · simp [parseDouble, accumulateDouble, isDigit]
    norm_num
  · have h1 := foldl_after_dot (α := α) [49] [2] ⟨false, 0, 0⟩ (by decide)
    have h2 := foldl_after_dot (α := α) [49, 46, 50] [3] ⟨false, 0, 0⟩ (by decide)
    have e : (([49] : List Nat).foldl accumulateDouble (⟨false, 0, 0⟩ : DoubleState α)).value
        = 1 := by
      simp [accumulateDouble, isDigit]
    unfold parseDouble
    rw [show ([49, 46, 50, 46, 51] : List Nat) = [49, 46, 50] ++ 46 :: [3].map (· + 48) from rfl,
      h2, show ([49, 46, 50] : List Nat) = [49] ++ 46 :: [2].map (· + 48) from rfl, h1, e]
    simp [fractionValue]
    norm_num

/-- C30 (witness): the line `x.7` gives `0.7`. -/
theorem C30_double_reader_skips_other_characters_witness :
    (parseDouble ([120] ++ 46 :: [7].map (· + 48)) : ℚ) = parseDouble [120] + fractionValue [7] :=
  (C30_double_reader_skips_other_characters (α := ℚ)).2.2.2.1 [120] [7] (by decide)

end Claims

end NeuralNet
